import Mathlib

/-!
# Terraboard: the state diff engine, the Kubernetes provider and `auth`

A shallow embedding of the functions of `compare/compare.go`,
`state/kubernetes.go`, `auth/auth.go` and `auth/oidc.go`, and proofs of the
properties the specification states about them.

Modelling conventions.

* A Go `string` is a Lean `String`.  `len(s)` is `String.utf8ByteSize`, `==` is
  equality, `+` and `fmt.Sprintf` with `%s` are concatenation, `%d` is the
  decimal rendering `Nat.repr`.  Go compares strings byte-wise; on the UTF-8
  bytes of two texts that comparison is the order of `String`
  (`le_iff_utf8Bytes_le`), and the number of those bytes is `utf8ByteSize`
  (`utf8Bytes_length`).
* A Go slice is a `List`; `append` adds at the end.
* A Go `map[string]V` is a `GoMap V`: an association list in which every key
  occurs once; assignment `m[k] = v` is `GoMap.set`.
* A Go function returning `(value, error)` returns a pair whose second
  component is `none` when the error is `nil`.
* The package `types` declares the records; only the fields that
  `compare.go` reads or writes are kept.
* The library `github.com/pmezard/go-difflib/difflib` is outside the
  repository; its two functions used here are the fields of `Difflib`.
-/

namespace Terraboard

/-! ## Records of package `types` -/

/-- A leaf value of a resource: `types.Attribute`. -/
structure Attribute where
  Key : String
  Value : String
  Sensitive : Bool
  deriving DecidableEq, Repr, Inhabited

/-- A resource: `types.Resource` (the field `Type` is written `Type_`). -/
structure Resource where
  Type_ : String
  Name : String
  Attributes : List Attribute
  deriving DecidableEq, Repr

/-- The zero value of `types.Resource`. -/
instance : Inhabited Resource := ⟨⟨"", "", []⟩⟩

/-- A module: `types.Module`. -/
structure Module where
  Path : String
  Resources : List Resource
  deriving DecidableEq, Repr

/-- A version: `types.Version`; `LastModified` holds the text that `%s`
prints for the time stamp. -/
structure Version where
  VersionID : String
  LastModified : String
  deriving DecidableEq, Repr

/-- A state document: `types.State`. -/
structure State where
  Path : String
  Version : Version
  TFVersion : String
  Serial : Int
  Modules : List Module
  deriving DecidableEq, Repr

/-- Summary of one side of a comparison: `types.StateInfo`. -/
structure StateInfo where
  Path : String
  VersionID : String
  ResourceCount : Nat
  TFVersion : String
  Serial : Int
  deriving DecidableEq, Repr

/-- The zero value of `types.StateInfo`. -/
instance : Inhabited StateInfo := ⟨⟨"", "", 0, "", 0⟩⟩

/-! ## Go maps -/

/-- A Go map with string keys, as an association list without repeated keys. -/
abbrev GoMap (α : Type) := List (String × α)

/-- The assignment `m[k] = v`. -/
def GoMap.set {α : Type} : GoMap α → String → α → GoMap α
  | [], k, v => [(k, v)]
  | (k', v') :: m, k, v => if k' = k then (k, v) :: m else (k', v') :: GoMap.set m k v

/-- The lookup `m[k]`, `none` when the key is absent. -/
def GoMap.get? {α : Type} : GoMap α → String → Option α
  | [], _ => none
  | (k', v') :: m, k => if k' = k then some v' else GoMap.get? m k

/-- The keys of a map. -/
def GoMap.keys {α : Type} (m : GoMap α) : List String := m.map Prod.fst

/-- Attribute level difference of one resource: `types.ResourceDiff`. -/
structure ResourceDiff where
  OnlyInOld : GoMap String
  OnlyInNew : GoMap String
  UnifiedDiff : String
  deriving DecidableEq, Repr

/-- The anonymous struct `StateCompare.Stats`. -/
structure Stats where
  From : StateInfo
  To : StateInfo
  deriving DecidableEq, Repr

/-- The anonymous struct `StateCompare.Differences`. -/
structure Differences where
  OnlyInOld : GoMap String
  OnlyInNew : GoMap String
  InBoth : List String
  ResourceDiff : GoMap ResourceDiff
  deriving DecidableEq, Repr

/-- The result of a comparison: `types.StateCompare`. -/
structure StateCompare where
  Stats : Stats
  Differences : Differences
  deriving DecidableEq, Repr

/-- The zero value of `types.StateCompare`. -/
instance : Inhabited StateCompare := ⟨⟨⟨default, default⟩, ⟨[], [], [], []⟩⟩⟩

/-! ## The diff library -/

/-- The request record `difflib.UnifiedDiff`. -/
structure UnifiedDiff where
  A : List String
  B : List String
  FromFile : String
  ToFile : String
  Context : Nat
  Eol : String
  deriving DecidableEq, Repr

/-- The two functions of the external diff library that `compareResource`
calls.  The second component of the result of `GetUnifiedDiffString`, an
error, is discarded by the caller and is left out. -/
structure Difflib where
  SplitLines : String → List String
  GetUnifiedDiffString : UnifiedDiff → String

/-! ## Go strings as bytes -/

/-- The UTF-8 encoding of a code point. -/
def utf8Char (v : Nat) : List Nat :=
  if v < 0x80 then [v]
  else if v < 0x800 then [0xC0 + v / 64, 0x80 + v % 64]
  else if v < 0x10000 then [0xE0 + v / 4096, 0x80 + v / 64 % 64, 0x80 + v % 64]
  else [0xF0 + v / 262144, 0x80 + v / 4096 % 64, 0x80 + v / 64 % 64, 0x80 + v % 64]

/-- The bytes of the Go string that holds the text `s`. -/
def utf8Bytes (s : String) : List Nat := s.data.flatMap (fun c => utf8Char c.toNat)

/-! ## Functions of `compare.go` -/

/-- The test `strings.HasPrefix(s, p)`. -/
def HasPrefix (s p : String) : Bool := p.data.isPrefixOf s.data

/-- Deciding `a ≤ b` on strings by comparing the character lists, so that
the comparison evaluates by unfolding. -/
def decLE : DecidableRel (α := String) (· ≤ ·) :=
  fun a b => decidable_of_iff (a.toList ≤ b.toList) String.le_iff_toList_le.symm

/-- The call `sort.Strings`: the ascending rearrangement of the slice (the
result is the same for every sorting algorithm, see `sortStrings_unique`). -/
def sortStrings (l : List String) : List String :=
  @List.insertionSort String (· ≤ ·) decLE l

/-- The address `fmt.Sprintf("%s.%s.%s", m.Path, r.Type, r.Name)`. -/
def resourceAddress (m : Module) (r : Resource) : String :=
  m.Path ++ "." ++ r.Type_ ++ "." ++ r.Name

/-- Return all resources of a state. -/
def stateResources (state : State) : List String :=
  state.Modules.foldl
    (fun res m => m.Resources.foldl (fun res r => res ++ [resourceAddress m r]) res) []

/-- Returns elements only in s1. -/
def sliceDiff (s1 s2 : List String) : List String :=
  s1.foldl (fun diff e1 => if s2.any (fun e2 => e1 == e2) then diff else diff ++ [e1]) []

/-- Returns elements in both s1 and s2. -/
def sliceInter (s1 s2 : List String) : List String :=
  s1.foldl (fun inter e1 => if s2.any (fun e2 => e1 == e2) then inter ++ [e1] else inter) []

/-- The inner loop of `getResource`: the first resource of the module whose
address is the key. -/
def findResource (m : Module) (key : String) : List Resource → Option Resource
  | [] => none
  | r :: rs => if key = resourceAddress m r then some r else findResource m key rs

/-- The outer loop of `getResource`. -/
def getResourceLoop (key : String) : List Module → Option Resource
  | [] => none
  | m :: ms =>
    if HasPrefix key m.Path then
      match findResource m key m.Resources with
      | some r => some r
      | none => getResourceLoop key ms
    else getResourceLoop key ms

/-- The function `getResource`: the resource and a nil error, or the zero
resource and an error. -/
def getResource (state : State) (key : String) : Resource × Option String :=
  match getResourceLoop key state.Modules with
  | some r => (r, none)
  | none =>
    (default, some ("Could not find resource with key " ++ key ++ " in state " ++ state.Path))

/-- Return all attributes of a resource. -/
def resourceAttributes (res : Resource) : List String :=
  sortStrings (res.Attributes.foldl (fun attrs a => attrs ++ [a.Key]) [])

/-- The loop of `getResourceAttribute`. -/
def findAttribute (key : String) : List Attribute → Option Attribute
  | [] => none
  | a :: as => if a.Key = key then some a else findAttribute key as

/-- The function `getResourceAttribute`: the attribute and a nil error, or the
zero attribute and an error. -/
def getResourceAttribute (res : Resource) (key : String) : Attribute × Option String :=
  match findAttribute key res.Attributes with
  | some a => (a, none)
  | none =>
    (⟨"", "", false⟩,
      some ("could not find attribute " ++ key ++ " for resource " ++ res.Type_ ++ "." ++ res.Name))

/-- The function `formatResource`. -/
def formatResource (res : Resource) : String :=
  let out := "resource \"" ++ res.Type_ ++ "\" \"" ++ res.Name ++ "\" \x7b\n"
  let out := (resourceAttributes res).foldl
    (fun out attrKey =>
      let attr := (getResourceAttribute res attrKey).1
      if attr.Sensitive then
        if attr.Value = "null" then
          out ++ ("  " ++ attr.Key ++ " = (null)\n")
        else
          out ++ ("  " ++ attr.Key ++ " = (" ++ Nat.repr attr.Value.utf8ByteSize ++ ")\n")
      else
        out ++ ("  " ++ attr.Key ++ " = " ++ attr.Value ++ "\n"))
    out
  out ++ "\x7d\n"

/-- The function `stateInfo`. -/
def stateInfo (state : State) : String :=
  state.Path ++ " (" ++ state.Version.LastModified ++ ")"

/-- Compare a resource in two states. -/
def compareResource (d : Difflib) (st1 st2 : State) (key : String) : ResourceDiff :=
  let res1 := (getResource st1 key).1
  let attrs1 := resourceAttributes res1
  let res2 := (getResource st2 key).1
  let attrs2 := resourceAttributes res2
  -- Only in old
  let onlyInOld := (sliceDiff attrs1 attrs2).foldl
    (fun (m : GoMap String) attrKey =>
      let attr := (getResourceAttribute res1 attrKey).1
      if attr.Sensitive then
        if attr.Value = "null" then
          m.set attr.Key "(null)"
        else
          m.set attr.Key ("(" ++ Nat.repr attr.Value.utf8ByteSize ++ ")")
      else
        m.set attr.Key attr.Value)
    []
  -- Only in new
  let onlyInNew := (sliceDiff attrs2 attrs1).foldl
    (fun (m : GoMap String) attrKey =>
      let attr := (getResourceAttribute res2 attrKey).1
      if attr.Sensitive then
        if attr.Value = "null" then
          m.set attr.Key "(null)"
        else
          m.set attr.Key ("(" ++ Nat.repr attr.Value.utf8ByteSize ++ ")")
      else
        m.set attr.Key attr.Value)
    []
  -- Compute unified diff
  let diff : UnifiedDiff :=
    { A := d.SplitLines (formatResource res1)
      B := d.SplitLines (formatResource res2)
      FromFile := stateInfo st1
      ToFile := stateInfo st2
      Context := 3
      Eol := "\n" }
  { OnlyInOld := onlyInOld, OnlyInNew := onlyInNew,
    UnifiedDiff := d.GetUnifiedDiffString diff }

/-- Compare returns the difference between two versions of a State as a
StateCompare structure.  The log entry written before returning is left
out. -/
def Compare (d : Difflib) (from_ to_ : State) : StateCompare × Option String :=
  if from_.Path = "" then
    (default, some "from version is unknown")
  else
    let fromResources := stateResources from_
    let statsFrom : StateInfo :=
      { Path := from_.Path
        VersionID := from_.Version.VersionID
        ResourceCount := fromResources.length
        TFVersion := from_.TFVersion
        Serial := from_.Serial }
    if to_.Path = "" then
      ({ (default : StateCompare) with Stats := ⟨statsFrom, default⟩ },
        some "to version is unknown")
    else
      let toResources := stateResources to_
      let statsTo : StateInfo :=
        { Path := to_.Path
          VersionID := to_.Version.VersionID
          ResourceCount := toResources.length
          TFVersion := to_.TFVersion
          Serial := to_.Serial }
      -- OnlyInOld
      let onlyInOld := sliceDiff fromResources toResources
      let onlyInOldMap := onlyInOld.foldl
        (fun (m : GoMap String) r => m.set r (formatResource (getResource from_ r).1)) []
      -- OnlyInNew
      let onlyInNew := sliceDiff toResources fromResources
      let onlyInNewMap := onlyInNew.foldl
        (fun (m : GoMap String) r => m.set r (formatResource (getResource to_ r).1)) []
      let inBoth := sliceInter toResources fromResources
      let resourceDiff := inBoth.foldl
        (fun (m : GoMap ResourceDiff) r =>
          let c := compareResource d to_ from_ r
          if c.UnifiedDiff ≠ "" then m.set r c else m)
        []
      ({ Stats := ⟨statsFrom, statsTo⟩
         Differences :=
          { OnlyInOld := onlyInOldMap
            OnlyInNew := onlyInNewMap
            InBoth := inBoth
            ResourceDiff := resourceDiff } },
        none)

/-! ## The canonical form in the words of the specification -/

/-- The redaction rule: a sensitive value is rendered as `(null)` when it is
the string `null` and as its byte length in parentheses otherwise; a value
that is not sensitive is rendered verbatim. -/
def renderValue (a : Attribute) : String :=
  if a.Sensitive then
    if a.Value = "null" then "(null)" else "(" ++ Nat.repr a.Value.utf8ByteSize ++ ")"
  else a.Value

/-- The line of the canonical form for one attribute, in its three cases. -/
def attributeLine (a : Attribute) : String :=
  if a.Sensitive then
    if a.Value = "null" then "  " ++ a.Key ++ " = (null)\n"
    else "  " ++ a.Key ++ " = (" ++ Nat.repr a.Value.utf8ByteSize ++ ")\n"
  else "  " ++ a.Key ++ " = " ++ a.Value ++ "\n"

/-- The first line of the canonical form. -/
def resourceHeader (res : Resource) : String :=
  "resource \"" ++ res.Type_ ++ "\" \"" ++ res.Name ++ "\" \x7b\n"

/-- The last line of the canonical form. -/
def resourceFooter : String := "\x7d\n"

/-- The lines of a text: the pieces between newline characters, each without
its leading blanks. -/
def textLines (s : String) : List (List Char) :=
  (s.data.splitOn '\n').map (fun l => l.dropWhile (fun c => c = ' '))

/-- The text contains the given line, indentation apart. -/
def hasLine (text line : String) : Prop := line.data ∈ textLines text

instance (text line : String) : Decidable (hasLine text line) :=
  inferInstanceAs (Decidable (line.data ∈ textLines text))

/-! ## Sample data: scenario S1 -/

/-- The resource `aws_db_instance.main` with the password `hunter2`. -/
def dbHunter : Resource :=
  ⟨"aws_db_instance", "main", [⟨"username", "root", false⟩, ⟨"password", "hunter2", true⟩]⟩

/-- The resource `aws_db_instance.main` with the password `other`. -/
def dbOther : Resource :=
  ⟨"aws_db_instance", "main", [⟨"username", "root", false⟩, ⟨"password", "other", true⟩]⟩

/-- The resource `dbHunter` with its attributes stored in the other order. -/
def dbHunterSwapped : Resource :=
  ⟨"aws_db_instance", "main", [⟨"password", "hunter2", true⟩, ⟨"username", "root", false⟩]⟩

/-- The resource `aws_db_instance.main` with the password `hunter2`, its values
stored as JSON encoded leaves. -/
def dbHunterJSON : Resource :=
  ⟨"aws_db_instance", "main",
    [⟨"username", "\"root\"", false⟩, ⟨"password", "\"hunter2\"", true⟩]⟩

/-- The state has a resource with the given address. -/
def State.hasAddress (s : State) (k : String) : Prop :=
  ∃ m ∈ s.Modules, ∃ r ∈ m.Resources, resourceAddress m r = k

/-! ## States that differ in sensitive values only -/

/-- The attribute `a'` is the attribute `a`, except that the value of a
sensitive attribute may be replaced by a value of the same byte length when
neither value is the string `null`. -/
def Attribute.SecretVariant (a a' : Attribute) : Prop :=
  a'.Key = a.Key ∧ a'.Sensitive = a.Sensitive ∧
    (a'.Value = a.Value ∨
      (a.Sensitive = true ∧ a'.Value.utf8ByteSize = a.Value.utf8ByteSize ∧
        a.Value ≠ "null" ∧ a'.Value ≠ "null"))

/-- The resource `r'` is `r` up to the values of sensitive attributes. -/
def Resource.SecretVariant (r r' : Resource) : Prop :=
  r'.Type_ = r.Type_ ∧ r'.Name = r.Name ∧
    List.Forall₂ Attribute.SecretVariant r.Attributes r'.Attributes

/-- The module `m'` is `m` up to the values of sensitive attributes. -/
def Module.SecretVariant (m m' : Module) : Prop :=
  m'.Path = m.Path ∧ List.Forall₂ Resource.SecretVariant m.Resources m'.Resources

/-- The state `s'` differs from `s` only in the values of sensitive
attributes. -/
def State.SecretVariant (s s' : State) : Prop :=
  s'.Path = s.Path ∧ s'.Version = s.Version ∧ s'.TFVersion = s.TFVersion ∧
    s'.Serial = s.Serial ∧ List.Forall₂ Module.SecretVariant s.Modules s'.Modules

/-! ## An instance of the diff library, for evaluating examples -/

/-- The pieces of a text, each ending after a newline: `strings.SplitAfter`
with the separator `\n`. -/
def splitAfterNewline : List Char → List (List Char)
  | [] => [[]]
  | c :: cs =>
    match splitAfterNewline cs with
    | [] => [[c]]
    | l :: ls => if c = '\n' then [c] :: l :: ls else (c :: l) :: ls

/-- An instance of the library interface on which examples are evaluated; the
theorems hold for every instance.  `SplitLines` is the library's (the pieces
after each newline, a newline added to the last one).  The diff is empty for
equal inputs and is otherwise written as one hunk that removes the lines of
`A` and adds the lines of `B`; the library writes smaller hunks. -/
def plainDifflib : Difflib where
  SplitLines := fun s =>
    let lines := (splitAfterNewline s.data).map String.mk
    lines.dropLast ++ [lines.getLast?.getD "" ++ "\n"]
  GetUnifiedDiffString := fun u =>
    if u.A = u.B then ""
    else
      "--- " ++ u.FromFile ++ u.Eol ++ "+++ " ++ u.ToFile ++ u.Eol
        ++ "@@ -1," ++ Nat.repr u.A.length ++ " +1," ++ Nat.repr u.B.length ++ " @@" ++ u.Eol
        ++ String.join (u.A.map (fun l => "-" ++ l)) ++ String.join (u.B.map (fun l => "+" ++ l))

/-! ## Sample data: two versions of one state -/

/-- A version with the resources `web` and `db`. -/
def stateV1 : State :=
  { Path := "env/prod/app.tfstate", Version := ⟨"v1", "2024-01-01 00:00:00 +0000 UTC"⟩,
    TFVersion := "1.5.0", Serial := 1,
    Modules := [⟨"root",
      [⟨"aws_instance", "web", [⟨"instance_type", "\"t2.micro\"", false⟩]⟩,
       ⟨"aws_db_instance", "main",
         [⟨"username", "\"root\"", false⟩, ⟨"password", "\"hunter2\"", true⟩]⟩]⟩] }

/-- The next version: `web` resized, `db` gone, a bucket added. -/
def stateV2 : State :=
  { Path := "env/prod/app.tfstate", Version := ⟨"v2", "2024-02-01 00:00:00 +0000 UTC"⟩,
    TFVersion := "1.5.0", Serial := 2,
    Modules := [⟨"root",
      [⟨"aws_instance", "web", [⟨"instance_type", "\"t2.small\"", false⟩]⟩,
       ⟨"aws_s3_bucket", "logs", [⟨"bucket", "\"logs\"", false⟩]⟩]⟩] }

/-- The version `stateV1` with another password of the same length. -/
def stateV1Secret : State :=
  { Path := "env/prod/app.tfstate", Version := ⟨"v1", "2024-01-01 00:00:00 +0000 UTC"⟩,
    TFVersion := "1.5.0", Serial := 1,
    Modules := [⟨"root",
      [⟨"aws_instance", "web", [⟨"instance_type", "\"t2.micro\"", false⟩]⟩,
       ⟨"aws_db_instance", "main",
         [⟨"username", "\"root\"", false⟩, ⟨"password", "\"swordfi\"", true⟩]⟩]⟩] }

/-- A version whose resource `web` has the attribute `only_a`. -/
def stateA : State :=
  { Path := "env/prod/app.tfstate", Version := ⟨"v1", "2024-01-01 00:00:00 +0000 UTC"⟩,
    TFVersion := "1.5.0", Serial := 1,
    Modules := [⟨"root", [⟨"aws_instance", "web",
      [⟨"ami", "\"ami-1\"", false⟩, ⟨"only_a", "1", false⟩]⟩]⟩] }

/-- A version whose resource `web` has the attribute `only_b`. -/
def stateB : State :=
  { Path := "env/prod/app.tfstate", Version := ⟨"v2", "2024-02-01 00:00:00 +0000 UTC"⟩,
    TFVersion := "1.5.0", Serial := 2,
    Modules := [⟨"root", [⟨"aws_instance", "web",
      [⟨"ami", "\"ami-1\"", false⟩, ⟨"only_b", "2", false⟩]⟩]⟩] }

/-- The request that `Compare d stateA stateB` hands to the diff library for
the resource `web`. -/
def requestAB (d : Difflib) : UnifiedDiff :=
  { A := d.SplitLines
      "resource \"aws_instance\" \"web\" \x7b\n  ami = \"ami-1\"\n  only_b = 2\n\x7d\n"
    B := d.SplitLines
      "resource \"aws_instance\" \"web\" \x7b\n  ami = \"ami-1\"\n  only_a = 1\n\x7d\n"
    FromFile := "env/prod/app.tfstate (2024-02-01 00:00:00 +0000 UTC)"
    ToFile := "env/prod/app.tfstate (2024-01-01 00:00:00 +0000 UTC)"
    Context := 3
    Eol := "\n" }

/-- The request that `Compare d stateV1 stateV2` hands to the diff library for
the resource `web`. -/
def requestV1V2 (d : Difflib) : UnifiedDiff :=
  { A := d.SplitLines
      "resource \"aws_instance\" \"web\" \x7b\n  instance_type = \"t2.small\"\n\x7d\n"
    B := d.SplitLines
      "resource \"aws_instance\" \"web\" \x7b\n  instance_type = \"t2.micro\"\n\x7d\n"
    FromFile := "env/prod/app.tfstate (2024-02-01 00:00:00 +0000 UTC)"
    ToFile := "env/prod/app.tfstate (2024-01-01 00:00:00 +0000 UTC)"
    Context := 3
    Eol := "\n" }

/-! ## Sample data: the same content in another version, and in another order -/

/-- The content of `stateV1` under another version, serial and Terraform
version. -/
def stateV1Later : State :=
  { stateV1 with
    Version := ⟨"v7", "2024-03-01 00:00:00 +0000 UTC"⟩, TFVersion := "1.6.0", Serial := 7 }

/-- The content of `stateV1` with its two resources stored in the other
order. -/
def stateV1Reordered : State :=
  { Path := "env/prod/app.tfstate", Version := ⟨"v3", "2024-03-01 00:00:00 +0000 UTC"⟩,
    TFVersion := "1.5.0", Serial := 3,
    Modules := [⟨"root",
      [⟨"aws_db_instance", "main",
         [⟨"username", "\"root\"", false⟩, ⟨"password", "\"hunter2\"", true⟩]⟩,
       ⟨"aws_instance", "web", [⟨"instance_type", "\"t2.micro\"", false⟩]⟩]⟩] }

/-! ## The diff library on equal inputs -/

/-- The diff of a sequence of lines with itself is empty, whatever the labels:
the library writes a header and hunks only for groups of changes, and finds
none. -/
def Difflib.EmptyOnEqual (d : Difflib) : Prop :=
  ∀ u : UnifiedDiff, u.A = u.B → d.GetUnifiedDiffString u = ""

/-! ## Package `state`: the Kubernetes provider (`state/kubernetes.go`)

The cluster, the label and time functions and the client construction are
outside the repository; the provider takes them as the records `Client`,
`Libs` and `ClientGo`.  An error is its message. -/

namespace state

/-- A point in time, `time.Time`, as nanoseconds since the epoch; the provider
only copies such values. -/
structure Time where
  unixNano : Int
  deriving DecidableEq, Repr

/-- A version of a state: `state.Version`. -/
structure Version where
  ID : String
  LastModified : Time
  deriving DecidableEq, Repr

/-- A lock on a state: `state.LockInfo`; `Created` is a pointer, `none` when
nil. -/
structure LockInfo where
  ID : String
  Path : String
  Operation : String
  Info : String
  Who : String
  Version : String
  Created : Option Time
  deriving DecidableEq, Repr

/-- A secret, `corev1.Secret`, with the fields the provider reads and the
namespace it lives in; `Data` maps a key to bytes. -/
structure Secret where
  Name : String
  Namespace : String
  CreationTimestamp : Time
  Annotations : GoMap String
  Data : GoMap (List Nat)
  deriving DecidableEq, Repr

/-- The two calls the provider makes on `kubernetes.Interface`:
`CoreV1().Secrets(namespace).List(ctx, options)`, given the namespace and the
label selector of the options, and `CoreV1().Secrets(namespace).Get(ctx, name,
options)`, given the namespace and the name. -/
structure Client where
  ListSecrets : String → String → Except String (List Secret)
  GetSecret : String → String → Except String Secret

/-- Library functions the provider calls: `labels.Set(m).String()` and
`time.Parse(time.RFC3339, s)`, `none` when parsing fails. -/
structure Libs where
  LabelsString : GoMap String → String
  ParseRFC3339 : String → Option Time

/-- The provider: `state.Kubernetes` (the field `namespace` is written
`namespace_`). -/
structure Kubernetes where
  client : Client
  namespace_ : String
  suffix : String
  labels : GoMap String
  noLocks : Bool

/-- The configuration of one provider: `config.KubernetesConfig`. -/
structure KubernetesConfig where
  Namespace : String
  SecretSuffix : String
  Labels : GoMap String
  ConfigPath : String
  ConfigContext : String
  ConfigContextAuthInfo : String
  ConfigContextCluster : String
  InClusterConfig : Bool
  deriving DecidableEq, Repr

/-- The provider section of the configuration: `config.ProviderConfig`. -/
structure ProviderConfig where
  NoVersioning : Bool
  NoLocks : Bool
  deriving DecidableEq, Repr

/-- The configuration, `config.Config`, with the fields read here. -/
structure Config where
  Provider : ProviderConfig
  Kubernetes : List KubernetesConfig
  deriving DecidableEq, Repr

/-- The record `clientcmd.ConfigOverrides`, with the fields set here. -/
structure ConfigOverrides where
  CurrentContext : String
  ContextAuthInfo : String
  ContextCluster : String
  deriving DecidableEq, Repr

/-- The functions of `client-go` and `path/filepath` that `NewKubernetes`
calls; `RestConfig` stands for `*rest.Config`.  `ClientConfig` is given the
explicit path of the loading rules and the overrides. -/
structure ClientGo (RestConfig : Type) where
  InClusterConfig : Except String RestConfig
  DefaultFilename : String
  FilepathJoin : String → String
  ClientConfig : String → ConfigOverrides → Except String RestConfig
  NewForConfig : RestConfig → Except String Client

/-- The call `strings.TrimSuffix(s, suffix)`. -/
def TrimSuffix (s suffix : String) : String :=
  if suffix.data.isSuffixOf s.data then
    String.mk (s.data.take (s.data.length - suffix.data.length))
  else s

/-- NewKubernetes creates a Kubernetes object; the log entries are left
out. -/
def NewKubernetes {RestConfig : Type} (cg : ClientGo RestConfig)
    (k8sConfig : KubernetesConfig) (noLocks : Bool) : Option Kubernetes × Option String :=
  if k8sConfig.Namespace = "" ∧ k8sConfig.SecretSuffix = "" then
    (none, none)
  else
    let config : Except String RestConfig :=
      if k8sConfig.InClusterConfig then
        cg.InClusterConfig
      else
        let kubeconfig :=
          if k8sConfig.ConfigPath = "" then cg.FilepathJoin cg.DefaultFilename
          else k8sConfig.ConfigPath
        let configOverrides : ConfigOverrides := ⟨"", "", ""⟩
        let configOverrides :=
          if k8sConfig.ConfigContext ≠ "" then
            { configOverrides with CurrentContext := k8sConfig.ConfigContext }
          else configOverrides
        let configOverrides :=
          if k8sConfig.ConfigContextAuthInfo ≠ "" then
            { configOverrides with ContextAuthInfo := k8sConfig.ConfigContextAuthInfo }
          else configOverrides
        let configOverrides :=
          if k8sConfig.ConfigContextCluster ≠ "" then
            { configOverrides with ContextCluster := k8sConfig.ConfigContextCluster }
          else configOverrides
        cg.ClientConfig kubeconfig configOverrides
    match config with
    | .error err => (none, some ("failed to create Kubernetes config: " ++ err))
    | .ok config =>
      match cg.NewForConfig config with
      | .error err => (none, some ("failed to create Kubernetes client: " ++ err))
      | .ok clientset =>
        (some
          { client := clientset
            namespace_ := k8sConfig.Namespace
            suffix := k8sConfig.SecretSuffix
            labels := k8sConfig.Labels
            noLocks := noLocks },
          none)

/-- The loop of `NewKubernetesCollection`, from the providers gathered so
far. -/
def collectProviders {RestConfig : Type} (cg : ClientGo RestConfig) (noLocks : Bool) :
    List KubernetesConfig → List Kubernetes → List Kubernetes × Option String
  | [], providers => (providers, none)
  | k8sConfig :: rest, providers =>
    match NewKubernetes cg k8sConfig noLocks with
    | (_, some err) => ([], some err)
    | (some provider, none) => collectProviders cg noLocks rest (providers ++ [provider])
    | (none, none) => collectProviders cg noLocks rest providers

/-- NewKubernetesCollection returns a collection of Kubernetes providers. -/
def NewKubernetesCollection {RestConfig : Type} (cg : ClientGo RestConfig) (c : Config) :
    List Kubernetes × Option String :=
  collectProviders cg c.Provider.NoLocks c.Kubernetes []

/-- The label selector of the list options built in `GetStates` and in
`GetLocks`. -/
def Kubernetes.labelSelector (lib : Libs) (k : Kubernetes) : String :=
  let matchLabels : GoMap String := if k.labels.length > 0 then k.labels else []
  lib.LabelsString matchLabels

/-- GetStates returns a list of all Terraform state names stored in Kubernetes
Secrets. -/
def Kubernetes.GetStates (lib : Libs) (k : Kubernetes) : List String × Option String :=
  match k.client.ListSecrets k.namespace_ (k.labelSelector lib) with
  | .error err => ([], some ("failed to list secrets: " ++ err))
  | .ok secrets =>
    let states := secrets.foldl
      (fun (states : List String) secret =>
        -- Check if this secret contains Terraform state
        if (GoMap.get? secret.Data "tfstate").isSome then
          -- Remove the suffix to get the state name
          let stateName := TrimSuffix secret.Name ("-" ++ k.suffix)
          if stateName ≠ secret.Name then states ++ [stateName] else states
        else states)
      []
    (sortStrings states, none)

/-- GetVersions returns version history for a state. -/
def Kubernetes.GetVersions (lib : Libs) (k : Kubernetes) (stateName : String) :
    List Version × Option String :=
  let secretName := stateName ++ "-" ++ k.suffix
  match k.client.GetSecret k.namespace_ secretName with
  | .error err => ([], some ("failed to get secret " ++ secretName ++ ": " ++ err))
  | .ok secret =>
    let versions : List Version :=
      [{ ID := "current", LastModified := secret.CreationTimestamp }]
    -- Check if there's a last-modified annotation
    let versions :=
      match GoMap.get? secret.Annotations "terraform.io/last-modified" with
      | some lastModified =>
        match lib.ParseRFC3339 lastModified with
        | some t => versions.modifyHead (fun v => { v with LastModified := t })
        | none => versions
      | none => versions
    (versions, none)

/-- GetLocks returns lock information from Kubernetes Secret annotations. -/
def Kubernetes.GetLocks (lib : Libs) (k : Kubernetes) : GoMap LockInfo × Option String :=
  if k.noLocks then
    ([], none)
  else
    match k.client.ListSecrets k.namespace_ (k.labelSelector lib) with
    | .error err => ([], some ("failed to list secrets for locks: " ++ err))
    | .ok secrets =>
      let locks := secrets.foldl
        (fun (locks : GoMap LockInfo) secret =>
          -- Check if this secret has lock annotations
          match GoMap.get? secret.Annotations "terraform.io/lock-id" with
          | some lockID =>
            let stateName := TrimSuffix secret.Name ("-" ++ k.suffix)
            if stateName = secret.Name then
              locks -- Skip if suffix wasn't found
            else
              let lockInfo : LockInfo :=
                { ID := lockID, Path := stateName, Operation := "", Info := "", Who := "",
                  Version := "", Created := none }
              let lockInfo :=
                match GoMap.get? secret.Annotations "terraform.io/lock-operation" with
                | some operation => { lockInfo with Operation := operation }
                | none => lockInfo
              let lockInfo :=
                match GoMap.get? secret.Annotations "terraform.io/lock-info" with
                | some info => { lockInfo with Info := info }
                | none => lockInfo
              let lockInfo :=
                match GoMap.get? secret.Annotations "terraform.io/lock-who" with
                | some who => { lockInfo with Who := who }
                | none => lockInfo
              let lockInfo :=
                match GoMap.get? secret.Annotations "terraform.io/lock-version" with
                | some version => { lockInfo with Version := version }
                | none => lockInfo
              let lockInfo :=
                match GoMap.get? secret.Annotations "terraform.io/lock-created" with
                | some created =>
                  match lib.ParseRFC3339 created with
                  | some t => { lockInfo with Created := some t }
                  | none => lockInfo
                | none => lockInfo
              locks.set stateName lockInfo
          | none => locks)
        []
      (locks, none)

end state

/-! ## The lock entry of a secret, and sample clusters -/

/-- A map after an optional assignment. -/
def GoMap.addEntry {α : Type} (m : GoMap α) : Option (String × α) → GoMap α
  | some (n, v) => m.set n v
  | none => m

namespace state

/-- The lock that a secret with the annotation `terraform.io/lock-id` stands
for: the lock annotations, each the empty string when absent, and the creation
time when the annotation `terraform.io/lock-created` is present and parses. -/
def lockInfoOf (lib : Libs) (secret : Secret) (lockID stateName : String) : LockInfo :=
  { ID := lockID
    Path := stateName
    Operation := (GoMap.get? secret.Annotations "terraform.io/lock-operation").getD ""
    Info := (GoMap.get? secret.Annotations "terraform.io/lock-info").getD ""
    Who := (GoMap.get? secret.Annotations "terraform.io/lock-who").getD ""
    Version := (GoMap.get? secret.Annotations "terraform.io/lock-version").getD ""
    Created := (GoMap.get? secret.Annotations "terraform.io/lock-created").bind lib.ParseRFC3339 }

/-- The entry that a listed secret adds to the map of locks, if any. -/
def lockEntry (lib : Libs) (k : Kubernetes) (secret : Secret) : Option (String × LockInfo) :=
  match GoMap.get? secret.Annotations "terraform.io/lock-id" with
  | some lockID =>
    if TrimSuffix secret.Name ("-" ++ k.suffix) = secret.Name then none
    else
      some (TrimSuffix secret.Name ("-" ++ k.suffix),
        lockInfoOf lib secret lockID (TrimSuffix secret.Name ("-" ++ k.suffix)))
  | none => none

/-- A client over a fixed list of secrets, on which examples are evaluated:
listing returns the secrets of the namespace, whatever the selector, and
getting returns the secret of that name or an error. -/
def fakeClient (secrets : List Secret) : Client where
  ListSecrets := fun ns _ => .ok (secrets.filter (fun s => s.Namespace = ns))
  GetSecret := fun ns name =>
    match secrets.find? (fun s => s.Namespace = ns ∧ s.Name = name) with
    | some s => .ok s
    | none => .error ("secrets \"" ++ name ++ "\" not found")

/-- A client of a cluster that cannot be reached. -/
def downClient : Client where
  ListSecrets := fun _ _ => .error "connection refused"
  GetSecret := fun _ _ => .error "connection refused"

/-- Library functions on which examples are evaluated: the labels joined as
`key=value` pairs, and a parser that knows two time stamps. -/
def sampleLibs : Libs where
  LabelsString := fun m => String.intercalate "," (m.map (fun p => p.1 ++ "=" ++ p.2))
  ParseRFC3339 := fun s =>
    if s = "2024-02-01T00:00:00Z" then some ⟨1706745600000000000⟩
    else if s = "2024-03-01T00:00:00Z" then some ⟨1709251200000000000⟩
    else none

/-- The provider of the tests over the given secrets: namespace `default`,
suffix `tfstate`, no labels, locks enabled. -/
def fakeProvider (secrets : List Secret) : Kubernetes :=
  { client := fakeClient secrets, namespace_ := "default", suffix := "tfstate", labels := [],
    noLocks := false }

/-- The state document of the tests. -/
def sampleDocument : List Nat :=
  utf8Bytes "\x7b\"version\": 4, \"terraform_version\": \"1.0.0\"\x7d"

/-- The secret `test-state-tfstate` of the tests, with its lock annotations and
a last-modified annotation. -/
def secretTestState : Secret :=
  { Name := "test-state-tfstate", Namespace := "default",
    CreationTimestamp := ⟨1704067200000000000⟩,
    Annotations :=
      [("terraform.io/lock-id", "test-lock-id"), ("terraform.io/lock-operation", "apply"),
       ("terraform.io/lock-info", "Terraform apply"), ("terraform.io/lock-who", "user@example.com"),
       ("terraform.io/lock-version", "1.0.0"),
       ("terraform.io/lock-created", "2024-03-01T00:00:00Z"),
       ("terraform.io/last-modified", "2024-02-01T00:00:00Z")],
    Data := [("tfstate", sampleDocument)] }

/-- The secret `another-state-tfstate` of the tests, without annotations. -/
def secretAnotherState : Secret :=
  { Name := "another-state-tfstate", Namespace := "default",
    CreationTimestamp := ⟨1704067200000000000⟩, Annotations := [],
    Data := [("tfstate", sampleDocument)] }

/-- A secret with the suffix and without state data. -/
def secretNoData : Secret :=
  { Name := "empty-tfstate", Namespace := "default",
    CreationTimestamp := ⟨1704067200000000000⟩, Annotations := [],
    Data := [("other", [])] }

/-- A secret with state data and a lock, and without the suffix. -/
def secretNoSuffix : Secret :=
  { Name := "test-state-backup", Namespace := "default",
    CreationTimestamp := ⟨1704067200000000000⟩,
    Annotations := [("terraform.io/lock-id", "other-lock")],
    Data := [("tfstate", sampleDocument)] }

/-- The secrets of the sample cluster. -/
def sampleSecrets : List Secret :=
  [secretTestState, secretNoData, secretAnotherState, secretNoSuffix]

/-- A `client-go` without any cluster configuration, as in the unit tests:
every way of building a configuration fails. -/
def noClusterClientGo : ClientGo Unit where
  InClusterConfig := .error "unable to load in-cluster configuration"
  DefaultFilename := "/root/.kube/config"
  FilepathJoin := fun p => p
  ClientConfig := fun _ _ => .error "invalid configuration: no configuration has been provided"
  NewForConfig := fun _ => .error "no configuration"

end state

/-! ## Package `db`: attributes of a resource instance

The package `db` is not among the sources; `MarshalAttributeValues` is known
from its test and from section 4.1 of the specification. -/

namespace db

/-- Modelled from the spec: the attributes of an instance "arrive as a nested
JSON value"; a leaf carries the raw text of its JSON encoding, which the
parser preserves. -/
inductive JSONValue where
  | leaf (raw : String)
  | object (fields : List (String × JSONValue))
  | array (items : List JSONValue)

/-- Modelled from the spec: a step of a sensitive path, `cty.GetAttrStep` or
`cty.IndexStep` with a numeric key. -/
inductive PathStep where
  | GetAttr (Name : String)
  | Index (Key : Nat)
  deriving DecidableEq, Repr

/-- Modelled from the spec: the instance handed to `MarshalAttributeValues`,
`states.ResourceInstanceObjectSrc`, with its attributes as the parsed JSON
value and its sensitive paths. -/
structure ResourceInstanceObjectSrc where
  AttrsJSON : JSONValue
  AttrSensitivePaths : List (List PathStep)

/-- Modelled from the spec: one more segment on a dotted key. -/
def joinKey (key segment : String) : String :=
  if key = "" then segment else key ++ "." ++ segment

/-- Modelled from the spec: the dotted text of a path step, an attribute name
or a numeric index. -/
def PathStep.segment : PathStep → String
  | .GetAttr name => name
  | .Index key => Nat.repr key

/-- Modelled from the spec: the normalized form of a sensitive path, a dotted
string. -/
def dottedPath (path : List PathStep) : String :=
  path.foldl (fun key step => joinKey key step.segment) ""

mutual
/-- Modelled from the spec: the JSON value is flattened to its leaf paths,
written as dotted keys with numeric array indices; each leaf gives its key and
the raw text of its encoding. -/
def flatten (key : String) : JSONValue → List (String × String)
  | .leaf raw => [(key, raw)]
  | .object fields => flattenFields key fields
  | .array items => flattenItems key 0 items
/-- Modelled from the spec: the leaves of the fields of an object. -/
def flattenFields (key : String) : List (String × JSONValue) → List (String × String)
  | [] => []
  | (name, v) :: rest => flatten (joinKey key name) v ++ flattenFields key rest
/-- Modelled from the spec: the leaves of the items of an array, from index
`i`. -/
def flattenItems (key : String) (i : Nat) : List JSONValue → List (String × String)
  | [] => []
  | v :: rest => flatten (joinKey key (Nat.repr i)) v ++ flattenItems key (i + 1) rest
end

/-- Modelled from the spec: the flattened key "is equal to, or a descendant
of" the sensitive path, by the "prefix-match test for subtrees".  The path of
the whole value, whose dotted form is empty, has every key below it; at or
below any other path are the dotted path itself and the keys that continue it
after a dot. -/
def keyUnderPath (key : String) (path : List PathStep) : Bool :=
  decide (dottedPath path = "") || decide (key = dottedPath path) ||
    HasPrefix key (dottedPath path ++ ".")

/-- Modelled from the spec: a dotted key continued by further segments, which
is how the keys of the descendants of a key are written. -/
def extendKey (key : String) (segments : List String) : String :=
  segments.foldl joinKey key

/-- Modelled from the spec: the value one step below a value, the field of an
object that `GetAttr` names or the item of an array at `Index`. -/
def descend : JSONValue → PathStep → Option JSONValue
  | .object fields, .GetAttr name => fields.lookup name
  | .array items, .Index key => items[key]?
  | _, _ => none

/-- Modelled from the spec: the subtree that a sensitive path targets; the
empty path targets the whole value. -/
def subtreeAt : JSONValue → List PathStep → Option JSONValue
  | v, [] => some v
  | v, step :: rest =>
    match descend v step with
    | none => none
    | some w => subtreeAt w rest

/-- Modelled from the spec: `db.MarshalAttributeValues`, whose package is
missing: one attribute per leaf of the attributes JSON, keyed by the flattened
path, holding the raw JSON text of the leaf, and marked sensitive when the key
is at or below one of the sensitive paths. -/
def MarshalAttributeValues (src : ResourceInstanceObjectSrc) : List Attribute :=
  (flatten "" src.AttrsJSON).map
    (fun leaf =>
      { Key := leaf.1, Value := leaf.2,
        Sensitive := src.AttrSensitivePaths.any (fun path => keyUnderPath leaf.1 path) })

mutual
/-- The number of leaves of a JSON value. -/
def leafCount : JSONValue → Nat
  | .leaf _ => 1
  | .object fields => leafCountFields fields
  | .array items => leafCountItems items
/-- The number of leaves of the fields of an object. -/
def leafCountFields : List (String × JSONValue) → Nat
  | [] => 0
  | (_, v) :: rest => leafCount v + leafCountFields rest
/-- The number of leaves of the items of an array. -/
def leafCountItems : List JSONValue → Nat
  | [] => 0
  | v :: rest => leafCount v + leafCountItems rest
end

mutual
/-- The JSON encodings of the leaves of a value, in document order. -/
def leafTexts : JSONValue → List String
  | .leaf raw => [raw]
  | .object fields => leafTextsFields fields
  | .array items => leafTextsItems items
/-- The JSON encodings of the leaves of the fields of an object. -/
def leafTextsFields : List (String × JSONValue) → List String
  | [] => []
  | (_, v) :: rest => leafTexts v ++ leafTextsFields rest
/-- The JSON encodings of the leaves of the items of an array. -/
def leafTextsItems : List JSONValue → List String
  | [] => []
  | v :: rest => leafTexts v ++ leafTextsItems rest
end

/-- The instance of `TestSensitiveAttributesEndToEnd`: the attributes
`password`, `username` and `api_key`, the first and the last sensitive. -/
def sampleInstance : ResourceInstanceObjectSrc :=
  { AttrsJSON := .object
      [("password", .leaf "\"secret123\""), ("username", .leaf "\"user\""),
       ("api_key", .leaf "\"key456\"")]
    AttrSensitivePaths := [[.GetAttr "password"], [.GetAttr "api_key"]] }

/-- An instance with a sensitive subtree, a list and a null leaf. -/
def nestedInstance : ResourceInstanceObjectSrc :=
  { AttrsJSON := .object
      [("name", .leaf "\"db\""),
       ("auth", .object [("user", .leaf "\"root\""), ("token", .leaf "null")]),
       ("ports", .array [.leaf "80", .leaf "443"]),
       ("authority", .leaf "\"ca\"")]
    AttrSensitivePaths := [[.GetAttr "auth"], [.GetAttr "ports", .Index 1]] }

/-- The attributes of `nestedInstance` with the whole value sensitive: the one
sensitive path is the empty path. -/
def rootInstance : ResourceInstanceObjectSrc :=
  { AttrsJSON := nestedInstance.AttrsJSON
    AttrSensitivePaths := [[]] }

end db

/-! ## The errors that the comparison discards, and repeated addresses -/

/-- The errors that `formatResource` discards: one for each attribute
lookup. -/
def formatResourceErrors (res : Resource) : List (Option String) :=
  (resourceAttributes res).map (fun attrKey => (getResourceAttribute res attrKey).2)

/-- The errors that `compareResource` discards, its own and those of its two
calls of `formatResource`, in the order of the calls. -/
def compareResourceErrors (st1 st2 : State) (key : String) : List (Option String) :=
  let res1 := (getResource st1 key).1
  let attrs1 := resourceAttributes res1
  let res2 := (getResource st2 key).1
  let attrs2 := resourceAttributes res2
  [(getResource st1 key).2, (getResource st2 key).2]
    ++ (sliceDiff attrs1 attrs2).map (fun attrKey => (getResourceAttribute res1 attrKey).2)
    ++ (sliceDiff attrs2 attrs1).map (fun attrKey => (getResourceAttribute res2 attrKey).2)
    ++ formatResourceErrors res1 ++ formatResourceErrors res2

/-- The errors that a successful `Compare` discards, its own and those of its
calls of `formatResource` and `compareResource`, in the order of the calls. -/
def CompareErrors (from_ to_ : State) : List (Option String) :=
  let fromResources := stateResources from_
  let toResources := stateResources to_
  (sliceDiff fromResources toResources).flatMap
      (fun r => (getResource from_ r).2 :: formatResourceErrors (getResource from_ r).1)
    ++ (sliceDiff toResources fromResources).flatMap
      (fun r => (getResource to_ r).2 :: formatResourceErrors (getResource to_ r).1)
    ++ (sliceInter toResources fromResources).flatMap
      (fun r => compareResourceErrors to_ from_ r)

/-- The resources of a state in the order of `stateResources`: module by
module, resource by resource. -/
def allResources (s : State) : List Resource := s.Modules.flatMap (fun m => m.Resources)

/-- The resources of a list of modules, each with its address. -/
def addressedResources (ms : List Module) : List (String × Resource) :=
  ms.flatMap (fun m => m.Resources.map (fun r => (resourceAddress m r, r)))

/-- A state with two counted instances of `aws_instance.web`, which share
their address, and a version of it without them. -/
def stateCounted : State :=
  { Path := "env/prod/app.tfstate", Version := ⟨"v1", "2024-01-01 00:00:00 +0000 UTC"⟩,
    TFVersion := "1.5.0", Serial := 1,
    Modules := [⟨"root",
      [⟨"aws_s3_bucket", "logs", [⟨"bucket", "\"logs\"", false⟩]⟩,
       ⟨"aws_instance", "web", [⟨"ami", "\"ami-1\"", false⟩]⟩,
       ⟨"aws_instance", "web", [⟨"ami", "\"ami-2\"", false⟩]⟩]⟩] }

/-- The version of `stateCounted` that holds the bucket only. -/
def stateBucket : State :=
  { Path := "env/prod/app.tfstate", Version := ⟨"v2", "2024-02-01 00:00:00 +0000 UTC"⟩,
    TFVersion := "1.5.0", Serial := 2,
    Modules := [⟨"root", [⟨"aws_s3_bucket", "logs", [⟨"bucket", "\"logs\"", false⟩]⟩]⟩] }

/-! ## Package `auth` (`auth/auth.go`, `auth/oidc.go`)

The package keeps two variables, `logoutURL` and `oidcManager`; they are the
record `Globals`, which the functions that assign them return.  The hash
function and the OIDC library are outside the repository and are taken as the
records `Crypto` and `OIDCLib`. -/

namespace auth

/-- User is an authenticated user. -/
structure User where
  Name : String
  AvatarURL : String
  LogoutURL : String
  IsOIDC : Bool
  Authenticated : Bool
  deriving DecidableEq, Repr

/-- The OIDC section of the configuration: `config.OIDCConfig`, with the
fields read here. -/
structure OIDCConfig where
  Enabled : Bool
  IssuerURL : String
  ClientID : String
  ClientSecret : String
  RedirectURL : String
  deriving DecidableEq, Repr

/-- The web section of the configuration: `config.WebConfig`, with the fields
read here. -/
structure WebConfig where
  LogoutURL : String
  OIDC : OIDCConfig
  deriving DecidableEq, Repr

/-- The configuration, `config.Config`, with the field read here. -/
structure Config where
  Web : WebConfig
  deriving DecidableEq, Repr

/-- The function `md5.Sum` of `crypto/md5`, from bytes to the sixteen bytes of
the digest. -/
structure Crypto where
  MD5Sum : List Nat → List Nat

/-- The types and functions of `go-oidc` that `SetupOIDC` uses:
`oidc.NewProvider(ctx, issuer)`, `provider.Verifier(&oidc.Config...)`, given
the provider and the client id, and `provider.Endpoint()`. -/
structure OIDCLib where
  Provider : Type
  IDTokenVerifier : Type
  Endpoint : Type
  NewProvider : String → Except String Provider
  Verifier : Provider → String → IDTokenVerifier
  ProviderEndpoint : Provider → Endpoint

/-- The record `oauth2.Config`; the endpoint is `none` in the zero value. -/
structure OAuth2Config (lib : OIDCLib) where
  ClientID : String
  ClientSecret : String
  RedirectURL : String
  Endpoint : Option lib.Endpoint
  Scopes : List String

/-- OIDCManager handles OIDC authentication; the two pointers are `none` when
nil. -/
structure OIDCManager (lib : OIDCLib) where
  provider : Option lib.Provider
  oauth2Config : OAuth2Config lib
  verifier : Option lib.IDTokenVerifier
  enabled : Bool

/-- The variables of the package: `logoutURL` and `oidcManager`, `none` when
nil. -/
structure Globals (lib : OIDCLib) where
  logoutURL : String
  oidcManager : Option (OIDCManager lib)

/-- The variables before any assignment. -/
def Globals.initial (lib : OIDCLib) : Globals lib := ⟨"", none⟩

/-- The two digits that `%x` prints for a byte. -/
def hexByte (b : Nat) : List Char :=
  ["0123456789abcdef".data.getD (b / 16) '0', "0123456789abcdef".data.getD (b % 16) '0']

/-- The text that `%x` prints for an array of bytes: two lowercase
hexadecimal digits per byte. -/
def hexLower (bytes : List Nat) : String := String.mk (bytes.flatMap hexByte)

/-- SetupOIDC initializes the OIDC provider and configuration; the log entries
are left out. -/
def SetupOIDC (lib : OIDCLib) (config : OIDCConfig) (g : Globals lib) :
    Globals lib × Option String :=
  if ¬ config.Enabled then
    let manager : OIDCManager lib :=
      { provider := none, oauth2Config := ⟨"", "", "", none, []⟩, verifier := none,
        enabled := false }
    ({ g with oidcManager := some manager }, none)
  else if config.IssuerURL = "" ∨ config.ClientID = "" ∨ config.ClientSecret = ""
      ∨ config.RedirectURL = "" then
    (g, some ("OIDC configuration incomplete: issuer-url, client-id, client-secret, "
      ++ "and redirect-url are required"))
  else
    match lib.NewProvider config.IssuerURL with
    | .error err => (g, some ("failed to get OIDC provider: " ++ err))
    | .ok provider =>
      let verifier := lib.Verifier provider config.ClientID
      let oauth2Config : OAuth2Config lib :=
        { ClientID := config.ClientID
          ClientSecret := config.ClientSecret
          RedirectURL := config.RedirectURL
          Endpoint := some (lib.ProviderEndpoint provider)
          Scopes := ["openid", "profile", "email"] }
      let manager : OIDCManager lib :=
        { provider := some provider, oauth2Config := oauth2Config,
          verifier := some verifier, enabled := true }
      ({ g with oidcManager := some manager }, none)

/-- IsOIDCEnabled returns true if OIDC is enabled. -/
def IsOIDCEnabled {lib : OIDCLib} (g : Globals lib) : Bool :=
  match g.oidcManager with
  | some m => m.enabled
  | none => false

/-- Setup sets up authentication; the message printed when `SetupOIDC` fails
is left out. -/
def Setup (lib : OIDCLib) (c : Config) (g : Globals lib) : Globals lib :=
  let g := { g with logoutURL := c.Web.LogoutURL }
  -- Setup OIDC if enabled
  (SetupOIDC lib c.Web.OIDC g).1

/-- UserInfo returns a User given a name and email (for proxy-based auth). -/
def UserInfo {lib : OIDCLib} (crypto : Crypto) (g : Globals lib) (name email : String) : User :=
  let user : User :=
    { Name := "", AvatarURL := "", LogoutURL := g.logoutURL, IsOIDC := false,
      Authenticated := false }
  if email ≠ "" then
    { user with
      Name := name
      AvatarURL := "http://www.gravatar.com/avatar/"
        ++ hexLower (crypto.MD5Sum (utf8Bytes email))
      Authenticated := true }
  else user

/-- A value of type `interface\x7b\x7d` among the claims, by its dynamic type:
a string, or a value of another type. -/
inductive ClaimValue where
  | string (s : String)
  | bool (b : Bool)
  | number (n : Int)
  | null
  deriving DecidableEq, Repr

/-- The assertion `v.(string)` on the result of a map lookup. -/
def asString : Option ClaimValue → Option String
  | some (.string s) => some s
  | _ => none

/-- OIDCUserInfo returns a User from OIDC claims. -/
def OIDCUserInfo (crypto : Crypto) (claims : GoMap ClaimValue) : User :=
  let user : User :=
    { Name := "", AvatarURL := "", LogoutURL := "/auth/logout", IsOIDC := true,
      Authenticated := true }
  let user :=
    match asString (GoMap.get? claims "name") with
    | some name => { user with Name := name }
    | none =>
      match asString (GoMap.get? claims "preferred_username") with
      | some preferredUsername => { user with Name := preferredUsername }
      | none => user
  match asString (GoMap.get? claims "email") with
  | some email =>
    if email ≠ "" then
      { user with
        AvatarURL := "http://www.gravatar.com/avatar/"
          ++ hexLower (crypto.MD5Sum (utf8Bytes email)) }
    else user
  | none => user

/-! ### The hash function, for evaluating examples -/

/-- The constants of MD5 (RFC 1321). -/
def md5K : List Nat := [
  0xd76aa478, 0xe8c7b756, 0x242070db, 0xc1bdceee, 0xf57c0faf, 0x4787c62a, 0xa8304613, 0xfd469501,
  0x698098d8, 0x8b44f7af, 0xffff5bb1, 0x895cd7be, 0x6b901122, 0xfd987193, 0xa679438e, 0x49b40821,
  0xf61e2562, 0xc040b340, 0x265e5a51, 0xe9b6c7aa, 0xd62f105d, 0x02441453, 0xd8a1e681, 0xe7d3fbc8,
  0x21e1cde6, 0xc33707d6, 0xf4d50d87, 0x455a14ed, 0xa9e3e905, 0xfcefa3f8, 0x676f02d9, 0x8d2a4c8a,
  0xfffa3942, 0x8771f681, 0x6d9d6122, 0xfde5380c, 0xa4beea44, 0x4bdecfa9, 0xf6bb4b60, 0xbebfbc70,
  0x289b7ec6, 0xeaa127fa, 0xd4ef3085, 0x04881d05, 0xd9d4d039, 0xe6db99e5, 0x1fa27cf8, 0xc4ac5665,
  0xf4292244, 0x432aff97, 0xab9423a7, 0xfc93a039, 0x655b59c3, 0x8f0ccc92, 0xffeff47d, 0x85845dd1,
  0x6fa87e4f, 0xfe2ce6e0, 0xa3014314, 0x4e0811a1, 0xf7537e82, 0xbd3af235, 0x2ad7d2bb, 0xeb86d391]

/-- The rotation amounts of MD5. -/
def md5S : List Nat := [
  7, 12, 17, 22, 7, 12, 17, 22, 7, 12, 17, 22, 7, 12, 17, 22,
  5, 9, 14, 20, 5, 9, 14, 20, 5, 9, 14, 20, 5, 9, 14, 20,
  4, 11, 16, 23, 4, 11, 16, 23, 4, 11, 16, 23, 4, 11, 16, 23,
  6, 10, 15, 21, 6, 10, 15, 21, 6, 10, 15, 21, 6, 10, 15, 21]

/-- A number as a word of 32 bits. -/
def word32 (x : Nat) : Nat := x % 2 ^ 32

/-- Rotation to the left of a word of 32 bits. -/
def rotl32 (x s : Nat) : Nat := word32 ((x <<< s) ||| (x >>> (32 - s)))

/-- The complement of a word of 32 bits. -/
def not32 (x : Nat) : Nat := 2 ^ 32 - 1 - x

/-- The first `n` bytes of a number, least significant first. -/
def leBytes : Nat → Nat → List Nat
  | 0, _ => []
  | n + 1, x => x % 256 :: leBytes n (x / 256)

/-- The number whose bytes, least significant first, are given. -/
def leWord : List Nat → Nat
  | [] => 0
  | b :: bs => b + 256 * leWord bs

/-- The first `n` pieces of the given size of a list. -/
def pieces (size : Nat) : Nat → List Nat → List (List Nat)
  | 0, _ => []
  | n + 1, l => l.take size :: pieces size n (l.drop size)

/-- The padded message of MD5: a one bit, zeros, and the length in bits. -/
def md5Pad (msg : List Nat) : List Nat :=
  msg ++ [0x80] ++ List.replicate ((119 - msg.length % 64) % 64) 0 ++ leBytes 8 (8 * msg.length)

/-- One of the 64 steps of MD5 on a block of sixteen words. -/
def md5Step (m : List Nat) (st : Nat × Nat × Nat × Nat) (i : Nat) : Nat × Nat × Nat × Nat :=
  let (a, b, c, d) := st
  let f :=
    if i < 16 then (b &&& c) ||| (not32 b &&& d)
    else if i < 32 then (d &&& b) ||| (not32 d &&& c)
    else if i < 48 then b ^^^ c ^^^ d
    else c ^^^ (b ||| not32 d)
  let g :=
    if i < 16 then i
    else if i < 32 then (5 * i + 1) % 16
    else if i < 48 then (3 * i + 5) % 16
    else (7 * i) % 16
  let f := word32 (f + a + md5K.getD i 0 + m.getD g 0)
  (d, word32 (b + rotl32 f (md5S.getD i 0)), b, c)

/-- The state of MD5 after one more block of 64 bytes. -/
def md5Block (st : Nat × Nat × Nat × Nat) (block : List Nat) : Nat × Nat × Nat × Nat :=
  let m := (pieces 4 16 block).map leWord
  let (a, b, c, d) := (List.range 64).foldl (md5Step m) st
  (word32 (st.1 + a), word32 (st.2.1 + b), word32 (st.2.2.1 + c), word32 (st.2.2.2 + d))

/-- The MD5 digest of a sequence of bytes (RFC 1321). -/
def md5Sum (msg : List Nat) : List Nat :=
  let padded := md5Pad msg
  let (a, b, c, d) := (pieces 64 (padded.length / 64) padded).foldl md5Block
    (0x67452301, 0xefcdab89, 0x98badcfe, 0x10325476)
  leBytes 4 a ++ leBytes 4 b ++ leBytes 4 c ++ leBytes 4 d

/-- The hash function on which examples are evaluated. -/
def md5Crypto : Crypto := ⟨md5Sum⟩

/-- An OIDC library without a reachable provider, as in the unit tests. -/
def offlineOIDC : OIDCLib where
  Provider := Unit
  IDTokenVerifier := Unit
  Endpoint := Unit
  NewProvider := fun issuer => .error ("Get \"" ++ issuer ++ "\": no such host")
  Verifier := fun _ _ => ()
  ProviderEndpoint := fun _ => ()

/-- An OIDC library whose provider answers for every issuer. -/
def onlineOIDC : OIDCLib where
  Provider := String
  IDTokenVerifier := String
  Endpoint := String
  NewProvider := fun issuer => .ok issuer
  Verifier := fun provider clientID => provider ++ "#" ++ clientID
  ProviderEndpoint := fun provider => provider ++ "/token"

/-- The configuration of `TestSetup_simple`: the logout URL `/log/me/out`. -/
def sampleConfig : Config := ⟨⟨"/log/me/out", ⟨false, "", "", "", ""⟩⟩⟩

/-- The configuration of `TestOIDCSetupIncompleteConfig`: enabled, with the
issuer only. -/
def incompleteOIDC : OIDCConfig := ⟨true, "https://example.com", "", "", ""⟩

/-- A complete OIDC configuration. -/
def completeOIDC : OIDCConfig :=
  ⟨true, "https://example.com", "terraboard", "s3cret", "https://tb.example.com/auth/callback"⟩

end auth

/-! ## Package `state`: `Kubernetes.GetState` -/

namespace state

/-- Library functions that `GetState` calls, on the bytes of their string
arguments: `base64.StdEncoding.DecodeString`, `none` when it returns an error,
and `statefile.Read`; `File` stands for `*statefile.File`. -/
structure StateLibs (File : Type) where
  DecodeString : List Nat → Option (List Nat)
  Read : List Nat → Except String File

/-- GetState retrieves a specific Terraform state from a Kubernetes Secret.
The third component holds the warnings written to the log. -/
def Kubernetes.GetState {File : Type} (lib : StateLibs File) (k : Kubernetes)
    (stateName version : String) : (Option File × Option String) × List String :=
  let secretName := stateName ++ "-" ++ k.suffix
  let warnings :=
    if version ≠ "" then
      ["Version parameter ignored for Kubernetes backend - no native versioning support"]
    else []
  match k.client.GetSecret k.namespace_ secretName with
  | .error err => ((none, some ("failed to get secret " ++ secretName ++ ": " ++ err)), warnings)
  | .ok secret =>
    match GoMap.get? secret.Data "tfstate" with
    | none => ((none, some ("secret " ++ secretName ++ " does not contain tfstate data")), warnings)
    | some stateData =>
      -- The state data might be base64 encoded
      let stateJSON :=
        match lib.DecodeString stateData with
        | some decoded => decoded
        | none => stateData -- If base64 decode fails, assume it's already JSON
      match lib.Read stateJSON with
      | .error err => ((none, some ("failed to parse Terraform state: " ++ err)), warnings)
      | .ok file => ((some file, none), warnings)

/-- What `GetState` returns once it has chosen the bytes to parse. -/
def readState {File : Type} (lib : StateLibs File) (stateJSON : List Nat) :
    Option File × Option String :=
  match lib.Read stateJSON with
  | .error err => (none, some ("failed to parse Terraform state: " ++ err))
  | .ok file => (some file, none)

/-- The decoder rejects an input that begins with an opening brace, a byte
outside the base64 alphabet that is neither padding nor a line break. -/
def StateLibs.RejectsBrace {File : Type} (lib : StateLibs File) : Prop :=
  ∀ rest : List Nat, lib.DecodeString (123 :: rest) = none

/-! ### A decoder and a reader, for evaluating examples -/

/-- The value of a byte of the standard base64 alphabet. -/
def base64Value (b : Nat) : Option Nat :=
  if 65 ≤ b ∧ b ≤ 90 then some (b - 65)
  else if 97 ≤ b ∧ b ≤ 122 then some (b - 71)
  else if 48 ≤ b ∧ b ≤ 57 then some (b + 4)
  else if b = 43 then some 62
  else if b = 47 then some 63
  else none

/-- Padded base64, four bytes at a time. -/
def decodeQuads : List Nat → Option (List Nat)
  | [] => some []
  | a :: b :: c :: d :: rest =>
    match base64Value a, base64Value b with
    | some x, some y =>
      if c = 61 ∧ d = 61 then
        if rest = [] then some [x * 4 + y / 16] else none
      else
        match base64Value c with
        | some z =>
          if d = 61 then
            if rest = [] then some [x * 4 + y / 16, y % 16 * 16 + z / 4] else none
          else
            match base64Value d with
            | some w =>
              (decodeQuads rest).map
                (fun t => [x * 4 + y / 16, y % 16 * 16 + z / 4, z % 4 * 64 + w] ++ t)
            | none => none
        | none => none
    | _, _ => none
  | _ => none

/-- A reader of state files on which examples are evaluated: it accepts the
documents that begin with an opening brace and returns their bytes. -/
def sampleStateLibs : StateLibs (List Nat) where
  DecodeString := fun s => decodeQuads (s.filter (fun b => b ≠ 10 ∧ b ≠ 13))
  Read := fun bytes =>
    if bytes.head? = some 123 then .ok bytes else .error "unexpected format"

/-- The secret `encoded-tfstate`, whose document is stored base64 encoded. -/
def secretEncoded : Secret :=
  { Name := "encoded-tfstate", Namespace := "default",
    CreationTimestamp := ⟨1704067200000000000⟩, Annotations := [],
    Data := [("tfstate",
      utf8Bytes "eyJ2ZXJzaW9uIjogNCwgInRlcnJhZm9ybV92ZXJzaW9uIjogIjEuMC4wIn0=")] }

end state

/-! ## Go strings as bytes -/

theorem lex_two {a1 a2 b1 b2 : Nat} (r s : List Nat)
    (h : a1 < b1 ∨ (a1 = b1 ∧ a2 < b2)) :
    List.Lex (· < ·) (a1 :: a2 :: r) (b1 :: b2 :: s) := by
  rcases h with h | ⟨rfl, h⟩
  · exact List.Lex.rel h
  · exact List.Lex.cons (List.Lex.rel h)

theorem lex_three {a1 a2 a3 b1 b2 b3 : Nat} (r s : List Nat)
    (h : a1 < b1 ∨ (a1 = b1 ∧ (a2 < b2 ∨ (a2 = b2 ∧ a3 < b3)))) :
    List.Lex (· < ·) (a1 :: a2 :: a3 :: r) (b1 :: b2 :: b3 :: s) := by
  rcases h with h | ⟨rfl, h⟩
  · exact List.Lex.rel h
  · exact List.Lex.cons (lex_two r s h)

theorem lex_four {a1 a2 a3 a4 b1 b2 b3 b4 : Nat} (r s : List Nat)
    (h : a1 < b1 ∨ (a1 = b1 ∧ (a2 < b2 ∨ (a2 = b2 ∧ (a3 < b3 ∨ (a3 = b3 ∧ a4 < b4)))))) :
    List.Lex (· < ·) (a1 :: a2 :: a3 :: a4 :: r) (b1 :: b2 :: b3 :: b4 :: s) := by
  rcases h with h | ⟨rfl, h⟩
  · exact List.Lex.rel h
  · exact List.Lex.cons (lex_three r s h)

/-- The encoding keeps the order of code points, whatever follows. -/
theorem utf8Char_lex {v w : Nat} (h : v < w) (r s : List Nat) :
    List.Lex (· < ·) (utf8Char v ++ r) (utf8Char w ++ s) := by
  unfold utf8Char
  split_ifs <;> simp only [List.cons_append, List.nil_append] <;>
    first
    | exact List.Lex.rel (by omega)
    | exact lex_two r s (by omega)
    | exact lex_three r s (by omega)
    | exact lex_four r s (by omega)

theorem utf8Char_ne_nil (v : Nat) : utf8Char v ≠ [] := by
  unfold utf8Char
  split_ifs <;> simp

theorem utf8_lex_mono {x y : List Char} (h : List.Lex (· < ·) x y) :
    List.Lex (· < ·) (x.flatMap (fun c => utf8Char c.toNat))
      (y.flatMap (fun c => utf8Char c.toNat)) := by
  induction h with
  | @nil a l =>
    rw [List.flatMap_nil, List.flatMap_cons]
    cases he : utf8Char a.toNat with
    | nil => exact absurd he (utf8Char_ne_nil _)
    | cons b bs => exact List.Lex.nil
  | @cons a l₁ l₂ _ ih =>
    rw [List.flatMap_cons, List.flatMap_cons]
    exact List.Lex.append_left _ ih _
  | @rel a₁ l₁ a₂ l₂ hr =>
    rw [List.flatMap_cons, List.flatMap_cons]
    exact utf8Char_lex hr _ _

theorem utf8Bytes_lt_of_lt {a b : String} (h : a < b) : utf8Bytes a < utf8Bytes b :=
  utf8_lex_mono (String.lt_iff_toList_lt.mp h)

/-- Go compares strings byte by byte: on the bytes of two texts that
comparison is the order of `String`. -/
theorem le_iff_utf8Bytes_le (a b : String) : a ≤ b ↔ utf8Bytes a ≤ utf8Bytes b := by
  constructor
  · intro h
    rcases lt_or_eq_of_le h with h | h
    · exact le_of_lt (utf8Bytes_lt_of_lt h)
    · rw [h]
  · intro h
    by_contra hn
    exact absurd (utf8Bytes_lt_of_lt (not_le.mp hn)) (not_lt.mpr h)

theorem uint32_le_iff (a b : UInt32) : a ≤ b ↔ a.toNat ≤ b.toNat := Iff.rfl

theorem utf8Char_length (c : Char) : (utf8Char c.toNat).length = c.utf8Size := by
  unfold utf8Char Char.utf8Size
  simp only [uint32_le_iff]
  have h : c.toNat = c.val.toNat := rfl
  rw [h]
  generalize c.val.toNat = n
  have e1 : (UInt32.ofNatCore 127 Char.utf8Size.proof_1).toNat = 127 := rfl
  have e2 : (UInt32.ofNatCore 2047 Char.utf8Size.proof_2).toNat = 2047 := rfl
  have e3 : (UInt32.ofNatCore 65535 Char.utf8Size.proof_3).toNat = 65535 := rfl
  rw [e1, e2, e3]
  split_ifs <;> first | rfl | omega

theorem utf8ByteSize_go_eq (cs : List Char) :
    String.utf8ByteSize.go cs = (cs.flatMap (fun c => utf8Char c.toNat)).length := by
  induction cs with
  | nil => rfl
  | cons c cs ih =>
    rw [List.flatMap_cons, List.length_append, utf8Char_length, ← ih, Nat.add_comm]
    rfl

/-- The value of `len(s)` is the number of bytes of the string. -/
theorem utf8Bytes_length (s : String) : (utf8Bytes s).length = s.utf8ByteSize := by
  unfold utf8Bytes String.utf8ByteSize
  exact (utf8ByteSize_go_eq s.data).symm

theorem sorted_utf8Bytes {l : List String} (h : l.Sorted (· ≤ ·)) :
    (l.map utf8Bytes).Sorted (· ≤ ·) := by
  unfold List.Sorted at h ⊢
  rw [List.pairwise_map]
  exact h.imp (fun hab => (le_iff_utf8Bytes_le _ _).mp hab)

/-! ## The loops as list operations -/

theorem any_beq_eq_decide_mem (s2 : List String) (e1 : String) :
    s2.any (fun e2 => e1 == e2) = decide (e1 ∈ s2) := by
  induction s2 with
  | nil => simp
  | cons x xs ih =>
    rw [List.any_cons, ih]
    by_cases h : e1 = x <;> simp [h]

theorem foldl_append_if {α : Type} (p : α → Bool) (l acc : List α) :
    l.foldl (fun out e => if p e then out ++ [e] else out) acc = acc ++ l.filter p := by
  induction l generalizing acc with
  | nil => simp
  | cons x xs ih =>
    rw [List.foldl_cons, ih]
    by_cases h : p x <;> simp [h, List.filter_cons]

theorem sliceDiff_eq_filter (s1 s2 : List String) :
    sliceDiff s1 s2 = s1.filter (fun e => !decide (e ∈ s2)) := by
  have h := foldl_append_if (fun e => !decide (e ∈ s2)) s1 []
  rw [List.nil_append] at h
  rw [← h]
  unfold sliceDiff
  apply List.foldl_ext
  intro acc e _
  rw [any_beq_eq_decide_mem]
  by_cases h : e ∈ s2 <;> simp [h]

theorem sliceInter_eq_filter (s1 s2 : List String) :
    sliceInter s1 s2 = s1.filter (fun e => decide (e ∈ s2)) := by
  have h := foldl_append_if (fun e => decide (e ∈ s2)) s1 []
  rw [List.nil_append] at h
  rw [← h]
  unfold sliceInter
  apply List.foldl_ext
  intro acc e _
  rw [any_beq_eq_decide_mem]

theorem mem_sliceDiff {s1 s2 : List String} {e : String} :
    e ∈ sliceDiff s1 s2 ↔ e ∈ s1 ∧ e ∉ s2 := by
  simp [sliceDiff_eq_filter, List.mem_filter]

theorem mem_sliceInter {s1 s2 : List String} {e : String} :
    e ∈ sliceInter s1 s2 ↔ e ∈ s1 ∧ e ∈ s2 := by
  simp [sliceInter_eq_filter, List.mem_filter]

theorem foldl_append_singleton {α β : Type} (f : α → β) (l : List α) (acc : List β) :
    l.foldl (fun out e => out ++ [f e]) acc = acc ++ l.map f := by
  induction l generalizing acc with
  | nil => simp
  | cons x xs ih => rw [List.foldl_cons, ih]; simp

theorem stateResources_eq_flatMap (s : State) :
    stateResources s = s.Modules.flatMap (fun m => m.Resources.map (resourceAddress m)) := by
  unfold stateResources
  have h : ∀ (ms : List Module) (acc : List String),
      ms.foldl (fun res m => m.Resources.foldl (fun res r => res ++ [resourceAddress m r]) res) acc
        = acc ++ ms.flatMap (fun m => m.Resources.map (resourceAddress m)) := by
    intro ms
    induction ms with
    | nil => intro acc; simp
    | cons m ms ih =>
      intro acc
      rw [List.foldl_cons, ih, foldl_append_singleton]
      simp [List.flatMap_cons]
  simpa using h s.Modules []

theorem mem_stateResources {s : State} {k : String} :
    k ∈ stateResources s ↔ ∃ m ∈ s.Modules, ∃ r ∈ m.Resources, resourceAddress m r = k := by
  simp [stateResources_eq_flatMap, List.mem_flatMap]

/-! ## String accumulation -/

theorem foldl_append_eq (l : List String) (a : String) :
    l.foldl (fun r s => r ++ s) a = a ++ l.foldl (fun r s => r ++ s) "" := by
  induction l generalizing a with
  | nil => simp
  | cons x xs ih =>
    rw [List.foldl_cons, List.foldl_cons, ih (a ++ x), ih ("" ++ x)]
    simp [String.append_assoc]

theorem join_cons (x : String) (xs : List String) :
    String.join (x :: xs) = x ++ String.join xs := by
  unfold String.join
  rw [List.foldl_cons, foldl_append_eq]
  simp

theorem join_append (xs ys : List String) :
    String.join (xs ++ ys) = String.join xs ++ String.join ys := by
  induction xs with
  | nil => simp [String.join]
  | cons x xs ih => rw [List.cons_append, join_cons, join_cons, ih, String.append_assoc]

theorem foldl_append_join {α : Type} (f : α → String) (l : List α) (init : String) :
    l.foldl (fun out x => out ++ f x) init = init ++ String.join (l.map f) := by
  induction l generalizing init with
  | nil => simp [String.join]
  | cons x xs ih =>
    rw [List.foldl_cons, ih, List.map_cons, join_cons, String.append_assoc]

/-! ## Attribute lookup -/

theorem findAttribute_some {k : String} {l : List Attribute} {a : Attribute}
    (h : findAttribute k l = some a) : a ∈ l ∧ a.Key = k := by
  induction l with
  | nil => simp [findAttribute] at h
  | cons x xs ih =>
    unfold findAttribute at h
    by_cases hx : x.Key = k
    · rw [if_pos hx] at h
      cases h
      exact ⟨List.mem_cons_self _ _, hx⟩
    · rw [if_neg hx] at h
      exact ⟨List.mem_cons_of_mem _ (ih h).1, (ih h).2⟩

theorem findAttribute_of_mem_keys {k : String} {l : List Attribute}
    (h : k ∈ l.map Attribute.Key) : ∃ a, findAttribute k l = some a := by
  induction l with
  | nil => simp at h
  | cons x xs ih =>
    unfold findAttribute
    by_cases hx : x.Key = k
    · exact ⟨x, by rw [if_pos hx]⟩
    · rw [if_neg hx]
      apply ih
      rw [List.map_cons, List.mem_cons] at h
      rcases h with h | h
      · exact absurd h.symm hx
      · exact h

theorem findAttribute_none {k : String} {l : List Attribute}
    (h : k ∉ l.map Attribute.Key) : findAttribute k l = none := by
  induction l with
  | nil => rfl
  | cons x xs ih =>
    rw [List.map_cons, List.mem_cons, not_or] at h
    unfold findAttribute
    rw [if_neg (fun e => h.1 e.symm)]
    exact ih h.2

theorem findAttribute_of_mem_nodup {l : List Attribute} {a : Attribute}
    (hn : (l.map Attribute.Key).Nodup) (ha : a ∈ l) : findAttribute a.Key l = some a := by
  induction l with
  | nil => simp at ha
  | cons x xs ih =>
    rw [List.map_cons, List.nodup_cons] at hn
    unfold findAttribute
    rcases List.mem_cons.mp ha with rfl | hmem
    · rw [if_pos rfl]
    · have hne : x.Key ≠ a.Key := fun e => hn.1 (e ▸ List.mem_map_of_mem _ hmem)
      rw [if_neg hne]
      exact ih hn.2 hmem

theorem getResourceAttribute_fst_of_mem_nodup {res : Resource} {a : Attribute}
    (hn : (res.Attributes.map Attribute.Key).Nodup) (ha : a ∈ res.Attributes) :
    (getResourceAttribute res a.Key).1 = a := by
  unfold getResourceAttribute
  rw [findAttribute_of_mem_nodup hn ha]

theorem attribute_keys_eq (l : List Attribute) :
    l.foldl (fun attrs a => attrs ++ [a.Key]) [] = l.map Attribute.Key := by
  simpa using foldl_append_singleton Attribute.Key l []

theorem resourceAttributes_eq (res : Resource) :
    resourceAttributes res = sortStrings (res.Attributes.map Attribute.Key) := by
  unfold resourceAttributes
  rw [attribute_keys_eq]

theorem sortStrings_perm (l : List String) : (sortStrings l).Perm l :=
  @List.perm_insertionSort String (· ≤ ·) decLE l

theorem sortStrings_sorted (l : List String) : (sortStrings l).Sorted (· ≤ ·) :=
  @List.sorted_insertionSort String (· ≤ ·) decLE _ _ l

/-- Sorting has one result: every ascending rearrangement of a slice of
strings is the one `sortStrings` returns. -/
theorem sortStrings_unique {l l' : List String} (hp : l'.Perm l) (hs : l'.Sorted (· ≤ ·)) :
    l' = sortStrings l :=
  List.eq_of_perm_of_sorted (hp.trans (sortStrings_perm l).symm) hs (sortStrings_sorted l)

theorem resourceAttributes_perm (res : Resource) :
    (resourceAttributes res).Perm (res.Attributes.map Attribute.Key) := by
  rw [resourceAttributes_eq]
  exact sortStrings_perm _

theorem mem_resourceAttributes {res : Resource} {k : String} :
    k ∈ resourceAttributes res ↔ k ∈ res.Attributes.map Attribute.Key :=
  (resourceAttributes_perm res).mem_iff

theorem getResourceAttribute_key {res : Resource} {k : String}
    (h : k ∈ resourceAttributes res) : (getResourceAttribute res k).1.Key = k := by
  obtain ⟨a, ha⟩ := findAttribute_of_mem_keys (mem_resourceAttributes.mp h)
  unfold getResourceAttribute
  rw [ha]
  exact (findAttribute_some ha).2

/-! ## The canonical form -/

theorem attributeLine_eq (a : Attribute) :
    attributeLine a = "  " ++ a.Key ++ " = " ++ renderValue a ++ "\n" := by
  unfold attributeLine renderValue
  by_cases hs : a.Sensitive = true
  · by_cases hv : a.Value = "null"
    · simp only [hs, hv, if_true, String.append_assoc]
      rfl
    · simp only [hs, hv, if_true, if_false, String.append_assoc]
      rfl
  · simp only [hs, if_false]
    rfl

theorem formatResource_eq_join (res : Resource) :
    formatResource res =
      resourceHeader res
        ++ String.join ((resourceAttributes res).map
            (fun k => attributeLine (getResourceAttribute res k).1))
        ++ resourceFooter := by
  unfold formatResource resourceHeader resourceFooter
  simp only []
  rw [← foldl_append_join]
  congr 1
  apply List.foldl_ext
  intro out k _
  unfold attributeLine
  by_cases hs : (getResourceAttribute res k).1.Sensitive = true
  · by_cases hv : (getResourceAttribute res k).1.Value = "null"
    · simp only [hs, hv, if_true]
    · simp only [hs, hv, if_true, if_false]
  · rw [if_neg hs, if_neg hs]

/-! ## Go maps -/

theorem GoMap.get?_set {α : Type} (m : GoMap α) (k k' : String) (v : α) :
    (m.set k v).get? k' = if k = k' then some v else m.get? k' := by
  induction m with
  | nil => simp [GoMap.set, GoMap.get?]
  | cons p m ih =>
    obtain ⟨k0, v0⟩ := p
    unfold GoMap.set
    by_cases h0 : k0 = k
    · subst h0
      rw [if_pos rfl]
      by_cases h1 : k0 = k' <;> simp [GoMap.get?, h1]
    · rw [if_neg h0]
      by_cases h1 : k0 = k'
      · subst h1
        have : ¬ k = k0 := fun e => h0 e.symm
        simp [GoMap.get?, this]
      · simp [GoMap.get?, h1, ih]

theorem GoMap.mem_keys_iff {α : Type} (m : GoMap α) (k : String) :
    k ∈ m.keys ↔ m.get? k ≠ none := by
  induction m with
  | nil => simp [GoMap.keys, GoMap.get?]
  | cons p m ih =>
    obtain ⟨k0, v0⟩ := p
    by_cases h : k0 = k
    · simp [GoMap.keys, GoMap.get?, h]
    · have h' : ¬ k = k0 := fun e => h e.symm
      have ih' : k ∈ List.map Prod.fst m ↔ GoMap.get? m k ≠ none := ih
      simp only [GoMap.keys, List.map_cons, List.mem_cons, h', false_or, GoMap.get?, if_neg h]
      exact ih'

theorem GoMap.get?_foldl_set {α : Type} (f : String → α) (l : List String) (m0 : GoMap α)
    (k : String) :
    GoMap.get? (l.foldl (fun (m : GoMap α) r => m.set r (f r)) m0) k
      = if k ∈ l then some (f k) else m0.get? k := by
  induction l using List.reverseRecOn with
  | nil => simp
  | append_singleton xs x ih =>
    rw [List.foldl_append, List.foldl_cons, List.foldl_nil, GoMap.get?_set, ih]
    by_cases hx : x = k
    · subst hx
      simp
    · have hx' : ¬ k = x := fun e => hx e.symm
      simp [hx, hx']

theorem GoMap.mem_keys_foldl_set {α : Type} (f : String → α) (l : List String) (k : String) :
    k ∈ GoMap.keys (l.foldl (fun (m : GoMap α) r => m.set r (f r)) []) ↔ k ∈ l := by
  rw [GoMap.mem_keys_iff, GoMap.get?_foldl_set]
  by_cases h : k ∈ l <;> simp [h, GoMap.get?]

/-! ## Resource lookup -/

theorem HasPrefix_resourceAddress (m : Module) (r : Resource) :
    HasPrefix (resourceAddress m r) m.Path = true := by
  unfold HasPrefix resourceAddress
  rw [List.isPrefixOf_iff_prefix]
  simp only [String.data_append, List.append_assoc]
  exact List.prefix_append _ _

theorem findResource_some {m : Module} {k : String} {rs : List Resource} {r : Resource}
    (h : findResource m k rs = some r) : r ∈ rs ∧ resourceAddress m r = k := by
  induction rs with
  | nil => simp [findResource] at h
  | cons x xs ih =>
    unfold findResource at h
    by_cases hx : k = resourceAddress m x
    · rw [if_pos hx] at h
      cases h
      exact ⟨List.mem_cons_self _ _, hx.symm⟩
    · rw [if_neg hx] at h
      exact ⟨List.mem_cons_of_mem _ (ih h).1, (ih h).2⟩

theorem findResource_none {m : Module} {k : String} {rs : List Resource}
    (h : findResource m k rs = none) : ∀ r ∈ rs, resourceAddress m r ≠ k := by
  induction rs with
  | nil => simp
  | cons x xs ih =>
    unfold findResource at h
    by_cases hx : k = resourceAddress m x
    · rw [if_pos hx] at h
      cases h
    · rw [if_neg hx] at h
      intro r hr
      rcases List.mem_cons.mp hr with rfl | hr
      · exact fun e => hx e.symm
      · exact ih h r hr

theorem getResourceLoop_some {k : String} {ms : List Module} {r : Resource}
    (h : getResourceLoop k ms = some r) :
    ∃ m ∈ ms, r ∈ m.Resources ∧ resourceAddress m r = k := by
  induction ms with
  | nil => simp [getResourceLoop] at h
  | cons m ms ih =>
    unfold getResourceLoop at h
    by_cases hp : HasPrefix k m.Path = true
    · rw [if_pos hp] at h
      cases hf : findResource m k m.Resources with
      | some r' =>
        rw [hf] at h
        cases h
        exact ⟨m, List.mem_cons_self _ _, findResource_some hf⟩
      | none =>
        rw [hf] at h
        obtain ⟨m', hm', hr⟩ := ih h
        exact ⟨m', List.mem_cons_of_mem _ hm', hr⟩
    · rw [if_neg hp] at h
      obtain ⟨m', hm', hr⟩ := ih h
      exact ⟨m', List.mem_cons_of_mem _ hm', hr⟩

theorem getResourceLoop_none {k : String} {ms : List Module}
    (h : getResourceLoop k ms = none) :
    ∀ m ∈ ms, ∀ r ∈ m.Resources, resourceAddress m r ≠ k := by
  induction ms with
  | nil => simp
  | cons m ms ih =>
    unfold getResourceLoop at h
    intro m' hm' r hr hk
    by_cases hp : HasPrefix k m.Path = true
    · rw [if_pos hp] at h
      cases hf : findResource m k m.Resources with
      | some r' => rw [hf] at h; cases h
      | none =>
        rw [hf] at h
        rcases List.mem_cons.mp hm' with rfl | hm'
        · exact findResource_none hf r hr hk
        · exact ih h m' hm' r hr hk
    · rw [if_neg hp] at h
      rcases List.mem_cons.mp hm' with rfl | hm'
      · exact hp (hk ▸ HasPrefix_resourceAddress m' r)
      · exact ih h m' hm' r hr hk

theorem getResource_of_mem {s : State} {k : String} (h : k ∈ stateResources s) :
    ∃ m ∈ s.Modules, ∃ r ∈ m.Resources, resourceAddress m r = k ∧ getResource s k = (r, none) := by
  unfold getResource
  cases hl : getResourceLoop k s.Modules with
  | some r =>
    obtain ⟨m, hm, hr, hk⟩ := getResourceLoop_some hl
    exact ⟨m, hm, r, hr, hk, rfl⟩
  | none =>
    obtain ⟨m, hm, r, hr, hk⟩ := mem_stateResources.mp h
    exact absurd hk (getResourceLoop_none hl m hm r hr)

/-! ## The fields of a successful comparison -/

theorem Compare_ok_iff (d : Difflib) (from_ to_ : State) :
    (Compare d from_ to_).2 = none ↔ (from_.Path ≠ "" ∧ to_.Path ≠ "") := by
  unfold Compare
  by_cases h1 : from_.Path = ""
  · simp [h1]
  · by_cases h2 : to_.Path = ""
    · simp [h1, h2]
    · simp [h1, h2]

theorem Compare_onlyInOld (d : Difflib) {from_ to_ : State} (h1 : from_.Path ≠ "")
    (h2 : to_.Path ≠ "") :
    (Compare d from_ to_).1.Differences.OnlyInOld
      = (sliceDiff (stateResources from_) (stateResources to_)).foldl
          (fun (m : GoMap String) r => m.set r (formatResource (getResource from_ r).1)) [] := by
  simp only [Compare, if_neg h1, if_neg h2]

theorem Compare_onlyInNew (d : Difflib) {from_ to_ : State} (h1 : from_.Path ≠ "")
    (h2 : to_.Path ≠ "") :
    (Compare d from_ to_).1.Differences.OnlyInNew
      = (sliceDiff (stateResources to_) (stateResources from_)).foldl
          (fun (m : GoMap String) r => m.set r (formatResource (getResource to_ r).1)) [] := by
  simp only [Compare, if_neg h1, if_neg h2]

theorem Compare_inBoth (d : Difflib) {from_ to_ : State} (h1 : from_.Path ≠ "")
    (h2 : to_.Path ≠ "") :
    (Compare d from_ to_).1.Differences.InBoth
      = sliceInter (stateResources to_) (stateResources from_) := by
  simp only [Compare, if_neg h1, if_neg h2]

theorem Compare_resourceDiff (d : Difflib) {from_ to_ : State} (h1 : from_.Path ≠ "")
    (h2 : to_.Path ≠ "") :
    (Compare d from_ to_).1.Differences.ResourceDiff
      = (sliceInter (stateResources to_) (stateResources from_)).foldl
          (fun (m : GoMap ResourceDiff) r =>
            if (compareResource d to_ from_ r).UnifiedDiff ≠ "" then
              m.set r (compareResource d to_ from_ r)
            else m) [] := by
  simp only [Compare, if_neg h1, if_neg h2]

/-! ## Rendering does not read sensitive values -/

theorem secretVariant_refl_attribute (a : Attribute) : Attribute.SecretVariant a a :=
  ⟨rfl, rfl, Or.inl rfl⟩

theorem secretVariant_refl_resource (r : Resource) : Resource.SecretVariant r r :=
  ⟨rfl, rfl, List.forall₂_same.mpr (fun a _ => secretVariant_refl_attribute a)⟩

theorem secretVariant_refl_module (m : Module) : Module.SecretVariant m m :=
  ⟨rfl, List.forall₂_same.mpr (fun r _ => secretVariant_refl_resource r)⟩

theorem secretVariant_refl_state (s : State) : State.SecretVariant s s :=
  ⟨rfl, rfl, rfl, rfl, List.forall₂_same.mpr (fun m _ => secretVariant_refl_module m)⟩

theorem renderValue_secretVariant {a a' : Attribute} (h : Attribute.SecretVariant a a') :
    renderValue a' = renderValue a := by
  obtain ⟨_, hs, hv⟩ := h
  unfold renderValue
  rw [hs]
  rcases hv with hv | ⟨hsens, hlen, hn, hn'⟩
  · rw [hv]
  · rw [if_pos hsens, if_pos hsens, if_neg hn, if_neg hn', hlen]

theorem attributeLine_secretVariant {a a' : Attribute} (h : Attribute.SecretVariant a a') :
    attributeLine a' = attributeLine a := by
  rw [attributeLine_eq, attributeLine_eq, renderValue_secretVariant h, h.1]

theorem keys_secretVariant {l l' : List Attribute}
    (h : List.Forall₂ Attribute.SecretVariant l l') :
    l'.map Attribute.Key = l.map Attribute.Key := by
  induction h with
  | nil => rfl
  | cons hab _ ih => rw [List.map_cons, List.map_cons, ih, hab.1]

theorem findAttribute_secretVariant {l l' : List Attribute}
    (h : List.Forall₂ Attribute.SecretVariant l l') (k : String) :
    (findAttribute k l = none ∧ findAttribute k l' = none) ∨
    (∃ a a', findAttribute k l = some a ∧ findAttribute k l' = some a' ∧
      Attribute.SecretVariant a a') := by
  induction h with
  | nil => exact Or.inl ⟨rfl, rfl⟩
  | @cons a a' l l' hab _ ih =>
    unfold findAttribute
    by_cases hk : a.Key = k
    · have hk' : a'.Key = k := hab.1.trans hk
      rw [if_pos hk, if_pos hk']
      exact Or.inr ⟨a, a', rfl, rfl, hab⟩
    · have hk' : ¬ a'.Key = k := fun e => hk (hab.1.symm.trans e)
      rw [if_neg hk, if_neg hk']
      exact ih

theorem getResourceAttribute_secretVariant {r r' : Resource}
    (h : Resource.SecretVariant r r') (k : String) :
    Attribute.SecretVariant (getResourceAttribute r k).1 (getResourceAttribute r' k).1 := by
  unfold getResourceAttribute
  rcases findAttribute_secretVariant h.2.2 k with ⟨h1, h2⟩ | ⟨a, a', h1, h2, hab⟩
  · rw [h1, h2]
    exact secretVariant_refl_attribute _
  · rw [h1, h2]
    exact hab

theorem resourceAttributes_secretVariant {r r' : Resource}
    (h : Resource.SecretVariant r r') : resourceAttributes r' = resourceAttributes r := by
  rw [resourceAttributes_eq, resourceAttributes_eq, keys_secretVariant h.2.2]

theorem formatResource_secretVariant {r r' : Resource}
    (h : Resource.SecretVariant r r') : formatResource r' = formatResource r := by
  rw [formatResource_eq_join, formatResource_eq_join, resourceAttributes_secretVariant h]
  have hh : resourceHeader r' = resourceHeader r := by
    unfold resourceHeader
    rw [h.1, h.2.1]
  rw [hh]
  congr 3
  apply List.map_congr_left
  intro k _
  exact attributeLine_secretVariant (getResourceAttribute_secretVariant h k)

theorem resourceAddress_secretVariant {m m' : Module} {r r' : Resource}
    (hm : m'.Path = m.Path) (hr : Resource.SecretVariant r r') :
    resourceAddress m' r' = resourceAddress m r := by
  unfold resourceAddress
  rw [hm, hr.1, hr.2.1]

theorem addresses_secretVariant {m m' : Module} (hm : m'.Path = m.Path)
    {rs rs' : List Resource} (h : List.Forall₂ Resource.SecretVariant rs rs') :
    rs'.map (resourceAddress m') = rs.map (resourceAddress m) := by
  induction h with
  | nil => rfl
  | cons hab _ ih =>
    rw [List.map_cons, List.map_cons, ih, resourceAddress_secretVariant hm hab]

theorem flatMap_addresses_secretVariant {ms ms' : List Module}
    (h : List.Forall₂ Module.SecretVariant ms ms') :
    ms'.flatMap (fun m => m.Resources.map (resourceAddress m))
      = ms.flatMap (fun m => m.Resources.map (resourceAddress m)) := by
  induction h with
  | nil => rfl
  | cons hab _ ih =>
    rw [List.flatMap_cons, List.flatMap_cons, ih, addresses_secretVariant hab.1 hab.2]

theorem stateResources_secretVariant {s s' : State} (h : State.SecretVariant s s') :
    stateResources s' = stateResources s := by
  rw [stateResources_eq_flatMap, stateResources_eq_flatMap]
  exact flatMap_addresses_secretVariant h.2.2.2.2

theorem findResource_secretVariant {m m' : Module} (hm : m'.Path = m.Path) (k : String)
    {rs rs' : List Resource} (h : List.Forall₂ Resource.SecretVariant rs rs') :
    (findResource m k rs = none ∧ findResource m' k rs' = none) ∨
    (∃ r r', findResource m k rs = some r ∧ findResource m' k rs' = some r' ∧
      Resource.SecretVariant r r') := by
  induction h with
  | nil => exact Or.inl ⟨rfl, rfl⟩
  | @cons r r' rs rs' hab _ ih =>
    unfold findResource
    rw [resourceAddress_secretVariant hm hab]
    by_cases hk : k = resourceAddress m r
    · rw [if_pos hk, if_pos hk]
      exact Or.inr ⟨r, r', rfl, rfl, hab⟩
    · rw [if_neg hk, if_neg hk]
      exact ih

theorem getResourceLoop_secretVariant (k : String) {ms ms' : List Module}
    (h : List.Forall₂ Module.SecretVariant ms ms') :
    (getResourceLoop k ms = none ∧ getResourceLoop k ms' = none) ∨
    (∃ r r', getResourceLoop k ms = some r ∧ getResourceLoop k ms' = some r' ∧
      Resource.SecretVariant r r') := by
  induction h with
  | nil => exact Or.inl ⟨rfl, rfl⟩
  | @cons m m' ms ms' hab _ ih =>
    unfold getResourceLoop
    rw [hab.1]
    by_cases hp : HasPrefix k m.Path = true
    · rw [if_pos hp, if_pos hp]
      rcases findResource_secretVariant hab.1 k hab.2 with ⟨h1, h2⟩ | ⟨r, r', h1, h2, hr⟩
      · rw [h1, h2]
        exact ih
      · rw [h1, h2]
        exact Or.inr ⟨r, r', rfl, rfl, hr⟩
    · rw [if_neg hp, if_neg hp]
      exact ih

theorem getResource_secretVariant {s s' : State} (h : State.SecretVariant s s') (k : String) :
    Resource.SecretVariant (getResource s k).1 (getResource s' k).1 := by
  unfold getResource
  rcases getResourceLoop_secretVariant k h.2.2.2.2 with ⟨h1, h2⟩ | ⟨r, r', h1, h2, hr⟩
  · rw [h1, h2]
    exact secretVariant_refl_resource _
  · rw [h1, h2]
    exact hr

theorem stateInfo_secretVariant {s s' : State} (h : State.SecretVariant s s') :
    stateInfo s' = stateInfo s := by
  unfold stateInfo
  rw [h.1, h.2.1]

/-! ## The comparison does not read sensitive values -/

theorem setRendered_eq (m : GoMap String) (a : Attribute) :
    (if a.Sensitive = true then
      if a.Value = "null" then m.set a.Key "(null)"
      else m.set a.Key ("(" ++ Nat.repr a.Value.utf8ByteSize ++ ")")
    else m.set a.Key a.Value) = m.set a.Key (renderValue a) := by
  unfold renderValue
  by_cases hs : a.Sensitive = true
  · by_cases hv : a.Value = "null"
    · rw [if_pos hs, if_pos hs, if_pos hv, if_pos hv]
    · rw [if_pos hs, if_pos hs, if_neg hv, if_neg hv]
  · rw [if_neg hs, if_neg hs]

theorem compareResource_eq (d : Difflib) (st1 st2 : State) (key : String) :
    compareResource d st1 st2 key =
      { OnlyInOld :=
          (sliceDiff (resourceAttributes (getResource st1 key).1)
              (resourceAttributes (getResource st2 key).1)).foldl
            (fun (m : GoMap String) k =>
              m.set (getResourceAttribute (getResource st1 key).1 k).1.Key
                (renderValue (getResourceAttribute (getResource st1 key).1 k).1)) []
        OnlyInNew :=
          (sliceDiff (resourceAttributes (getResource st2 key).1)
              (resourceAttributes (getResource st1 key).1)).foldl
            (fun (m : GoMap String) k =>
              m.set (getResourceAttribute (getResource st2 key).1 k).1.Key
                (renderValue (getResourceAttribute (getResource st2 key).1 k).1)) []
        UnifiedDiff := d.GetUnifiedDiffString
          { A := d.SplitLines (formatResource (getResource st1 key).1)
            B := d.SplitLines (formatResource (getResource st2 key).1)
            FromFile := stateInfo st1
            ToFile := stateInfo st2
            Context := 3
            Eol := "\n" } } := by
  simp only [compareResource, setRendered_eq]

theorem compareResource_secretVariant (d : Difflib) {st1 st1' st2 st2' : State}
    (h1 : State.SecretVariant st1 st1') (h2 : State.SecretVariant st2 st2') (key : String) :
    compareResource d st1' st2' key = compareResource d st1 st2 key := by
  have hr1 := getResource_secretVariant h1 key
  have hr2 := getResource_secretVariant h2 key
  have hk1 : ∀ k, (getResourceAttribute (getResource st1' key).1 k).1.Key
      = (getResourceAttribute (getResource st1 key).1 k).1.Key :=
    fun k => (getResourceAttribute_secretVariant hr1 k).1
  have hk2 : ∀ k, (getResourceAttribute (getResource st2' key).1 k).1.Key
      = (getResourceAttribute (getResource st2 key).1 k).1.Key :=
    fun k => (getResourceAttribute_secretVariant hr2 k).1
  have hv1 : ∀ k, renderValue (getResourceAttribute (getResource st1' key).1 k).1
      = renderValue (getResourceAttribute (getResource st1 key).1 k).1 :=
    fun k => renderValue_secretVariant (getResourceAttribute_secretVariant hr1 k)
  have hv2 : ∀ k, renderValue (getResourceAttribute (getResource st2' key).1 k).1
      = renderValue (getResourceAttribute (getResource st2 key).1 k).1 :=
    fun k => renderValue_secretVariant (getResourceAttribute_secretVariant hr2 k)
  rw [compareResource_eq, compareResource_eq, resourceAttributes_secretVariant hr1,
    resourceAttributes_secretVariant hr2, formatResource_secretVariant hr1,
    formatResource_secretVariant hr2, stateInfo_secretVariant h1, stateInfo_secretVariant h2]
  simp only [hk1, hk2, hv1, hv2]

theorem Compare_secretVariant (d : Difflib) {A A' B B' : State}
    (hA : State.SecretVariant A A') (hB : State.SecretVariant B B') :
    Compare d A' B' = Compare d A B := by
  have hfA : ∀ r, formatResource (getResource A' r).1 = formatResource (getResource A r).1 :=
    fun r => formatResource_secretVariant (getResource_secretVariant hA r)
  have hfB : ∀ r, formatResource (getResource B' r).1 = formatResource (getResource B r).1 :=
    fun r => formatResource_secretVariant (getResource_secretVariant hB r)
  have hc : ∀ r, compareResource d B' A' r = compareResource d B A r :=
    fun r => compareResource_secretVariant d hB hA r
  simp only [Compare, hA.1, hA.2.1, hA.2.2.1, hA.2.2.2.1, hB.1, hB.2.1, hB.2.2.1, hB.2.2.2.1,
    stateResources_secretVariant hA, stateResources_secretVariant hB, hfA, hfB, hc]

/-! ## More on the fields of a comparison -/

theorem sliceDiff_self (l : List String) : sliceDiff l l = [] := by
  rw [sliceDiff_eq_filter, List.filter_eq_nil_iff]
  intro a ha
  simp [ha]

theorem getResource_fst_congr {A B : State} (h : A.Modules = B.Modules) (k : String) :
    (getResource A k).1 = (getResource B k).1 := by
  unfold getResource
  rw [h]
  cases getResourceLoop k B.Modules <;> rfl

theorem GoMap.foldl_set_if {α : Type} (p : String → Prop) [DecidablePred p] (f : String → α)
    (l : List String) (m0 : GoMap α) :
    l.foldl (fun (m : GoMap α) r => if p r then m.set r (f r) else m) m0
      = (l.filter (fun r => decide (p r))).foldl (fun (m : GoMap α) r => m.set r (f r)) m0 := by
  induction l generalizing m0 with
  | nil => rfl
  | cons x xs ih =>
    rw [List.foldl_cons, ih]
    by_cases hx : p x
    · rw [if_pos hx, List.filter_cons_of_pos (by simpa using hx), List.foldl_cons]
    · rw [if_neg hx, List.filter_cons_of_neg (by simpa using hx)]

theorem Compare_stats (d : Difflib) {from_ to_ : State} (h1 : from_.Path ≠ "")
    (h2 : to_.Path ≠ "") :
    (Compare d from_ to_).1.Stats =
      ⟨⟨from_.Path, from_.Version.VersionID, (stateResources from_).length, from_.TFVersion,
          from_.Serial⟩,
        ⟨to_.Path, to_.Version.VersionID, (stateResources to_).length, to_.TFVersion,
          to_.Serial⟩⟩ := by
  simp only [Compare, if_neg h1, if_neg h2]

theorem length_flatMap_addresses (ms : List Module) :
    (ms.flatMap (fun m => m.Resources.map (resourceAddress m))).length
      = (ms.map (fun m => m.Resources.length)).sum := by
  induction ms with
  | nil => rfl
  | cons m ms ih =>
    rw [List.flatMap_cons, List.length_append, List.length_map, ih, List.map_cons, List.sum_cons]

/-! ## The Kubernetes provider -/

theorem TrimSuffix_append (n suffix : String) : state.TrimSuffix (n ++ suffix) suffix = n := by
  unfold state.TrimSuffix
  have h : suffix.data.isSuffixOf (n ++ suffix).data = true := by
    rw [List.isSuffixOf_iff_suffix, String.data_append]
    exact List.suffix_append _ _
  rw [if_pos h]
  apply String.ext
  show List.take ((n ++ suffix).data.length - suffix.data.length) (n ++ suffix).data = n.data
  rw [String.data_append, List.length_append, Nat.add_sub_cancel, List.take_left]

theorem TrimSuffix_of_not_suffix {s suffix : String}
    (h : ¬ ∃ n : String, s = n ++ suffix) : state.TrimSuffix s suffix = s := by
  unfold state.TrimSuffix
  by_cases hs : suffix.data.isSuffixOf s.data = true
  · exfalso
    obtain ⟨t, ht⟩ := List.isSuffixOf_iff_suffix.mp hs
    exact h ⟨String.mk t, String.ext (by rw [String.data_append, ← ht])⟩
  · rw [if_neg hs]

theorem append_ne_self {n suffix : String} (hs : suffix ≠ "") : n ++ suffix ≠ n := by
  intro h
  have h' := congrArg String.data h
  rw [String.data_append, List.append_right_eq_self] at h'
  exact hs (String.ext h')

/-- The suffix was removed exactly when the name ends with it, and what is
left is the name without the suffix. -/
theorem TrimSuffix_ne_iff {s suffix : String} (hs : suffix ≠ "") (n : String) :
    (state.TrimSuffix s suffix ≠ s ∧ state.TrimSuffix s suffix = n) ↔ s = n ++ suffix := by
  constructor
  · rintro ⟨hne, hn⟩
    by_cases h : ∃ m : String, s = m ++ suffix
    · obtain ⟨m, rfl⟩ := h
      rw [TrimSuffix_append] at hn
      rw [hn]
    · exact absurd (TrimSuffix_of_not_suffix h) hne
  · rintro rfl
    rw [TrimSuffix_append]
    exact ⟨fun h => append_ne_self hs h.symm, rfl⟩

theorem dash_suffix_ne_empty (suffix : String) : "-" ++ suffix ≠ "" := by
  intro h
  have h' := congrArg String.data h
  rw [String.data_append] at h'
  cases h'

theorem foldl_append_if_map {α β : Type} (p : α → Prop) [DecidablePred p] (f : α → β)
    (l : List α) (acc : List β) :
    l.foldl (fun out e => if p e then out ++ [f e] else out) acc
      = acc ++ (l.filter (fun e => decide (p e))).map f := by
  induction l generalizing acc with
  | nil => simp
  | cons x xs ih =>
    rw [List.foldl_cons, ih]
    by_cases hx : p x
    · rw [if_pos hx, List.filter_cons_of_pos (by simpa using hx), List.map_cons,
        List.append_assoc, List.singleton_append]
    · rw [if_neg hx, List.filter_cons_of_neg (by simpa using hx)]

theorem GetStates_of_list (lib : state.Libs) (k : state.Kubernetes) {secrets : List state.Secret}
    (h : k.client.ListSecrets k.namespace_ (k.labelSelector lib) = .ok secrets) :
    k.GetStates lib =
      (sortStrings ((secrets.filter (fun secret => decide
          ((GoMap.get? secret.Data "tfstate").isSome = true ∧
            state.TrimSuffix secret.Name ("-" ++ k.suffix) ≠ secret.Name))).map
        (fun secret => state.TrimSuffix secret.Name ("-" ++ k.suffix))), none) := by
  unfold state.Kubernetes.GetStates
  rw [h]
  simp only []
  have hf := foldl_append_if_map
    (fun secret : state.Secret => (GoMap.get? secret.Data "tfstate").isSome = true ∧
      state.TrimSuffix secret.Name ("-" ++ k.suffix) ≠ secret.Name)
    (fun secret => state.TrimSuffix secret.Name ("-" ++ k.suffix)) secrets []
  rw [List.nil_append] at hf
  rw [← hf]
  congr 2
  apply List.foldl_ext
  intro states secret _
  by_cases h1 : (GoMap.get? secret.Data "tfstate").isSome = true
  · by_cases h2 : state.TrimSuffix secret.Name ("-" ++ k.suffix) ≠ secret.Name
    · rw [if_pos h1, if_pos h2, if_pos ⟨h1, h2⟩]
    · rw [if_pos h1, if_neg h2, if_neg (fun h => h2 h.2)]
  · rw [if_neg h1, if_neg (fun h => h1 h.1)]

theorem GoMap.isSome_get?_iff {α : Type} (m : GoMap α) (k : String) :
    (GoMap.get? m k).isSome = true ↔ k ∈ GoMap.keys m := by
  rw [GoMap.mem_keys_iff, Option.isSome_iff_ne_none]

theorem GetLocks_of_list (lib : state.Libs) (k : state.Kubernetes) {secrets : List state.Secret}
    (hn : k.noLocks = false)
    (h : k.client.ListSecrets k.namespace_ (k.labelSelector lib) = .ok secrets) :
    k.GetLocks lib =
      (secrets.foldl
        (fun (locks : GoMap state.LockInfo) secret =>
          locks.addEntry (state.lockEntry lib k secret)) [], none) := by
  unfold state.Kubernetes.GetLocks
  rw [hn, h]
  simp only [Bool.false_eq_true, if_false]
  congr 1
  apply List.foldl_ext
  intro locks secret _
  unfold state.lockEntry state.lockInfoOf GoMap.addEntry
  cases GoMap.get? secret.Annotations "terraform.io/lock-id" with
  | none => rfl
  | some lockID =>
    simp only []
    by_cases ht : state.TrimSuffix secret.Name ("-" ++ k.suffix) = secret.Name
    · rw [if_pos ht, if_pos ht]
    · rw [if_neg ht, if_neg ht]
      simp only []
      congr 1
      cases GoMap.get? secret.Annotations "terraform.io/lock-operation" <;>
        cases GoMap.get? secret.Annotations "terraform.io/lock-info" <;>
        cases GoMap.get? secret.Annotations "terraform.io/lock-who" <;>
        cases GoMap.get? secret.Annotations "terraform.io/lock-version" <;>
        cases hc : GoMap.get? secret.Annotations "terraform.io/lock-created" <;>
        first
        | rfl
        | (simp only [Option.bind, Option.getD]
           cases lib.ParseRFC3339 _ <;> rfl)

theorem GoMap.get?_foldl_entry {α β : Type} (g : β → Option (String × α)) (l : List β)
    (k : String) (v : α)
    (h : GoMap.get? (l.foldl (fun (m : GoMap α) s => m.addEntry (g s)) []) k = some v) :
    ∃ s ∈ l, g s = some (k, v) := by
  induction l using List.reverseRecOn with
  | nil => simp [GoMap.get?] at h
  | append_singleton xs x ih =>
    rw [List.foldl_append, List.foldl_cons, List.foldl_nil] at h
    cases hg : g x with
    | none =>
      rw [hg] at h
      obtain ⟨s, hs, hgs⟩ := ih h
      exact ⟨s, List.mem_append_left _ hs, hgs⟩
    | some p =>
      obtain ⟨n, w⟩ := p
      rw [hg] at h
      simp only [GoMap.addEntry] at h
      rw [GoMap.get?_set] at h
      by_cases hnk : n = k
      · rw [if_pos hnk] at h
        cases h
        exact ⟨x, by simp, by rw [hg, hnk]⟩
      · rw [if_neg hnk] at h
        obtain ⟨s, hs, hgs⟩ := ih h
        exact ⟨s, List.mem_append_left _ hs, hgs⟩

theorem GoMap.get?_foldl_entry_ne_none {α β : Type} (g : β → Option (String × α)) (l : List β)
    (k : String) (h : ∃ s ∈ l, ∃ v, g s = some (k, v)) :
    GoMap.get? (l.foldl (fun (m : GoMap α) s => m.addEntry (g s)) []) k ≠ none := by
  induction l using List.reverseRecOn with
  | nil =>
    obtain ⟨s, hs, _⟩ := h
    simp at hs
  | append_singleton xs x ih =>
    rw [List.foldl_append, List.foldl_cons, List.foldl_nil]
    obtain ⟨s, hs, v, hgs⟩ := h
    cases hg : g x with
    | none =>
      simp only [GoMap.addEntry]
      apply ih
      rcases List.mem_append.mp hs with hs | hs
      · exact ⟨s, hs, v, hgs⟩
      · rw [List.mem_singleton] at hs
        rw [hs, hg] at hgs
        cases hgs
    | some p =>
      obtain ⟨n, w⟩ := p
      simp only [GoMap.addEntry]
      rw [GoMap.get?_set]
      by_cases hnk : n = k
      · rw [if_pos hnk]
        simp
      · rw [if_neg hnk]
        apply ih
        rcases List.mem_append.mp hs with hs | hs
        · exact ⟨s, hs, v, hgs⟩
        · rw [List.mem_singleton] at hs
          rw [hs, hg] at hgs
          cases hgs
          exact absurd rfl hnk

theorem lockEntry_some {lib : state.Libs} {k : state.Kubernetes} {secret : state.Secret}
    {n : String} {v : state.LockInfo} :
    state.lockEntry lib k secret = some (n, v) ↔
      ∃ lockID, GoMap.get? secret.Annotations "terraform.io/lock-id" = some lockID ∧
        secret.Name = n ++ "-" ++ k.suffix ∧ v = state.lockInfoOf lib secret lockID n := by
  unfold state.lockEntry
  cases GoMap.get? secret.Annotations "terraform.io/lock-id" with
  | none => simp
  | some lockID =>
    simp only []
    by_cases ht : state.TrimSuffix secret.Name ("-" ++ k.suffix) = secret.Name
    · rw [if_pos ht]
      constructor
      · intro h
        cases h
      · rintro ⟨_, _, hname, _⟩
        rw [String.append_assoc] at hname
        exact absurd ht ((TrimSuffix_ne_iff (dash_suffix_ne_empty k.suffix) n).mpr hname).1
    · rw [if_neg ht]
      constructor
      · intro h
        simp only [Option.some.injEq, Prod.mk.injEq] at h
        obtain ⟨hn, hv⟩ := h
        refine ⟨lockID, rfl, ?_, ?_⟩
        · rw [String.append_assoc]
          exact (TrimSuffix_ne_iff (dash_suffix_ne_empty k.suffix) n).mp ⟨ht, hn⟩
        · rw [← hv, hn]
      · rintro ⟨id', hid, hname, hv⟩
        cases hid
        rw [String.append_assoc] at hname
        have hn := ((TrimSuffix_ne_iff (dash_suffix_ne_empty k.suffix) n).mpr hname).2
        rw [hn, hv]

/-! ## Attributes of a resource instance -/

mutual
theorem length_flatten (key : String) :
    ∀ v, (db.flatten key v).length = db.leafCount v
  | .leaf _ => by simp [db.flatten, db.leafCount]
  | .object fields => by
    rw [db.flatten, db.leafCount]
    exact length_flattenFields key fields
  | .array items => by
    rw [db.flatten, db.leafCount]
    exact length_flattenItems key 0 items
theorem length_flattenFields (key : String) :
    ∀ fields, (db.flattenFields key fields).length = db.leafCountFields fields
  | [] => by simp [db.flattenFields, db.leafCountFields]
  | (name, v) :: rest => by
    rw [db.flattenFields, db.leafCountFields, List.length_append, length_flatten _ v,
      length_flattenFields key rest]
theorem length_flattenItems (key : String) (i : Nat) :
    ∀ items, (db.flattenItems key i items).length = db.leafCountItems items
  | [] => by simp [db.flattenItems, db.leafCountItems]
  | v :: rest => by
    rw [db.flattenItems, db.leafCountItems, List.length_append, length_flatten _ v,
      length_flattenItems key (i + 1) rest]
end

mutual
theorem texts_flatten (key : String) :
    ∀ v, (db.flatten key v).map Prod.snd = db.leafTexts v
  | .leaf _ => by simp [db.flatten, db.leafTexts]
  | .object fields => by
    rw [db.flatten, db.leafTexts]
    exact texts_flattenFields key fields
  | .array items => by
    rw [db.flatten, db.leafTexts]
    exact texts_flattenItems key 0 items
theorem texts_flattenFields (key : String) :
    ∀ fields, (db.flattenFields key fields).map Prod.snd = db.leafTextsFields fields
  | [] => by simp [db.flattenFields, db.leafTextsFields]
  | (name, v) :: rest => by
    rw [db.flattenFields, db.leafTextsFields, List.map_append, texts_flatten _ v,
      texts_flattenFields key rest]
theorem texts_flattenItems (key : String) (i : Nat) :
    ∀ items, (db.flattenItems key i items).map Prod.snd = db.leafTextsItems items
  | [] => by simp [db.flattenItems, db.leafTextsItems]
  | v :: rest => by
    rw [db.flattenItems, db.leafTextsItems, List.map_append, texts_flatten _ v,
      texts_flattenItems key (i + 1) rest]
end

/-! ### Keys at or below a path -/

theorem joinKey_of_ne {key : String} (h : key ≠ "") (segment : String) :
    db.joinKey key segment = key ++ "." ++ segment := by
  unfold db.joinKey
  rw [if_neg h]

theorem append_ne_empty {key : String} (h : key ≠ "") (rest : String) :
    key ++ rest ≠ "" := by
  intro he
  apply h
  have hd := congrArg String.data he
  rw [String.data_append] at hd
  exact String.ext (List.append_eq_nil.mp hd).1

theorem extendKey_append {key : String} (h : key ≠ "") :
    ∀ segments : List String, ∃ rest, db.extendKey key segments = key ++ rest
  | [] => ⟨"", by simp [db.extendKey]⟩
  | s :: t => by
    have hne : key ++ "." ++ s ≠ "" := by
      rw [String.append_assoc]
      exact append_ne_empty h _
    obtain ⟨r, hr⟩ := extendKey_append hne t
    refine ⟨"." ++ s ++ r, ?_⟩
    have : db.extendKey key (s :: t) = db.extendKey (key ++ "." ++ s) t := by
      simp only [db.extendKey, List.foldl_cons, joinKey_of_ne h]
    rw [this, hr]
    simp only [String.append_assoc]

theorem HasPrefix_append (p rest : String) : HasPrefix (p ++ rest) p = true := by
  unfold HasPrefix
  rw [List.isPrefixOf_iff_prefix, String.data_append]
  exact List.prefix_append _ _

theorem eq_append_of_HasPrefix {s p : String} (h : HasPrefix s p = true) :
    ∃ rest, s = p ++ rest := by
  unfold HasPrefix at h
  rw [List.isPrefixOf_iff_prefix] at h
  obtain ⟨t, ht⟩ := h
  refine ⟨⟨t⟩, ?_⟩
  apply String.ext
  rw [String.data_append, ht]

/-- A key is at or below a path exactly when it is the dotted path continued
by some segments, none for the path itself. -/
theorem keyUnderPath_iff (key : String) (path : List db.PathStep) :
    db.keyUnderPath key path = true ↔
      ∃ segments, key = db.extendKey (db.dottedPath path) segments := by
  unfold db.keyUnderPath
  simp only [Bool.or_eq_true, decide_eq_true_eq]
  constructor
  · rintro ((h | h) | h)
    · refine ⟨[key], ?_⟩
      rw [h]
      simp [db.extendKey, db.joinKey]
    · exact ⟨[], h⟩
    · by_cases he : db.dottedPath path = ""
      · refine ⟨[key], ?_⟩
        rw [he]
        simp [db.extendKey, db.joinKey]
      · obtain ⟨r, hr⟩ := eq_append_of_HasPrefix h
        refine ⟨[r], ?_⟩
        rw [hr]
        simp only [db.extendKey, List.foldl_cons, List.foldl_nil, joinKey_of_ne he]
  · rintro ⟨segments, h⟩
    by_cases he : db.dottedPath path = ""
    · exact Or.inl (Or.inl he)
    · cases segments with
      | nil => exact Or.inl (Or.inr h)
      | cons s t =>
        right
        have hne : db.dottedPath path ++ "." ++ s ≠ "" := by
          rw [String.append_assoc]
          exact append_ne_empty he _
        obtain ⟨r, hr⟩ := extendKey_append hne t
        have : key = db.dottedPath path ++ "." ++ (s ++ r) := by
          rw [h]
          simp only [db.extendKey, List.foldl_cons, joinKey_of_ne he] at hr ⊢
          rw [hr]
          simp only [String.append_assoc]
        rw [this]
        exact HasPrefix_append _ _

mutual
theorem key_flatten (key : String) :
    ∀ v, ∀ x ∈ db.flatten key v, ∃ segments, x.1 = db.extendKey key segments
  | .leaf _ => by
    intro x hx
    rw [db.flatten, List.mem_singleton] at hx
    exact ⟨[], by rw [hx]; rfl⟩
  | .object fields => by
    rw [db.flatten]
    exact key_flattenFields key fields
  | .array items => by
    rw [db.flatten]
    exact key_flattenItems key 0 items
theorem key_flattenFields (key : String) :
    ∀ fields, ∀ x ∈ db.flattenFields key fields, ∃ segments, x.1 = db.extendKey key segments
  | [] => by simp [db.flattenFields]
  | (name, v) :: rest => by
    intro x hx
    rw [db.flattenFields, List.mem_append] at hx
    rcases hx with hx | hx
    · obtain ⟨segments, hs⟩ := key_flatten (db.joinKey key name) v x hx
      exact ⟨name :: segments, hs⟩
    · exact key_flattenFields key rest x hx
theorem key_flattenItems (key : String) (i : Nat) :
    ∀ items, ∀ x ∈ db.flattenItems key i items, ∃ segments, x.1 = db.extendKey key segments
  | [] => by simp [db.flattenItems]
  | v :: rest => by
    intro x hx
    rw [db.flattenItems, List.mem_append] at hx
    rcases hx with hx | hx
    · obtain ⟨segments, hs⟩ := key_flatten (db.joinKey key (Nat.repr i)) v x hx
      exact ⟨Nat.repr i :: segments, hs⟩
    · exact key_flattenItems key (i + 1) rest x hx
end

theorem mem_flattenFields_of_lookup (key name : String) (u : db.JSONValue)
    (x : String × String) (hx : x ∈ db.flatten (db.joinKey key name) u) :
    ∀ fields : List (String × db.JSONValue), fields.lookup name = some u →
      x ∈ db.flattenFields key fields
  | [] => by simp
  | (n, v) :: rest => by
    intro h
    rw [db.flattenFields, List.mem_append]
    by_cases hn : name = n
    · subst hn
      rw [List.lookup_cons, beq_self_eq_true] at h
      cases h
      exact Or.inl hx
    · have hb : (name == n) = false := by simpa using hn
      rw [List.lookup_cons, hb] at h
      exact Or.inr (mem_flattenFields_of_lookup key name u x hx rest h)

theorem mem_flattenItems_of_get (key : String) (u : db.JSONValue) (x : String × String) :
    ∀ (items : List db.JSONValue) (i j : Nat), items[i]? = some u →
      x ∈ db.flatten (db.joinKey key (Nat.repr (j + i))) u → x ∈ db.flattenItems key j items
  | [], _, _ => by simp
  | v :: rest, 0, j => by
    intro h hx
    rw [db.flattenItems, List.mem_append]
    simp only [List.getElem?_cons_zero, Option.some.injEq] at h
    subst h
    exact Or.inl hx
  | v :: rest, i + 1, j => by
    intro h hx
    rw [db.flattenItems, List.mem_append]
    simp only [List.getElem?_cons_succ] at h
    have he : j + (i + 1) = j + 1 + i := by omega
    rw [he] at hx
    exact Or.inr (mem_flattenItems_of_get key u x rest i (j + 1) h hx)

theorem mem_flatten_of_descend (key : String) (v u : db.JSONValue) (step : db.PathStep)
    (h : db.descend v step = some u) (x : String × String)
    (hx : x ∈ db.flatten (db.joinKey key step.segment) u) : x ∈ db.flatten key v := by
  cases v with
  | leaf raw => cases step <;> simp [db.descend] at h
  | object fields =>
    cases step with
    | GetAttr name =>
      rw [db.flatten]
      exact mem_flattenFields_of_lookup key name u x hx fields h
    | Index k => simp [db.descend] at h
  | array items =>
    cases step with
    | GetAttr name => simp [db.descend] at h
    | Index k =>
      rw [db.flatten]
      refine mem_flattenItems_of_get key u x items k 0 h ?_
      rw [Nat.zero_add]
      exact hx

/-- The leaves of the subtree that a path targets are leaves of the whole
value, under the keys that the path gives them. -/
theorem mem_flatten_of_subtreeAt (x : String × String) (u : db.JSONValue) :
    ∀ (path : List db.PathStep) (v : db.JSONValue) (key : String),
      db.subtreeAt v path = some u →
      x ∈ db.flatten (path.foldl (fun k step => db.joinKey k step.segment) key) u →
      x ∈ db.flatten key v
  | [], v, key => by
    intro h hx
    simp only [db.subtreeAt, Option.some.injEq] at h
    subst h
    exact hx
  | step :: rest, v, key => by
    intro h hx
    rw [db.subtreeAt] at h
    cases hd : db.descend v step with
    | none => rw [hd] at h; cases h
    | some w =>
      rw [hd] at h
      exact mem_flatten_of_descend key v w step hd x
        (mem_flatten_of_subtreeAt x u rest w _ h hx)

/-! ## Lookups by address and by key -/

theorem getResourceAttribute_of_mem {res : Resource} {k : String}
    (h : k ∈ resourceAttributes res) :
    ∃ a ∈ res.Attributes, a.Key = k ∧ getResourceAttribute res k = (a, none) := by
  obtain ⟨a, ha⟩ := findAttribute_of_mem_keys (mem_resourceAttributes.mp h)
  refine ⟨a, (findAttribute_some ha).1, (findAttribute_some ha).2, ?_⟩
  unfold getResourceAttribute
  rw [ha]

theorem formatResourceErrors_none (res : Resource) :
    ∀ e ∈ formatResourceErrors res, e = none := by
  intro e he
  unfold formatResourceErrors at he
  obtain ⟨k, hk, rfl⟩ := List.mem_map.mp he
  obtain ⟨a, _, _, hget⟩ := getResourceAttribute_of_mem hk
  rw [hget]

theorem getResource_snd_of_mem {s : State} {k : String} (h : k ∈ stateResources s) :
    (getResource s k).2 = none := by
  obtain ⟨m, _, r, _, _, hget⟩ := getResource_of_mem h
  rw [hget]

theorem compareResourceErrors_none {st1 st2 : State} {key : String}
    (h1 : key ∈ stateResources st1) (h2 : key ∈ stateResources st2) :
    ∀ e ∈ compareResourceErrors st1 st2 key, e = none := by
  intro e he
  unfold compareResourceErrors at he
  simp only [List.mem_append, List.mem_cons, List.mem_singleton, List.mem_map,
    List.not_mem_nil, or_false] at he
  rcases he with ((((he | he) | ⟨k, hk, rfl⟩) | ⟨k, hk, rfl⟩) | he) | he
  · rw [he]; exact getResource_snd_of_mem h1
  · rw [he]; exact getResource_snd_of_mem h2
  · obtain ⟨a, _, _, hget⟩ := getResourceAttribute_of_mem (mem_sliceDiff.mp hk).1
    rw [hget]
  · obtain ⟨a, _, _, hget⟩ := getResourceAttribute_of_mem (mem_sliceDiff.mp hk).1
    rw [hget]
  · exact formatResourceErrors_none _ e he
  · exact formatResourceErrors_none _ e he

theorem CompareErrors_none (A B : State) : ∀ e ∈ CompareErrors A B, e = none := by
  intro e he
  unfold CompareErrors at he
  simp only [List.mem_append, List.mem_flatMap, List.mem_cons] at he
  rcases he with (⟨r, hr, he⟩ | ⟨r, hr, he⟩) | ⟨r, hr, he⟩
  · rcases he with he | he
    · rw [he]; exact getResource_snd_of_mem (mem_sliceDiff.mp hr).1
    · exact formatResourceErrors_none _ e he
  · rcases he with he | he
    · rw [he]; exact getResource_snd_of_mem (mem_sliceDiff.mp hr).1
    · exact formatResourceErrors_none _ e he
  · exact compareResourceErrors_none (mem_sliceInter.mp hr).1 (mem_sliceInter.mp hr).2 e he

/-! ## The first resource with an address -/

theorem getElem?_indexOf_eq_find? (l : List (String × Resource)) (k : String) :
    (l.map Prod.snd)[(l.map Prod.fst).indexOf k]?
      = (l.find? (fun p => p.1 == k)).map Prod.snd := by
  induction l with
  | nil => rfl
  | cons p l ih =>
    obtain ⟨a, r⟩ := p
    rw [List.map_cons, List.map_cons, List.indexOf_cons, List.find?_cons]
    by_cases h : a = k
    · subst h
      simp
    · have hb : (a == k) = false := by simpa using h
      simp only [hb, cond_false, List.getElem?_cons_succ]
      exact ih

theorem findResource_eq_find? (m : Module) (k : String) (rs : List Resource) :
    findResource m k rs
      = ((rs.map (fun r => (resourceAddress m r, r))).find? (fun p => p.1 == k)).map
          Prod.snd := by
  induction rs with
  | nil => rfl
  | cons r rs ih =>
    unfold findResource
    rw [List.map_cons, List.find?_cons]
    by_cases h : k = resourceAddress m r
    · rw [if_pos h]
      have hb : (resourceAddress m r == k) = true := by simpa using h.symm
      simp [hb]
    · rw [if_neg h, ih]
      have hb : (resourceAddress m r == k) = false := by
        simpa using (fun e : resourceAddress m r = k => h e.symm)
      simp [hb]

theorem getResourceLoop_eq_find? (k : String) (ms : List Module) :
    getResourceLoop k ms
      = ((addressedResources ms).find? (fun p => p.1 == k)).map Prod.snd := by
  induction ms with
  | nil => rfl
  | cons m ms ih =>
    unfold getResourceLoop addressedResources
    rw [List.flatMap_cons, List.find?_append]
    have ih' : getResourceLoop k ms
        = ((ms.flatMap (fun m => m.Resources.map (fun r => (resourceAddress m r, r)))).find?
            (fun p => p.1 == k)).map Prod.snd := ih
    by_cases hp : HasPrefix k m.Path = true
    · rw [if_pos hp, findResource_eq_find?, ih']
      cases (m.Resources.map (fun r => (resourceAddress m r, r))).find? (fun p => p.1 == k) <;>
        rfl
    · rw [if_neg hp, ih']
      have hnone : (m.Resources.map (fun r => (resourceAddress m r, r))).find?
          (fun p => p.1 == k) = none := by
        rw [List.find?_eq_none]
        intro p hmem hpk
        obtain ⟨r, _, rfl⟩ := List.mem_map.mp hmem
        have hk : resourceAddress m r = k := by simpa using hpk
        exact hp (hk ▸ HasPrefix_resourceAddress m r)
      rw [hnone]
      rfl

theorem addressedResources_fst (ms : List Module) :
    (addressedResources ms).map Prod.fst
      = ms.flatMap (fun m => m.Resources.map (resourceAddress m)) := by
  induction ms with
  | nil => rfl
  | cons m ms ih =>
    unfold addressedResources at ih ⊢
    rw [List.flatMap_cons, List.flatMap_cons, List.map_append, ih, List.map_map]
    rfl

theorem addressedResources_snd (ms : List Module) :
    (addressedResources ms).map Prod.snd = ms.flatMap (fun m => m.Resources) := by
  induction ms with
  | nil => rfl
  | cons m ms ih =>
    unfold addressedResources at ih ⊢
    rw [List.flatMap_cons, List.flatMap_cons, List.map_append, ih, List.map_map]
    congr 1
    exact List.map_id _

theorem getResourceLoop_eq_first (s : State) (k : String) :
    getResourceLoop k s.Modules = (allResources s)[(stateResources s).indexOf k]? := by
  rw [getResourceLoop_eq_find?, ← getElem?_indexOf_eq_find?, addressedResources_fst,
    addressedResources_snd, stateResources_eq_flatMap]
  rfl

theorem getResource_error_iff (s : State) (k : String) :
    (getResource s k).2 ≠ none ↔ k ∉ stateResources s := by
  constructor
  · intro h hk
    exact h (getResource_snd_of_mem hk)
  · intro h
    unfold getResource
    cases hl : getResourceLoop k s.Modules with
    | none => simp
    | some r =>
      obtain ⟨m, hm, hr, hk⟩ := getResourceLoop_some hl
      exact absurd (mem_stateResources.mpr ⟨m, hm, r, hr, hk⟩) h

theorem getResource_fst_eq_first {s : State} {k : String} (h : k ∈ stateResources s) :
    (allResources s)[(stateResources s).indexOf k]? = some (getResource s k).1 := by
  rw [← getResourceLoop_eq_first]
  obtain ⟨m, _, r, _, _, hget⟩ := getResource_of_mem h
  unfold getResource at hget ⊢
  cases hl : getResourceLoop k s.Modules with
  | none =>
    rw [hl] at hget
    cases hget
  | some r' => rfl

/-! ## Package `auth` -/

theorem SetupOIDC_logoutURL (lib : auth.OIDCLib) (config : auth.OIDCConfig)
    (g : auth.Globals lib) : (auth.SetupOIDC lib config g).1.logoutURL = g.logoutURL := by
  unfold auth.SetupOIDC
  split_ifs <;> first
    | rfl
    | (split <;> rfl)

theorem Setup_logoutURL (lib : auth.OIDCLib) (c : auth.Config) (g : auth.Globals lib) :
    (auth.Setup lib c g).logoutURL = c.Web.LogoutURL := by
  unfold auth.Setup
  rw [SetupOIDC_logoutURL]

theorem asString_eq_some {v : Option auth.ClaimValue} {s : String}
    (h : auth.asString v = some s) : v = some (.string s) := by
  cases v with
  | none => cases h
  | some c =>
    cases c <;> simp only [auth.asString, Option.some.injEq] at h <;> first
      | (rw [h])
      | cases h

theorem OIDCUserInfo_eq (crypto : auth.Crypto) (claims : GoMap auth.ClaimValue) :
    auth.OIDCUserInfo crypto claims =
      { Name := ((auth.asString (GoMap.get? claims "name")).orElse
          (fun _ => auth.asString (GoMap.get? claims "preferred_username"))).getD ""
        AvatarURL :=
          match auth.asString (GoMap.get? claims "email") with
          | some email =>
            if email ≠ "" then
              "http://www.gravatar.com/avatar/" ++ auth.hexLower (crypto.MD5Sum (utf8Bytes email))
            else ""
          | none => ""
        LogoutURL := "/auth/logout"
        IsOIDC := true
        Authenticated := true } := by
  unfold auth.OIDCUserInfo
  cases auth.asString (GoMap.get? claims "name") <;>
    cases auth.asString (GoMap.get? claims "preferred_username") <;>
    cases auth.asString (GoMap.get? claims "email") <;>
    simp only [Option.orElse, Option.getD] <;>
    first
    | rfl
    | (split_ifs <;> rfl)

/-! ## `Kubernetes.GetState` -/

theorem GetState_of_data {File : Type} (lib : state.StateLibs File) (k : state.Kubernetes)
    (stateName version : String) {secret : state.Secret} {stateData : List Nat}
    (hs : k.client.GetSecret k.namespace_ (stateName ++ "-" ++ k.suffix) = .ok secret)
    (hd : GoMap.get? secret.Data "tfstate" = some stateData) :
    (k.GetState lib stateName version).1 =
      state.readState lib
        (match lib.DecodeString stateData with
          | some decoded => decoded
          | none => stateData) := by
  unfold state.Kubernetes.GetState state.readState
  simp only [hs, hd]
  cases lib.DecodeString stateData with
  | none =>
    simp only []
    cases lib.Read stateData <;> rfl
  | some decoded =>
    simp only []
    cases lib.Read decoded <;> rfl

theorem decodeQuads_brace (rest : List Nat) : state.decodeQuads (123 :: rest) = none := by
  match rest with
  | [] => rfl
  | [_] => rfl
  | [_, _] => rfl
  | _ :: _ :: _ :: _ => rfl

theorem sampleStateLibs_rejectsBrace : state.sampleStateLibs.RejectsBrace := by
  intro rest
  show state.decodeQuads ((123 :: rest).filter (fun b => b ≠ 10 ∧ b ≠ 13)) = none
  rw [List.filter_cons_of_pos (by decide)]
  exact decodeQuads_brace _

/-! ## Claims -/

/-- C1: `Compare(from, to)` returns an error if and only if `from.Path` or
`to.Path` is the empty string; in particular it returns no error when both
paths are non-empty. -/
theorem Compare_error_iff (d : Difflib) (from_ to_ : State) :
    (Compare d from_ to_).2 ≠ none ↔ (from_.Path = "" ∨ to_.Path = "") := by
  unfold Compare
  by_cases h1 : from_.Path = ""
  · simp [h1]
  · by_cases h2 : to_.Path = ""
    · simp [h1, h2]
    · simp [h1, h2]

/-- C2, evaluated on two versions of a state: in `Compare(stateA, stateB)` the
`ResourceDiff` of the resource `web` has under `OnlyInOld` the attribute that
only `stateB` (the new side) has, and under `OnlyInNew` the attribute that
only `stateA` (the old side) has. -/
theorem Compare_resourceDiff_attribute_sides (d : Difflib) :
    (Compare d stateA stateB).1.Differences.ResourceDiff =
      if d.GetUnifiedDiffString (requestAB d) ≠ "" then
        [("root.aws_instance.web",
          { OnlyInOld := [("only_b", "2")], OnlyInNew := [("only_a", "1")],
            UnifiedDiff := d.GetUnifiedDiffString (requestAB d) })]
      else [] := by
  rfl

/-- C3, evaluated on scenario S5: in `Compare(stateV1, stateV2)`, where
`stateV1` has the instance type `t2.micro` and `stateV2` has `t2.small`, the
unified diff of the resource `web` is the one the library computes from the
block and label of `stateV2` (the to side) to the block and label of `stateV1`
(the from side). -/
theorem Compare_unifiedDiff_orientation (d : Difflib) :
    GoMap.get? (Compare d stateV1 stateV2).1.Differences.ResourceDiff "root.aws_instance.web" =
      if d.GetUnifiedDiffString (requestV1V2 d) ≠ "" then
        some { OnlyInOld := [], OnlyInNew := [],
               UnifiedDiff := d.GetUnifiedDiffString (requestV1V2 d) }
      else none := by
  have h : (Compare d stateV1 stateV2).1.Differences.ResourceDiff =
      if d.GetUnifiedDiffString (requestV1V2 d) ≠ "" then
        [("root.aws_instance.web",
          { OnlyInOld := [], OnlyInNew := [],
            UnifiedDiff := d.GetUnifiedDiffString (requestV1V2 d) })]
      else [] := rfl
  rw [h]
  by_cases hd : d.GetUnifiedDiffString (requestV1V2 d) ≠ ""
  · rw [if_pos hd, if_pos hd]
    rfl
  · rw [if_neg hd, if_neg hd]
    rfl

/-- C4: redaction is a non-interference property of the diff.  When `A'`
differs from `A` only in the values of sensitive attributes, each replaced
value having the byte length of the original and neither being the string
`null`, then `Compare(A', B)` and `Compare(A, B)` are the same result, and so
are `Compare(B, A')` and `Compare(B, A)`. -/
theorem Compare_redaction_noninterference (d : Difflib) (A A' B : State)
    (_hA : A.Path ≠ "") (_hB : B.Path ≠ "") (hv : State.SecretVariant A A') :
    Compare d A' B = Compare d A B ∧ Compare d B A' = Compare d B A :=
  ⟨Compare_secretVariant d hv (secretVariant_refl_state B),
    Compare_secretVariant d (secretVariant_refl_state B) hv⟩

theorem Compare_redaction_noninterference_witness :
    stateV1.Path ≠ "" ∧ stateV2.Path ≠ "" ∧ State.SecretVariant stateV1 stateV1Secret ∧
    stateV1Secret ≠ stateV1 ∧
    Compare plainDifflib stateV1Secret stateV2 = Compare plainDifflib stateV1 stateV2 ∧
    Compare plainDifflib stateV2 stateV1Secret = Compare plainDifflib stateV2 stateV1 :=
  have hv : State.SecretVariant stateV1 stateV1Secret := by
    refine ⟨rfl, rfl, rfl, rfl, ?_⟩
    refine List.Forall₂.cons ⟨rfl, ?_⟩ List.Forall₂.nil
    refine List.Forall₂.cons (secretVariant_refl_resource _) ?_
    refine List.Forall₂.cons ⟨rfl, rfl, ?_⟩ List.Forall₂.nil
    refine List.Forall₂.cons (secretVariant_refl_attribute _) ?_
    refine List.Forall₂.cons ⟨rfl, rfl, Or.inr ?_⟩ List.Forall₂.nil
    decide
  ⟨by decide, by decide, hv, by decide,
    Compare_redaction_noninterference plainDifflib stateV1 stateV1Secret stateV2
      (by decide) (by decide) hv⟩

/-- C5: for a resource whose attribute keys are pairwise distinct, the text of
`formatResource` between the header and the closing line consists of one line
for each attribute (the lines are those of a rearrangement of the attributes),
and that line is `attributeLine`: `  key = (null)` for a sensitive value
`null`, `  key = (n)` with the byte length `n` for any other sensitive value,
and `  key = value` for a value that is not sensitive. -/
theorem formatResource_attribute_lines (res : Resource)
    (hk : (res.Attributes.map Attribute.Key).Nodup) :
    ∃ l : List Attribute, l.Perm res.Attributes ∧
      formatResource res
        = resourceHeader res ++ String.join (l.map attributeLine) ++ resourceFooter := by
  refine ⟨(resourceAttributes res).map (fun k => (getResourceAttribute res k).1), ?_, ?_⟩
  · have h1 := (resourceAttributes_perm res).map (fun k => (getResourceAttribute res k).1)
    have h2 : (res.Attributes.map Attribute.Key).map (fun k => (getResourceAttribute res k).1)
        = res.Attributes := by
      rw [List.map_map]
      conv_rhs => rw [← List.map_id res.Attributes]
      apply List.map_congr_left
      intro a ha
      exact getResourceAttribute_fst_of_mem_nodup hk ha
    rw [h2] at h1
    exact h1
  · rw [formatResource_eq_join, List.map_map]
    rfl

theorem formatResource_attribute_lines_witness :
    (dbHunter.Attributes.map Attribute.Key).Nodup ∧
    ∃ l : List Attribute, l.Perm dbHunter.Attributes ∧
      formatResource dbHunter
        = resourceHeader dbHunter ++ String.join (l.map attributeLine) ++ resourceFooter :=
  ⟨by decide, formatResource_attribute_lines dbHunter (by decide)⟩

/-- C6, as stated, fails: the block of the state whose password is `hunter2`
has no line `password = (6)`, whether the value is stored as the seven bytes
`hunter2` or as its JSON encoding of nine bytes. -/
theorem formatResource_hunter2_no_six :
    ¬ hasLine (formatResource dbHunter) "password = (6)" ∧
    ¬ hasLine (formatResource dbHunterJSON) "password = (6)" := by
  decide

/-- C6, amended: the block of the state whose password is `hunter2` contains
the line `password = (7)`, the block of the state whose password is `other`
contains the line `password = (5)`, and both blocks show the user name
verbatim. -/
theorem formatResource_scenario_S1 :
    hasLine (formatResource dbHunter) "password = (7)" ∧
    hasLine (formatResource dbOther) "password = (5)" ∧
    hasLine (formatResource dbHunter) "username = root" ∧
    hasLine (formatResource dbOther) "username = root" := by
  decide

/-- C7: for every resource, `formatResource` is the header line, then one line
`  key = rendering` per attribute with the keys of successive lines in
ascending byte-wise lexicographic order, then the closing line; every line
ends with a newline. -/
theorem formatResource_sorted_lines (res : Resource) :
    ∃ lines : List (String × String),
      formatResource res
        = resourceHeader res
          ++ String.join (lines.map (fun p => "  " ++ p.1 ++ " = " ++ p.2 ++ "\n"))
          ++ resourceFooter
      ∧ lines.length = res.Attributes.length
      ∧ (lines.map Prod.fst).Perm (res.Attributes.map Attribute.Key)
      ∧ ((lines.map Prod.fst).map utf8Bytes).Sorted (· ≤ ·) := by
  have hfst : (resourceAttributes res).map
      (Prod.fst ∘ fun k =>
        ((getResourceAttribute res k).1.Key, renderValue (getResourceAttribute res k).1))
      = resourceAttributes res := by
    conv_rhs => rw [← List.map_id (resourceAttributes res)]
    apply List.map_congr_left
    intro k hk
    exact getResourceAttribute_key hk
  refine ⟨(resourceAttributes res).map
      (fun k => ((getResourceAttribute res k).1.Key, renderValue (getResourceAttribute res k).1)),
    ?_, ?_, ?_, ?_⟩
  · rw [formatResource_eq_join, List.map_map]
    congr 3
    apply List.map_congr_left
    intro k _
    exact attributeLine_eq _
  · rw [List.length_map, (resourceAttributes_perm res).length_eq, List.length_map]
  · rw [List.map_map, hfst]
    exact resourceAttributes_perm res
  · have hs := sorted_utf8Bytes (sortStrings_sorted (res.Attributes.map Attribute.Key))
    rw [← resourceAttributes_eq, ← hfst, ← List.map_map] at hs
    exact hs

/-- C8: `formatResource` does not depend on the order in which the attributes
are stored: two resources with the same type and name whose attribute lists
have pairwise distinct keys and are rearrangements of each other have the same
text. -/
theorem formatResource_perm (r1 r2 : Resource) (ht : r1.Type_ = r2.Type_)
    (hn : r1.Name = r2.Name) (hk : (r1.Attributes.map Attribute.Key).Nodup)
    (hp : r1.Attributes.Perm r2.Attributes) :
    formatResource r1 = formatResource r2 := by
  have hk2 : (r2.Attributes.map Attribute.Key).Nodup :=
    ((hp.map Attribute.Key).nodup_iff).mp hk
  have hattrs : resourceAttributes r1 = resourceAttributes r2 := by
    rw [resourceAttributes_eq, resourceAttributes_eq]
    exact sortStrings_unique ((sortStrings_perm _).trans (hp.map Attribute.Key))
      (sortStrings_sorted _)
  rw [formatResource_eq_join, formatResource_eq_join, hattrs]
  have hh : resourceHeader r1 = resourceHeader r2 := by
    unfold resourceHeader
    rw [ht, hn]
  rw [hh]
  congr 3
  apply List.map_congr_left
  intro k hmem
  obtain ⟨a, ha, rfl⟩ := List.mem_map.mp (mem_resourceAttributes.mp hmem)
  rw [getResourceAttribute_fst_of_mem_nodup hk2 ha,
    getResourceAttribute_fst_of_mem_nodup hk (hp.mem_iff.mpr ha)]

theorem formatResource_perm_witness :
    dbHunter.Type_ = dbHunterSwapped.Type_ ∧ dbHunter.Name = dbHunterSwapped.Name ∧
    (dbHunter.Attributes.map Attribute.Key).Nodup ∧
    dbHunter.Attributes.Perm dbHunterSwapped.Attributes ∧
    dbHunter.Attributes ≠ dbHunterSwapped.Attributes ∧
    formatResource dbHunter = formatResource dbHunterSwapped :=
  ⟨rfl, rfl, by decide, List.Perm.swap _ _ _, by decide,
    formatResource_perm dbHunter dbHunterSwapped rfl rfl (by decide) (List.Perm.swap _ _ _)⟩

/-- C9: for a successful `Compare(A, B)` the keys of `differences.only_in_old`
are exactly the resource addresses that occur in `A` and not in `B`, and the
value under each key is the `formatResource` block of a resource of `A` with
that address (the one `getResource` returns). -/
theorem Compare_onlyInOld_spec (d : Difflib) (A B : State)
    (hok : (Compare d A B).2 = none) :
    (∀ k, k ∈ GoMap.keys (Compare d A B).1.Differences.OnlyInOld
        ↔ (A.hasAddress k ∧ ¬ B.hasAddress k)) ∧
    (∀ k, k ∈ GoMap.keys (Compare d A B).1.Differences.OnlyInOld →
      ∃ m ∈ A.Modules, ∃ r ∈ m.Resources, resourceAddress m r = k ∧
        getResource A k = (r, none) ∧
        GoMap.get? (Compare d A B).1.Differences.OnlyInOld k = some (formatResource r)) := by
  obtain ⟨hA, hB⟩ := (Compare_ok_iff d A B).mp hok
  rw [Compare_onlyInOld d hA hB]
  have hkeys : ∀ k, k ∈ GoMap.keys ((sliceDiff (stateResources A) (stateResources B)).foldl
      (fun (m : GoMap String) r => m.set r (formatResource (getResource A r).1)) [])
        ↔ (A.hasAddress k ∧ ¬ B.hasAddress k) := by
    intro k
    rw [GoMap.mem_keys_foldl_set, mem_sliceDiff, mem_stateResources, mem_stateResources]
    rfl
  refine ⟨hkeys, ?_⟩
  intro k hk
  have hmem : k ∈ sliceDiff (stateResources A) (stateResources B) :=
    (GoMap.mem_keys_foldl_set _ _ _).mp hk
  obtain ⟨m, hm, r, hr, hkr, hget⟩ := getResource_of_mem (mem_sliceDiff.mp hmem).1
  refine ⟨m, hm, r, hr, hkr, hget, ?_⟩
  rw [GoMap.get?_foldl_set, if_pos hmem, hget]

theorem Compare_onlyInOld_spec_witness :
    (Compare plainDifflib stateV1 stateV2).2 = none ∧
    (∀ k, k ∈ GoMap.keys (Compare plainDifflib stateV1 stateV2).1.Differences.OnlyInOld
        ↔ (stateV1.hasAddress k ∧ ¬ stateV2.hasAddress k)) ∧
    GoMap.keys (Compare plainDifflib stateV1 stateV2).1.Differences.OnlyInOld
      = ["root.aws_db_instance.main"] :=
  ⟨by decide, (Compare_onlyInOld_spec plainDifflib stateV1 stateV2 (by decide)).1, by decide⟩

/-- C10: for states `A` and `B` with non-empty paths, the `only_in_old` map of
`Compare(A, B)` is the `only_in_new` map of `Compare(B, A)`, and the `in_both`
lists of the two comparisons have the same elements. -/
theorem Compare_symmetry (d : Difflib) (A B : State) (hA : A.Path ≠ "") (hB : B.Path ≠ "") :
    (Compare d A B).1.Differences.OnlyInOld = (Compare d B A).1.Differences.OnlyInNew ∧
    (∀ k, k ∈ (Compare d A B).1.Differences.InBoth
        ↔ k ∈ (Compare d B A).1.Differences.InBoth) := by
  refine ⟨?_, ?_⟩
  · rw [Compare_onlyInOld d hA hB, Compare_onlyInNew d hB hA]
  · intro k
    rw [Compare_inBoth d hA hB, Compare_inBoth d hB hA, mem_sliceInter, mem_sliceInter]
    exact And.comm

theorem Compare_symmetry_witness :
    stateV1.Path ≠ "" ∧ stateV2.Path ≠ "" ∧
    (Compare plainDifflib stateV1 stateV2).1.Differences.OnlyInOld
      = (Compare plainDifflib stateV2 stateV1).1.Differences.OnlyInNew ∧
    (∀ k, k ∈ (Compare plainDifflib stateV1 stateV2).1.Differences.InBoth
        ↔ k ∈ (Compare plainDifflib stateV2 stateV1).1.Differences.InBoth) :=
  ⟨by decide, by decide, Compare_symmetry plainDifflib stateV1 stateV2 (by decide) (by decide)⟩

/-- C11: for states `A` and `B` with non-empty paths and the same modules,
resources and attributes (version, serial and Terraform version may differ),
`Compare(A, B)` has an empty `only_in_old` map, an empty `only_in_new` map and
an empty `resource_diff` map; the diff library is one that returns the empty
text for equal inputs. -/
theorem Compare_identical_content (d : Difflib) (A B : State) (hA : A.Path ≠ "")
    (hB : B.Path ≠ "") (hm : A.Modules = B.Modules) (hd : d.EmptyOnEqual) :
    (Compare d A B).1.Differences.OnlyInOld = [] ∧
    (Compare d A B).1.Differences.OnlyInNew = [] ∧
    (Compare d A B).1.Differences.ResourceDiff = [] := by
  have hres : stateResources A = stateResources B := by
    rw [stateResources_eq_flatMap, stateResources_eq_flatMap, hm]
  refine ⟨?_, ?_, ?_⟩
  · rw [Compare_onlyInOld d hA hB, hres, sliceDiff_self]
    rfl
  · rw [Compare_onlyInNew d hA hB, hres, sliceDiff_self]
    rfl
  · rw [Compare_resourceDiff d hA hB, GoMap.foldl_set_if]
    have hnil : (sliceInter (stateResources B) (stateResources A)).filter
        (fun r => decide ((compareResource d B A r).UnifiedDiff ≠ "")) = [] := by
      rw [List.filter_eq_nil_iff]
      intro r _
      have he : (compareResource d B A r).UnifiedDiff = "" := by
        rw [compareResource_eq]
        apply hd
        show d.SplitLines (formatResource (getResource B r).1)
          = d.SplitLines (formatResource (getResource A r).1)
        rw [getResource_fst_congr hm r]
      simp [he]
    rw [hnil]
    rfl

theorem Compare_identical_content_witness :
    stateV1.Path ≠ "" ∧ stateV1Later.Path ≠ "" ∧ stateV1.Modules = stateV1Later.Modules ∧
    stateV1 ≠ stateV1Later ∧ plainDifflib.EmptyOnEqual ∧
    (Compare plainDifflib stateV1 stateV1Later).1.Differences.OnlyInOld = [] ∧
    (Compare plainDifflib stateV1 stateV1Later).1.Differences.OnlyInNew = [] ∧
    (Compare plainDifflib stateV1 stateV1Later).1.Differences.ResourceDiff = [] :=
  have hd : plainDifflib.EmptyOnEqual := by
    intro u hu
    simp [plainDifflib, hu]
  ⟨by decide, by decide, rfl, by decide, hd,
    Compare_identical_content plainDifflib stateV1 stateV1Later (by decide) (by decide) rfl hd⟩

/-- C12, as stated, fails: `stateV1` and `stateV1Reordered` hold the same two
resources in opposite orders, the comparison succeeds, and `in_both` is not
the list of the addresses of the from state in its order. -/
theorem Compare_inBoth_not_from_order :
    (Compare plainDifflib stateV1 stateV1Reordered).2 = none ∧
    (Compare plainDifflib stateV1 stateV1Reordered).1.Differences.InBoth
      ≠ (stateResources stateV1).filter
          (fun k => decide (k ∈ stateResources stateV1Reordered)) := by
  decide

/-- C12, amended: for a successful `Compare(A, B)`, `in_both` is the list of
the resource addresses of `B` (the to state), in the order in which they are
encountered in `B`, that also occur among the addresses of `A`. -/
theorem Compare_inBoth_to_order (d : Difflib) (A B : State)
    (hok : (Compare d A B).2 = none) :
    (Compare d A B).1.Differences.InBoth
      = (stateResources B).filter (fun k => decide (k ∈ stateResources A)) := by
  obtain ⟨hA, hB⟩ := (Compare_ok_iff d A B).mp hok
  rw [Compare_inBoth d hA hB, sliceInter_eq_filter]

theorem Compare_inBoth_to_order_witness :
    (Compare plainDifflib stateV1 stateV1Reordered).2 = none ∧
    (Compare plainDifflib stateV1 stateV1Reordered).1.Differences.InBoth
      = ["root.aws_db_instance.main", "root.aws_instance.web"] ∧
    (Compare plainDifflib stateV1 stateV1Reordered).1.Differences.InBoth
      = (stateResources stateV1Reordered).filter
          (fun k => decide (k ∈ stateResources stateV1)) :=
  ⟨by decide, by decide,
    Compare_inBoth_to_order plainDifflib stateV1 stateV1Reordered (by decide)⟩

/-- C13: for a successful `Compare(A, B)`, an address is a key of
`resource_diff` if and only if it is in `in_both` and the unified diff that
`Compare` computes for it is not the empty string; the entry stored under a
key is that comparison, and its unified diff is not empty. -/
theorem Compare_resourceDiff_keys (d : Difflib) (A B : State)
    (hok : (Compare d A B).2 = none) :
    (∀ k, k ∈ GoMap.keys (Compare d A B).1.Differences.ResourceDiff
        ↔ (k ∈ (Compare d A B).1.Differences.InBoth ∧
            (compareResource d B A k).UnifiedDiff ≠ "")) ∧
    (∀ k c, GoMap.get? (Compare d A B).1.Differences.ResourceDiff k = some c →
        c = compareResource d B A k ∧ c.UnifiedDiff ≠ "") := by
  obtain ⟨hA, hB⟩ := (Compare_ok_iff d A B).mp hok
  rw [Compare_resourceDiff d hA hB, Compare_inBoth d hA hB, GoMap.foldl_set_if]
  refine ⟨?_, ?_⟩
  · intro k
    rw [GoMap.mem_keys_foldl_set, List.mem_filter]
    simp
  · intro k c hc
    rw [GoMap.get?_foldl_set] at hc
    by_cases hk : k ∈ (sliceInter (stateResources B) (stateResources A)).filter
        (fun r => decide ((compareResource d B A r).UnifiedDiff ≠ ""))
    · rw [if_pos hk] at hc
      cases hc
      exact ⟨rfl, by simpa using (List.mem_filter.mp hk).2⟩
    · rw [if_neg hk] at hc
      cases hc

theorem Compare_resourceDiff_keys_witness :
    (Compare plainDifflib stateV1 stateV2).2 = none ∧
    GoMap.keys (Compare plainDifflib stateV1 stateV2).1.Differences.ResourceDiff
      = ["root.aws_instance.web"] ∧
    (∀ k, k ∈ GoMap.keys (Compare plainDifflib stateV1 stateV2).1.Differences.ResourceDiff
        ↔ (k ∈ (Compare plainDifflib stateV1 stateV2).1.Differences.InBoth ∧
            (compareResource plainDifflib stateV2 stateV1 k).UnifiedDiff ≠ "")) :=
  ⟨by decide, by decide, (Compare_resourceDiff_keys plainDifflib stateV1 stateV2 (by decide)).1⟩

/-- C14: for a successful `Compare(A, B)`, `stats.from` and `stats.to` copy
path, version id, Terraform version and serial from `A` and from `B`, and each
resource count is the number of resources of that state summed over its
modules, which is the length of the flattened list of addresses in module
order, then resource order. -/
theorem Compare_stats_spec (d : Difflib) (A B : State) (hok : (Compare d A B).2 = none) :
    (Compare d A B).1.Stats.From =
      { Path := A.Path, VersionID := A.Version.VersionID,
        ResourceCount := (A.Modules.map (fun m => m.Resources.length)).sum,
        TFVersion := A.TFVersion, Serial := A.Serial } ∧
    (Compare d A B).1.Stats.To =
      { Path := B.Path, VersionID := B.Version.VersionID,
        ResourceCount := (B.Modules.map (fun m => m.Resources.length)).sum,
        TFVersion := B.TFVersion, Serial := B.Serial } ∧
    (Compare d A B).1.Stats.From.ResourceCount
      = (A.Modules.flatMap (fun m => m.Resources.map (resourceAddress m))).length ∧
    (Compare d A B).1.Stats.To.ResourceCount
      = (B.Modules.flatMap (fun m => m.Resources.map (resourceAddress m))).length := by
  obtain ⟨hA, hB⟩ := (Compare_ok_iff d A B).mp hok
  rw [Compare_stats d hA hB, stateResources_eq_flatMap, stateResources_eq_flatMap,
    length_flatMap_addresses, length_flatMap_addresses]
  exact ⟨rfl, rfl, rfl, rfl⟩

theorem Compare_stats_spec_witness :
    (Compare plainDifflib stateV1 stateV2).2 = none ∧
    (Compare plainDifflib stateV1 stateV2).1.Stats.From
      = ⟨"env/prod/app.tfstate", "v1", 2, "1.5.0", 1⟩ ∧
    (Compare plainDifflib stateV1 stateV2).1.Stats.To
      = { Path := stateV2.Path, VersionID := stateV2.Version.VersionID,
          ResourceCount := (stateV2.Modules.map (fun m => m.Resources.length)).sum,
          TFVersion := stateV2.TFVersion, Serial := stateV2.Serial } :=
  ⟨by decide, by decide, (Compare_stats_spec plainDifflib stateV1 stateV2 (by decide)).2.1⟩

/-- C15: when the secrets are listed, `GetStates` returns no error and the
names, in ascending lexicographic order, that are exactly the `n` for which
some listed secret is named `n-suffix` and has the key `tfstate` in its data;
other secrets contribute nothing. -/
theorem GetStates_spec (lib : state.Libs) (k : state.Kubernetes) (secrets : List state.Secret)
    (h : k.client.ListSecrets k.namespace_ (k.labelSelector lib) = .ok secrets) :
    ∃ names : List String, k.GetStates lib = (names, none) ∧
      names.Sorted (· ≤ ·) ∧ (names.map utf8Bytes).Sorted (· ≤ ·) ∧
      ∀ n, n ∈ names ↔
        ∃ secret ∈ secrets, secret.Name = n ++ "-" ++ k.suffix ∧
          "tfstate" ∈ GoMap.keys secret.Data := by
  refine ⟨_, GetStates_of_list lib k h, sortStrings_sorted _,
    sorted_utf8Bytes (sortStrings_sorted _), ?_⟩
  intro n
  rw [(sortStrings_perm _).mem_iff, List.mem_map]
  constructor
  · rintro ⟨secret, hmem, hn⟩
    obtain ⟨hs, hp⟩ := List.mem_filter.mp hmem
    have hp' := of_decide_eq_true hp
    refine ⟨secret, hs, ?_, (GoMap.isSome_get?_iff _ _).mp hp'.1⟩
    rw [String.append_assoc]
    exact (TrimSuffix_ne_iff (dash_suffix_ne_empty k.suffix) n).mp ⟨hp'.2, hn⟩
  · rintro ⟨secret, hs, hname, hdata⟩
    rw [String.append_assoc] at hname
    have ht := (TrimSuffix_ne_iff (dash_suffix_ne_empty k.suffix) n).mpr hname
    exact ⟨secret, List.mem_filter.mpr ⟨hs,
      decide_eq_true ⟨(GoMap.isSome_get?_iff _ _).mpr hdata, ht.1⟩⟩, ht.2⟩

theorem GetStates_spec_witness :
    (state.fakeProvider state.sampleSecrets).client.ListSecrets
        (state.fakeProvider state.sampleSecrets).namespace_
        ((state.fakeProvider state.sampleSecrets).labelSelector state.sampleLibs)
      = .ok state.sampleSecrets ∧
    (state.fakeProvider state.sampleSecrets).GetStates state.sampleLibs
      = (["another-state", "test-state"], none) ∧
    ∃ names : List String,
      (state.fakeProvider state.sampleSecrets).GetStates state.sampleLibs = (names, none) ∧
      names.Sorted (· ≤ ·) ∧ (names.map utf8Bytes).Sorted (· ≤ ·) ∧
      ∀ n, n ∈ names ↔
        ∃ secret ∈ state.sampleSecrets,
          secret.Name = n ++ "-" ++ (state.fakeProvider state.sampleSecrets).suffix ∧
          "tfstate" ∈ GoMap.keys secret.Data :=
  ⟨rfl, by decide,
    GetStates_spec state.sampleLibs (state.fakeProvider state.sampleSecrets)
      state.sampleSecrets rfl⟩

/-- C16: when the secret `name-suffix` is fetched, `GetVersions` returns no
error and one version, with the ID `current` and, as its time, the annotation
`terraform.io/last-modified` when it is present and parses as RFC 3339, and the
creation time of the secret otherwise; when the secret cannot be fetched it
returns an error and no version. -/
theorem GetVersions_spec (lib : state.Libs) (k : state.Kubernetes) (stateName : String) :
    (∀ secret, k.client.GetSecret k.namespace_ (stateName ++ "-" ++ k.suffix) = .ok secret →
      k.GetVersions lib stateName =
        ([{ ID := "current",
            LastModified :=
              ((GoMap.get? secret.Annotations "terraform.io/last-modified").bind
                lib.ParseRFC3339).getD secret.CreationTimestamp }], none)) ∧
    (∀ err, k.client.GetSecret k.namespace_ (stateName ++ "-" ++ k.suffix) = .error err →
      (k.GetVersions lib stateName).1 = [] ∧ (k.GetVersions lib stateName).2 ≠ none) := by
  refine ⟨?_, ?_⟩
  · intro secret h
    unfold state.Kubernetes.GetVersions
    simp only [h]
    cases GoMap.get? secret.Annotations "terraform.io/last-modified" with
    | none => rfl
    | some lastModified =>
      simp only [Option.bind]
      cases lib.ParseRFC3339 lastModified <;> rfl
  · intro err h
    unfold state.Kubernetes.GetVersions
    simp [h]

theorem GetVersions_spec_witness :
    (state.fakeProvider state.sampleSecrets).GetVersions state.sampleLibs "test-state"
      = ([⟨"current", ⟨1706745600000000000⟩⟩], none) ∧
    (state.fakeProvider state.sampleSecrets).GetVersions state.sampleLibs "another-state"
      = ([⟨"current", state.secretAnotherState.CreationTimestamp⟩], none) ∧
    ((state.fakeProvider state.sampleSecrets).GetVersions state.sampleLibs "missing").1 = [] ∧
    ((state.fakeProvider state.sampleSecrets).GetVersions state.sampleLibs "missing").2 ≠ none :=
  ⟨(GetVersions_spec state.sampleLibs (state.fakeProvider state.sampleSecrets) "test-state").1
      state.secretTestState rfl,
    (GetVersions_spec state.sampleLibs (state.fakeProvider state.sampleSecrets)
      "another-state").1 state.secretAnotherState rfl,
    (GetVersions_spec state.sampleLibs (state.fakeProvider state.sampleSecrets) "missing").2
      "secrets \"missing-tfstate\" not found" rfl⟩

/-- C17: when locks are enabled and the secrets are listed, `GetLocks` returns
no error and a map whose keys are exactly the names `n` such that a listed
secret named `n-suffix` carries the annotation `terraform.io/lock-id`; the
entry for `n` comes from such a secret: its ID is that annotation, its path is
`n`, and its operation, info, who and version are the annotations
`terraform.io/lock-operation`, `lock-info`, `lock-who` and `lock-version`, each
the empty string when absent. -/
theorem GetLocks_spec (lib : state.Libs) (k : state.Kubernetes) (secrets : List state.Secret)
    (hn : k.noLocks = false)
    (h : k.client.ListSecrets k.namespace_ (k.labelSelector lib) = .ok secrets) :
    (k.GetLocks lib).2 = none ∧
    (∀ n, n ∈ GoMap.keys (k.GetLocks lib).1 ↔
      ∃ secret ∈ secrets, secret.Name = n ++ "-" ++ k.suffix ∧
        "terraform.io/lock-id" ∈ GoMap.keys secret.Annotations) ∧
    (∀ n info, GoMap.get? (k.GetLocks lib).1 n = some info →
      ∃ secret ∈ secrets, secret.Name = n ++ "-" ++ k.suffix ∧
        GoMap.get? secret.Annotations "terraform.io/lock-id" = some info.ID ∧
        info.Path = n ∧
        info.Operation = (GoMap.get? secret.Annotations "terraform.io/lock-operation").getD "" ∧
        info.Info = (GoMap.get? secret.Annotations "terraform.io/lock-info").getD "" ∧
        info.Who = (GoMap.get? secret.Annotations "terraform.io/lock-who").getD "" ∧
        info.Version = (GoMap.get? secret.Annotations "terraform.io/lock-version").getD "") := by
  rw [GetLocks_of_list lib k hn h]
  refine ⟨rfl, ?_, ?_⟩
  · intro n
    rw [GoMap.mem_keys_iff]
    constructor
    · intro hne
      cases hget : GoMap.get? (secrets.foldl
          (fun (locks : GoMap state.LockInfo) secret =>
            locks.addEntry (state.lockEntry lib k secret)) []) n with
      | none => exact absurd hget hne
      | some info =>
        obtain ⟨secret, hs, he⟩ := GoMap.get?_foldl_entry (state.lockEntry lib k) secrets n info hget
        obtain ⟨lockID, hid, hname, _⟩ := lockEntry_some.mp he
        refine ⟨secret, hs, hname, ?_⟩
        rw [GoMap.mem_keys_iff, hid]
        simp
    · rintro ⟨secret, hs, hname, hid⟩
      apply GoMap.get?_foldl_entry_ne_none
      rw [GoMap.mem_keys_iff] at hid
      cases hl : GoMap.get? secret.Annotations "terraform.io/lock-id" with
      | none => exact absurd hl hid
      | some lockID =>
        exact ⟨secret, hs, _, lockEntry_some.mpr ⟨lockID, hl, hname, rfl⟩⟩
  · intro n info hget
    obtain ⟨secret, hs, he⟩ := GoMap.get?_foldl_entry (state.lockEntry lib k) secrets n info hget
    obtain ⟨lockID, hid, hname, hv⟩ := lockEntry_some.mp he
    subst hv
    exact ⟨secret, hs, hname, hid, rfl, rfl, rfl, rfl, rfl⟩

theorem GetLocks_spec_witness :
    (state.fakeProvider state.sampleSecrets).noLocks = false ∧
    (state.fakeProvider state.sampleSecrets).GetLocks state.sampleLibs
      = ([("test-state",
            { ID := "test-lock-id", Path := "test-state", Operation := "apply",
              Info := "Terraform apply", Who := "user@example.com", Version := "1.0.0",
              Created := some ⟨1709251200000000000⟩ })], none) ∧
    (∀ n, n ∈ GoMap.keys ((state.fakeProvider state.sampleSecrets).GetLocks state.sampleLibs).1 ↔
      ∃ secret ∈ state.sampleSecrets,
        secret.Name = n ++ "-" ++ (state.fakeProvider state.sampleSecrets).suffix ∧
        "terraform.io/lock-id" ∈ GoMap.keys secret.Annotations) :=
  ⟨rfl, by decide,
    (GetLocks_spec state.sampleLibs (state.fakeProvider state.sampleSecrets) state.sampleSecrets
      rfl rfl).2.1⟩

/-- C18: a provider built with `noLocks = true` returns from `GetLocks` the
empty map and no error, for every client: the cluster is not consulted. -/
theorem GetLocks_disabled (lib : state.Libs) (k : state.Kubernetes) (hn : k.noLocks = true) :
    k.GetLocks lib = ([], none) := by
  unfold state.Kubernetes.GetLocks
  rw [if_pos hn]

theorem GetLocks_disabled_witness :
    ({ state.fakeProvider state.sampleSecrets with noLocks := true }).GetLocks state.sampleLibs
      = ([], none) ∧
    ({ state.fakeProvider [] with client := state.downClient, noLocks := true }).GetLocks
        state.sampleLibs = ([], none) ∧
    (({ state.fakeProvider [] with client := state.downClient }).GetLocks
        state.sampleLibs).2 ≠ none :=
  ⟨GetLocks_disabled state.sampleLibs _ rfl, GetLocks_disabled state.sampleLibs _ rfl, by decide⟩

/-- C19: for a configuration whose namespace and secret suffix are both empty,
`NewKubernetes` returns no provider and no error, whatever the other fields;
and `NewKubernetesCollection` over a configuration whose Kubernetes entries are
all of that kind returns the empty list and no error. -/
theorem NewKubernetes_empty {RestConfig : Type} (cg : state.ClientGo RestConfig) :
    (∀ (k8sConfig : state.KubernetesConfig) (noLocks : Bool),
      k8sConfig.Namespace = "" → k8sConfig.SecretSuffix = "" →
      state.NewKubernetes cg k8sConfig noLocks = (none, none)) ∧
    (∀ c : state.Config,
      (∀ k8sConfig ∈ c.Kubernetes, k8sConfig.Namespace = "" ∧ k8sConfig.SecretSuffix = "") →
      state.NewKubernetesCollection cg c = ([], none)) := by
  have hnew : ∀ (k8sConfig : state.KubernetesConfig) (noLocks : Bool),
      k8sConfig.Namespace = "" → k8sConfig.SecretSuffix = "" →
      state.NewKubernetes cg k8sConfig noLocks = (none, none) := by
    intro k8sConfig noLocks h1 h2
    unfold state.NewKubernetes
    rw [if_pos ⟨h1, h2⟩]
  refine ⟨hnew, ?_⟩
  intro c hall
  unfold state.NewKubernetesCollection
  generalize c.Kubernetes = l at hall
  induction l with
  | nil => rfl
  | cons x xs ih =>
    unfold state.collectProviders
    rw [hnew x _ (hall x (List.mem_cons_self _ _)).1 (hall x (List.mem_cons_self _ _)).2]
    exact ih (fun y hy => hall y (List.mem_cons_of_mem _ hy))

theorem NewKubernetes_empty_witness :
    state.NewKubernetes state.noClusterClientGo
        ⟨"", "", [("app", "terraform")], "/etc/kubeconfig", "prod", "admin", "main", true⟩ false
      = (none, none) ∧
    state.NewKubernetesCollection state.noClusterClientGo
        ⟨⟨false, false⟩, [⟨"", "", [], "", "", "", "", false⟩,
          ⟨"", "", [("app", "terraform")], "/etc/kubeconfig", "prod", "admin", "main", true⟩]⟩
      = ([], none) ∧
    (state.NewKubernetes state.noClusterClientGo
        ⟨"test-namespace", "tfstate", [], "", "", "", "", false⟩ false).2 ≠ none :=
  ⟨(NewKubernetes_empty state.noClusterClientGo).1 _ false rfl rfl,
    (NewKubernetes_empty state.noClusterClientGo).2 _ (by decide), by decide⟩

/-- C20: `MarshalAttributeValues` yields one attribute per leaf of the
attributes JSON; the value of every attribute, sensitive or not, is the JSON
encoding of its leaf; an attribute is marked sensitive if and only if its
flattened key is equal to, or a descendant of, one of the sensitive paths of
the instance, that is, the dotted path continued by some segments, none for the
path itself; and every leaf of the subtree that a sensitive path targets, the
whole value for the empty path, is an attribute marked sensitive. -/
theorem MarshalAttributeValues_spec (src : db.ResourceInstanceObjectSrc) :
    (db.MarshalAttributeValues src).length = db.leafCount src.AttrsJSON ∧
    (db.MarshalAttributeValues src).map Attribute.Value = db.leafTexts src.AttrsJSON ∧
    (∀ a ∈ db.MarshalAttributeValues src,
      a.Sensitive = true ↔
        ∃ path ∈ src.AttrSensitivePaths, ∃ segments : List String,
          a.Key = db.extendKey (db.dottedPath path) segments) ∧
    (∀ path ∈ src.AttrSensitivePaths, ∀ sub, db.subtreeAt src.AttrsJSON path = some sub →
      ∀ leaf ∈ db.flatten (db.dottedPath path) sub,
        (⟨leaf.1, leaf.2, true⟩ : Attribute) ∈ db.MarshalAttributeValues src) := by
  refine ⟨?_, ?_, ?_, ?_⟩
  · unfold db.MarshalAttributeValues
    rw [List.length_map, length_flatten]
  · unfold db.MarshalAttributeValues
    rw [List.map_map, ← texts_flatten "" src.AttrsJSON]
    rfl
  · intro a ha
    unfold db.MarshalAttributeValues at ha
    obtain ⟨leaf, _, rfl⟩ := List.mem_map.mp ha
    simp only [List.any_eq_true, keyUnderPath_iff]
  · intro path hp sub hsub leaf hleaf
    unfold db.MarshalAttributeValues
    refine List.mem_map.mpr ⟨leaf, mem_flatten_of_subtreeAt leaf sub path _ "" hsub hleaf, ?_⟩
    have hs : src.AttrSensitivePaths.any (fun path => db.keyUnderPath leaf.1 path) = true :=
      List.any_eq_true.mpr
        ⟨path, hp, (keyUnderPath_iff _ _).mpr (key_flatten _ sub leaf hleaf)⟩
    rw [hs]

theorem MarshalAttributeValues_spec_witness :
    db.MarshalAttributeValues db.sampleInstance
      = [⟨"password", "\"secret123\"", true⟩, ⟨"username", "\"user\"", false⟩,
         ⟨"api_key", "\"key456\"", true⟩] ∧
    db.MarshalAttributeValues db.nestedInstance
      = [⟨"name", "\"db\"", false⟩, ⟨"auth.user", "\"root\"", true⟩,
         ⟨"auth.token", "null", true⟩, ⟨"ports.0", "80", false⟩, ⟨"ports.1", "443", true⟩,
         ⟨"authority", "\"ca\"", false⟩] ∧
    db.MarshalAttributeValues db.rootInstance
      = [⟨"name", "\"db\"", true⟩, ⟨"auth.user", "\"root\"", true⟩,
         ⟨"auth.token", "null", true⟩, ⟨"ports.0", "80", true⟩, ⟨"ports.1", "443", true⟩,
         ⟨"authority", "\"ca\"", true⟩] ∧
    (db.MarshalAttributeValues db.sampleInstance).length = db.leafCount db.sampleInstance.AttrsJSON ∧
    (⟨"auth.token", "null", true⟩ : Attribute) ∈ db.MarshalAttributeValues db.nestedInstance ∧
    (⟨"ports.0", "80", true⟩ : Attribute) ∈ db.MarshalAttributeValues db.rootInstance :=
  ⟨by decide, by decide, by decide, (MarshalAttributeValues_spec db.sampleInstance).1,
    (MarshalAttributeValues_spec db.nestedInstance).2.2.2 [.GetAttr "auth"] (by decide)
      (.object [("user", .leaf "\"root\""), ("token", .leaf "null")]) rfl
      ("auth.token", "null") (by decide),
    (MarshalAttributeValues_spec db.rootInstance).2.2.2 [] (by decide)
      db.rootInstance.AttrsJSON rfl ("ports.0", "80") (by decide)⟩

/-- C26: the errors that `Compare`, `compareResource` and `formatResource`
discard cannot occur.  For every address `k` of `stateResources(s)`,
`getResource(s, k)` returns no error and a resource of `s` whose address is
`k`; for every key `k` of `resourceAttributes(r)`, `getResourceAttribute(r, k)`
returns no error and an attribute of `r` whose key is `k`; and every error
discarded in the course of `Compare(A, B)` is nil. -/
theorem discarded_errors_unreachable :
    (∀ (s : State) (k : String), k ∈ stateResources s →
      ∃ m ∈ s.Modules, ∃ r ∈ m.Resources,
        resourceAddress m r = k ∧ getResource s k = (r, none)) ∧
    (∀ (r : Resource) (k : String), k ∈ resourceAttributes r →
      ∃ a ∈ r.Attributes, a.Key = k ∧ getResourceAttribute r k = (a, none)) ∧
    (∀ (A B : State), ∀ e ∈ CompareErrors A B, e = none) :=
  ⟨fun _ _ h => getResource_of_mem h, fun _ _ h => getResourceAttribute_of_mem h,
    CompareErrors_none⟩

theorem discarded_errors_unreachable_witness :
    "root.aws_db_instance.main" ∈ stateResources stateV1 ∧
    (∃ m ∈ stateV1.Modules, ∃ r ∈ m.Resources,
      resourceAddress m r = "root.aws_db_instance.main" ∧
        getResource stateV1 "root.aws_db_instance.main" = (r, none)) ∧
    "password" ∈ resourceAttributes dbHunter ∧
    (∃ a ∈ dbHunter.Attributes, a.Key = "password" ∧
      getResourceAttribute dbHunter "password" = (a, none)) ∧
    CompareErrors stateV1 stateV2 ≠ [] ∧
    (∀ e ∈ CompareErrors stateV1 stateV2, e = none) :=
  ⟨by decide, discarded_errors_unreachable.1 stateV1 _ (by decide), by decide,
    discarded_errors_unreachable.2.1 dbHunter _ (by decide), by decide,
    discarded_errors_unreachable.2.2 stateV1 stateV2⟩

/-- C27: a successful `Compare(A, B)` partitions the addresses.  Every address
of `A` is a key of `only_in_old` or an element of `in_both`, and not both;
every address of `B` is a key of `only_in_new` or an element of `in_both`, and
not both; and no address is a key of both `only_in_old` and `only_in_new`. -/
theorem Compare_partition (d : Difflib) (A B : State) (hok : (Compare d A B).2 = none) :
    (∀ k, A.hasAddress k →
      (k ∈ GoMap.keys (Compare d A B).1.Differences.OnlyInOld ∨
        k ∈ (Compare d A B).1.Differences.InBoth) ∧
      ¬ (k ∈ GoMap.keys (Compare d A B).1.Differences.OnlyInOld ∧
        k ∈ (Compare d A B).1.Differences.InBoth)) ∧
    (∀ k, B.hasAddress k →
      (k ∈ GoMap.keys (Compare d A B).1.Differences.OnlyInNew ∨
        k ∈ (Compare d A B).1.Differences.InBoth) ∧
      ¬ (k ∈ GoMap.keys (Compare d A B).1.Differences.OnlyInNew ∧
        k ∈ (Compare d A B).1.Differences.InBoth)) ∧
    (∀ k, ¬ (k ∈ GoMap.keys (Compare d A B).1.Differences.OnlyInOld ∧
        k ∈ GoMap.keys (Compare d A B).1.Differences.OnlyInNew)) := by
  obtain ⟨hA, hB⟩ := (Compare_ok_iff d A B).mp hok
  rw [Compare_onlyInOld d hA hB, Compare_onlyInNew d hA hB, Compare_inBoth d hA hB]
  refine ⟨?_, ?_, ?_⟩
  · intro k hk
    have hk' : k ∈ stateResources A := mem_stateResources.mpr hk
    rw [GoMap.mem_keys_foldl_set, mem_sliceDiff, mem_sliceInter]
    by_cases hb : k ∈ stateResources B
    · exact ⟨Or.inr ⟨hb, hk'⟩, fun h => h.1.2 hb⟩
    · exact ⟨Or.inl ⟨hk', hb⟩, fun h => hb h.2.1⟩
  · intro k hk
    have hk' : k ∈ stateResources B := mem_stateResources.mpr hk
    rw [GoMap.mem_keys_foldl_set, mem_sliceDiff, mem_sliceInter]
    by_cases ha : k ∈ stateResources A
    · exact ⟨Or.inr ⟨hk', ha⟩, fun h => h.1.2 ha⟩
    · exact ⟨Or.inl ⟨hk', ha⟩, fun h => ha h.2.2⟩
  · intro k
    rw [GoMap.mem_keys_foldl_set, GoMap.mem_keys_foldl_set, mem_sliceDiff, mem_sliceDiff]
    exact fun h => h.1.2 h.2.1

theorem Compare_partition_witness :
    (Compare plainDifflib stateV1 stateV2).2 = none ∧
    stateV1.hasAddress "root.aws_instance.web" ∧
    ("root.aws_instance.web" ∈ GoMap.keys (Compare plainDifflib stateV1 stateV2).1.Differences.OnlyInOld ∨
      "root.aws_instance.web" ∈ (Compare plainDifflib stateV1 stateV2).1.Differences.InBoth) ∧
    stateV2.hasAddress "root.aws_s3_bucket.logs" ∧
    ("root.aws_s3_bucket.logs" ∈ GoMap.keys (Compare plainDifflib stateV1 stateV2).1.Differences.OnlyInNew ∨
      "root.aws_s3_bucket.logs" ∈ (Compare plainDifflib stateV1 stateV2).1.Differences.InBoth) :=
  have h1 : stateV1.hasAddress "root.aws_instance.web" :=
    mem_stateResources.mp (by decide)
  have h2 : stateV2.hasAddress "root.aws_s3_bucket.logs" :=
    mem_stateResources.mp (by decide)
  ⟨by decide, h1,
    ((Compare_partition plainDifflib stateV1 stateV2 (by decide)).1 _ h1).1, h2,
    ((Compare_partition plainDifflib stateV1 stateV2 (by decide)).2.1 _ h2).1⟩

/-- C28: `getResource(s, k)` returns the resource at the position of the first
occurrence of `k` in `stateResources(s)`, the test on the module path never
excluding a resource with the address, and returns an error exactly when `k`
does not occur in that list; hence, when resources of a state share an
address, the block that `Compare` stores under it in `only_in_old` and the
blocks that `compareResource` diffs are those of the first of them. -/
theorem getResource_first_occurrence :
    (∀ (m : Module) (r : Resource), HasPrefix (resourceAddress m r) m.Path = true) ∧
    (∀ (s : State) (k : String), k ∈ stateResources s →
      (allResources s)[(stateResources s).indexOf k]? = some (getResource s k).1 ∧
        (getResource s k).2 = none) ∧
    (∀ (s : State) (k : String), (getResource s k).2 ≠ none ↔ k ∉ stateResources s) ∧
    (∀ (d : Difflib) (A B : State) (k : String), (Compare d A B).2 = none →
      k ∈ GoMap.keys (Compare d A B).1.Differences.OnlyInOld →
      ∃ r, (allResources A)[(stateResources A).indexOf k]? = some r ∧
        GoMap.get? (Compare d A B).1.Differences.OnlyInOld k = some (formatResource r)) ∧
    (∀ (d : Difflib) (st1 st2 : State) (k : String),
      k ∈ stateResources st1 → k ∈ stateResources st2 →
      ∃ r1 r2, (allResources st1)[(stateResources st1).indexOf k]? = some r1 ∧
        (allResources st2)[(stateResources st2).indexOf k]? = some r2 ∧
        (compareResource d st1 st2 k).UnifiedDiff = d.GetUnifiedDiffString
          { A := d.SplitLines (formatResource r1), B := d.SplitLines (formatResource r2),
            FromFile := stateInfo st1, ToFile := stateInfo st2, Context := 3, Eol := "\n" }) := by
  refine ⟨HasPrefix_resourceAddress,
    fun s k h => ⟨getResource_fst_eq_first h, getResource_snd_of_mem h⟩,
    getResource_error_iff, ?_, ?_⟩
  · intro d A B k hok hk
    obtain ⟨hA, hB⟩ := (Compare_ok_iff d A B).mp hok
    rw [Compare_onlyInOld d hA hB] at hk ⊢
    have hmem : k ∈ sliceDiff (stateResources A) (stateResources B) :=
      (GoMap.mem_keys_foldl_set _ _ _).mp hk
    refine ⟨(getResource A k).1, getResource_fst_eq_first (mem_sliceDiff.mp hmem).1, ?_⟩
    rw [GoMap.get?_foldl_set, if_pos hmem]
  · intro d st1 st2 k h1 h2
    refine ⟨(getResource st1 k).1, (getResource st2 k).1, getResource_fst_eq_first h1,
      getResource_fst_eq_first h2, ?_⟩
    rw [compareResource_eq]

theorem getResource_first_occurrence_witness :
    stateResources stateCounted
      = ["root.aws_s3_bucket.logs", "root.aws_instance.web", "root.aws_instance.web"] ∧
    getResource stateCounted "root.aws_instance.web"
      = (⟨"aws_instance", "web", [⟨"ami", "\"ami-1\"", false⟩]⟩, none) ∧
    ((allResources stateCounted)[(stateResources stateCounted).indexOf "root.aws_instance.web"]?
        = some (getResource stateCounted "root.aws_instance.web").1 ∧
      (getResource stateCounted "root.aws_instance.web").2 = none) ∧
    (Compare plainDifflib stateCounted stateBucket).1.Differences.OnlyInOld
      = [("root.aws_instance.web",
          "resource \"aws_instance\" \"web\" \x7b\n  ami = \"ami-1\"\n\x7d\n")] ∧
    (∃ r, (allResources stateCounted)[(stateResources stateCounted).indexOf
          "root.aws_instance.web"]? = some r ∧
      GoMap.get? (Compare plainDifflib stateCounted stateBucket).1.Differences.OnlyInOld
        "root.aws_instance.web" = some (formatResource r)) :=
  ⟨by decide, by decide,
    getResource_first_occurrence.2.1 stateCounted _ (by decide), by decide,
    getResource_first_occurrence.2.2.2.1 plainDifflib stateCounted stateBucket _ (by decide)
      (by decide)⟩

/-- C21: for every name and every non-empty email, `UserInfo(name, email)`
called after `Setup(c)` returns the user with that name, authenticated, not
OIDC, with the logout URL of the configuration, and with the avatar URL
`http://www.gravatar.com/avatar/` followed by the lowercase hexadecimal MD5
digest of the email. -/
theorem UserInfo_after_Setup (lib : auth.OIDCLib) (crypto : auth.Crypto) (c : auth.Config)
    (g : auth.Globals lib) (name email : String) (he : email ≠ "") :
    auth.UserInfo crypto (auth.Setup lib c g) name email =
      { Name := name
        AvatarURL := "http://www.gravatar.com/avatar/"
          ++ auth.hexLower (crypto.MD5Sum (utf8Bytes email))
        LogoutURL := c.Web.LogoutURL
        IsOIDC := false
        Authenticated := true } := by
  unfold auth.UserInfo
  rw [if_pos he, Setup_logoutURL]

set_option maxRecDepth 100000 in
theorem UserInfo_after_Setup_witness :
    "foo@example.com" ≠ "" ∧
    auth.UserInfo auth.md5Crypto
        (auth.Setup auth.offlineOIDC auth.sampleConfig (auth.Globals.initial auth.offlineOIDC))
        "foo" "foo@example.com" =
      { Name := "foo"
        AvatarURL := "http://www.gravatar.com/avatar/b48def645758b95537d4424c84d1a9ff"
        LogoutURL := "/log/me/out"
        IsOIDC := false
        Authenticated := true } :=
  ⟨by decide,
    (UserInfo_after_Setup auth.offlineOIDC auth.md5Crypto auth.sampleConfig
      (auth.Globals.initial auth.offlineOIDC) "foo" "foo@example.com" (by decide)).trans
      (by decide)⟩

/-- C22: for every claims map, `OIDCUserInfo` returns a user that is
authenticated, OIDC, with the logout URL `/auth/logout`; its name is the claim
`name` when that is a string, otherwise the claim `preferred_username` when
that is a string, otherwise empty; and its avatar URL is set only when the
claim `email` is a non-empty string, to the gravatar URL of that email. -/
theorem OIDCUserInfo_spec (crypto : auth.Crypto) (claims : GoMap auth.ClaimValue) :
    (auth.OIDCUserInfo crypto claims).Authenticated = true ∧
    (auth.OIDCUserInfo crypto claims).IsOIDC = true ∧
    (auth.OIDCUserInfo crypto claims).LogoutURL = "/auth/logout" ∧
    (∀ name, GoMap.get? claims "name" = some (.string name) →
      (auth.OIDCUserInfo crypto claims).Name = name) ∧
    (auth.asString (GoMap.get? claims "name") = none →
      ∀ preferred, GoMap.get? claims "preferred_username" = some (.string preferred) →
        (auth.OIDCUserInfo crypto claims).Name = preferred) ∧
    (auth.asString (GoMap.get? claims "name") = none →
      auth.asString (GoMap.get? claims "preferred_username") = none →
        (auth.OIDCUserInfo crypto claims).Name = "") ∧
    (∀ email, GoMap.get? claims "email" = some (.string email) → email ≠ "" →
      (auth.OIDCUserInfo crypto claims).AvatarURL
        = "http://www.gravatar.com/avatar/"
          ++ auth.hexLower (crypto.MD5Sum (utf8Bytes email))) ∧
    ((auth.OIDCUserInfo crypto claims).AvatarURL ≠ "" →
      ∃ email, GoMap.get? claims "email" = some (.string email) ∧ email ≠ "") := by
  rw [OIDCUserInfo_eq]
  refine ⟨rfl, rfl, rfl, ?_, ?_, ?_, ?_, ?_⟩
  · intro name hname
    simp only [hname, auth.asString, Option.orElse, Option.getD]
  · intro hn preferred hp
    rw [hn]
    simp only [hp, auth.asString, Option.orElse, Option.getD]
  · intro hn hp
    simp only [hn, hp, Option.orElse, Option.getD]
  · intro email hemail hne
    simp only [hemail, auth.asString, if_pos hne]
  · intro hav
    cases he : auth.asString (GoMap.get? claims "email") with
    | none =>
      rw [he] at hav
      exact absurd rfl hav
    | some email =>
      rw [he] at hav
      simp only [] at hav
      by_cases hne : email ≠ ""
      · exact ⟨email, asString_eq_some he, hne⟩
      · rw [if_neg hne] at hav
        exact absurd rfl hav

set_option maxRecDepth 100000 in
theorem OIDCUserInfo_spec_witness :
    auth.OIDCUserInfo auth.md5Crypto
        [("name", .string "OIDC User"), ("email", .string "oidc@example.com")] =
      { Name := "OIDC User"
        AvatarURL := "http://www.gravatar.com/avatar/b2533684a3e4fbe81ced2b0bd3aff2a2"
        LogoutURL := "/auth/logout"
        IsOIDC := true
        Authenticated := true } ∧
    (auth.OIDCUserInfo auth.md5Crypto
        [("name", .string "OIDC User"), ("email", .string "oidc@example.com")]).Name
      = "OIDC User" ∧
    (auth.OIDCUserInfo auth.md5Crypto
        [("name", .number 7), ("preferred_username", .string "ouser"), ("email", .string "")]).Name
      = "ouser" ∧
    (auth.OIDCUserInfo auth.md5Crypto [("email", .bool true)]).Name = "" ∧
    (∃ email, GoMap.get? ([("name", .string "OIDC User"), ("email", .string "oidc@example.com")]
        : GoMap auth.ClaimValue) "email" = some (.string email) ∧ email ≠ "") :=
  ⟨by decide,
    (OIDCUserInfo_spec auth.md5Crypto
      [("name", .string "OIDC User"), ("email", .string "oidc@example.com")]).2.2.2.1 _ rfl,
    (OIDCUserInfo_spec auth.md5Crypto
      [("name", .number 7), ("preferred_username", .string "ouser"),
        ("email", .string "")]).2.2.2.2.1 rfl _ rfl,
    (OIDCUserInfo_spec auth.md5Crypto [("email", .bool true)]).2.2.2.2.2.1 rfl rfl,
    (OIDCUserInfo_spec auth.md5Crypto
      [("name", .string "OIDC User"), ("email", .string "oidc@example.com")]).2.2.2.2.2.2.2
      (by decide)⟩

/-- C23: `SetupOIDC` checks its configuration before it asks for a provider,
so for every OIDC library: with `Enabled = false` it returns no error and
`IsOIDCEnabled()` is false afterwards; with `Enabled = true` and at least one of
`IssuerURL`, `ClientID`, `ClientSecret`, `RedirectURL` empty it returns the
error of the incomplete configuration and leaves the variables as they
were. -/
theorem SetupOIDC_validation (lib : auth.OIDCLib) (config : auth.OIDCConfig)
    (g : auth.Globals lib) :
    (config.Enabled = false →
      (auth.SetupOIDC lib config g).2 = none ∧
        auth.IsOIDCEnabled (auth.SetupOIDC lib config g).1 = false) ∧
    (config.Enabled = true →
      (config.IssuerURL = "" ∨ config.ClientID = "" ∨ config.ClientSecret = ""
        ∨ config.RedirectURL = "") →
      (auth.SetupOIDC lib config g).2 ≠ none ∧
        auth.SetupOIDC lib config g =
          (g, some ("OIDC configuration incomplete: issuer-url, client-id, client-secret, "
            ++ "and redirect-url are required"))) := by
  refine ⟨?_, ?_⟩
  · intro hd
    unfold auth.SetupOIDC
    rw [if_pos (by simp [hd])]
    exact ⟨rfl, rfl⟩
  · intro he hempty
    unfold auth.SetupOIDC
    rw [if_neg (by simp [he]), if_pos hempty]
    exact ⟨by simp, rfl⟩

theorem SetupOIDC_validation_witness :
    ((auth.SetupOIDC auth.onlineOIDC ⟨false, "https://example.com", "id", "s", "r"⟩
        (auth.Globals.initial auth.onlineOIDC)).2 = none ∧
      auth.IsOIDCEnabled (auth.SetupOIDC auth.onlineOIDC
        ⟨false, "https://example.com", "id", "s", "r"⟩
        (auth.Globals.initial auth.onlineOIDC)).1 = false) ∧
    (auth.SetupOIDC auth.onlineOIDC auth.incompleteOIDC
        (auth.Globals.initial auth.onlineOIDC)).2 ≠ none ∧
    (auth.SetupOIDC auth.onlineOIDC auth.completeOIDC
        (auth.Globals.initial auth.onlineOIDC)).2 = none ∧
    auth.IsOIDCEnabled (auth.SetupOIDC auth.onlineOIDC auth.completeOIDC
        (auth.Globals.initial auth.onlineOIDC)).1 = true :=
  ⟨(SetupOIDC_validation auth.onlineOIDC ⟨false, "https://example.com", "id", "s", "r"⟩
      (auth.Globals.initial auth.onlineOIDC)).1 rfl,
    ((SetupOIDC_validation auth.onlineOIDC auth.incompleteOIDC
      (auth.Globals.initial auth.onlineOIDC)).2 rfl (by decide)).1,
    by decide, by decide⟩

/-- C24: `GetState` ignores its version argument: for every state name and
every version `v`, `GetState(name, v)` returns the document or the error of
`GetState(name, "")`, read from the secret named `name-suffix`; it fails when
that secret cannot be fetched or has no key `tfstate` in its data. -/
theorem GetState_ignores_version {File : Type} (lib : state.StateLibs File)
    (k : state.Kubernetes) (stateName version : String) :
    (k.GetState lib stateName version).1 = (k.GetState lib stateName "").1 ∧
    (∀ err, k.client.GetSecret k.namespace_ (stateName ++ "-" ++ k.suffix) = .error err →
      (k.GetState lib stateName version).1.1 = none ∧
        (k.GetState lib stateName version).1.2 ≠ none) ∧
    (∀ secret, k.client.GetSecret k.namespace_ (stateName ++ "-" ++ k.suffix) = .ok secret →
      "tfstate" ∉ GoMap.keys secret.Data →
      (k.GetState lib stateName version).1.1 = none ∧
        (k.GetState lib stateName version).1.2 ≠ none) ∧
    (∀ secret stateData,
      k.client.GetSecret k.namespace_ (stateName ++ "-" ++ k.suffix) = .ok secret →
      GoMap.get? secret.Data "tfstate" = some stateData →
      (k.GetState lib stateName version).1 =
        state.readState lib ((lib.DecodeString stateData).getD stateData)) := by
  refine ⟨?_, ?_, ?_, ?_⟩
  · unfold state.Kubernetes.GetState
    simp only []
    cases k.client.GetSecret k.namespace_ (stateName ++ "-" ++ k.suffix) with
    | error err => rfl
    | ok secret =>
      simp only []
      cases GoMap.get? secret.Data "tfstate" with
      | none => rfl
      | some stateData =>
        simp only []
        cases lib.DecodeString stateData with
        | none =>
          simp only []
          cases lib.Read stateData <;> rfl
        | some decoded =>
          simp only []
          cases lib.Read decoded <;> rfl
  · intro err h
    unfold state.Kubernetes.GetState
    simp [h]
  · intro secret h hkey
    have hnone : GoMap.get? secret.Data "tfstate" = none := by
      by_contra hne
      exact hkey ((GoMap.mem_keys_iff _ _).mpr hne)
    unfold state.Kubernetes.GetState
    simp [h, hnone]
  · intro secret stateData hs hd
    rw [GetState_of_data lib k stateName version hs hd]
    cases lib.DecodeString stateData <;> rfl

theorem GetState_ignores_version_witness :
    ((state.fakeProvider (state.secretEncoded :: state.sampleSecrets)).GetState
        state.sampleStateLibs "test-state" "v42").1
      = ((state.fakeProvider (state.secretEncoded :: state.sampleSecrets)).GetState
        state.sampleStateLibs "test-state" "").1 ∧
    ((state.fakeProvider (state.secretEncoded :: state.sampleSecrets)).GetState
        state.sampleStateLibs "test-state" "v42").1 = (some state.sampleDocument, none) ∧
    ((state.fakeProvider (state.secretEncoded :: state.sampleSecrets)).GetState
        state.sampleStateLibs "test-state" "v42").2
      ≠ ((state.fakeProvider (state.secretEncoded :: state.sampleSecrets)).GetState
        state.sampleStateLibs "test-state" "").2 ∧
    ((state.fakeProvider (state.secretEncoded :: state.sampleSecrets)).GetState
        state.sampleStateLibs "missing" "v42").1.2 ≠ none ∧
    ((state.fakeProvider (state.secretEncoded :: state.sampleSecrets)).GetState
        state.sampleStateLibs "empty" "v42").1.2 ≠ none :=
  ⟨(GetState_ignores_version state.sampleStateLibs
      (state.fakeProvider (state.secretEncoded :: state.sampleSecrets)) "test-state" "v42").1,
    by decide, by decide,
    ((GetState_ignores_version state.sampleStateLibs
      (state.fakeProvider (state.secretEncoded :: state.sampleSecrets)) "missing" "v42").2.1
      "secrets \"missing-tfstate\" not found" rfl).2,
    ((GetState_ignores_version state.sampleStateLibs
      (state.fakeProvider (state.secretEncoded :: state.sampleSecrets)) "empty" "v42").2.2.1
      state.secretNoData rfl (by decide)).2⟩

/-- C25: `GetState` parses the decoding of the `tfstate` data when the data is
accepted by the base64 decoder, and the data unchanged otherwise; in
particular data that begins with an opening brace, as every raw JSON document
does, is parsed unchanged, the decoder being one that rejects that byte. -/
theorem GetState_chooses_bytes {File : Type} (lib : state.StateLibs File)
    (k : state.Kubernetes) (stateName version : String) (secret : state.Secret)
    (stateData : List Nat)
    (hs : k.client.GetSecret k.namespace_ (stateName ++ "-" ++ k.suffix) = .ok secret)
    (hd : GoMap.get? secret.Data "tfstate" = some stateData) :
    (∀ decoded, lib.DecodeString stateData = some decoded →
      (k.GetState lib stateName version).1 = state.readState lib decoded) ∧
    (lib.DecodeString stateData = none →
      (k.GetState lib stateName version).1 = state.readState lib stateData) ∧
    (lib.RejectsBrace → stateData.head? = some 123 →
      (k.GetState lib stateName version).1 = state.readState lib stateData) := by
  rw [GetState_of_data lib k stateName version hs hd]
  refine ⟨?_, ?_, ?_⟩
  · intro decoded h
    rw [h]
  · intro h
    rw [h]
  · intro hr hhead
    cases stateData with
    | nil => cases hhead
    | cons b rest =>
      simp only [List.head?_cons, Option.some.injEq] at hhead
      subst hhead
      rw [hr rest]

theorem GetState_chooses_bytes_witness :
    GoMap.get? state.secretEncoded.Data "tfstate"
      = some (utf8Bytes "eyJ2ZXJzaW9uIjogNCwgInRlcnJhZm9ybV92ZXJzaW9uIjogIjEuMC4wIn0=") ∧
    state.sampleStateLibs.DecodeString
        (utf8Bytes "eyJ2ZXJzaW9uIjogNCwgInRlcnJhZm9ybV92ZXJzaW9uIjogIjEuMC4wIn0=")
      = some state.sampleDocument ∧
    ((state.fakeProvider (state.secretEncoded :: state.sampleSecrets)).GetState
        state.sampleStateLibs "encoded" "").1
      = state.readState state.sampleStateLibs state.sampleDocument ∧
    state.sampleStateLibs.RejectsBrace ∧ state.sampleDocument.head? = some 123 ∧
    ((state.fakeProvider (state.secretEncoded :: state.sampleSecrets)).GetState
        state.sampleStateLibs "test-state" "").1
      = state.readState state.sampleStateLibs state.sampleDocument :=
  ⟨by decide, by decide,
    (GetState_chooses_bytes state.sampleStateLibs
      (state.fakeProvider (state.secretEncoded :: state.sampleSecrets)) "encoded" ""
      state.secretEncoded
      (utf8Bytes "eyJ2ZXJzaW9uIjogNCwgInRlcnJhZm9ybV92ZXJzaW9uIjogIjEuMC4wIn0=") rfl
      (by decide)).1 state.sampleDocument (by decide),
    sampleStateLibs_rejectsBrace, by decide,
    (GetState_chooses_bytes state.sampleStateLibs
      (state.fakeProvider (state.secretEncoded :: state.sampleSecrets)) "test-state" ""
      state.secretTestState state.sampleDocument rfl (by decide)).2.2
      sampleStateLibs_rejectsBrace (by decide)⟩

end Terraboard
